import Mathlib

/-!
Verification of the sheNANDigans NAND-circuit interpreter.

This file shallowly embeds the C sources:
  * `data.h`            — the data model (wire states, circuits, modules, stack);
  * `instruction.c`     — the ring buffer (`init_ring`, `push_module`, `pop_module`)
                          and the decoder's module append (`push_instr`);
  * the simulator       — `simulate_nand` and `simulate_circuit`;
  * `interpreter.c`     — the streaming bytecode decoder state machine.

Machine integers are modelled as `Nat`/`Int`; C `assert`/`exit(-1)` aborts are
modelled by `Option`/explicit failure constructors.  Global mutable state
(`STACK`, `CIRCUITS`) is threaded explicitly.
-/

namespace SheNand

/-- `STACK_DEPTH` from `data.h`. -/
def STACK_DEPTH : Nat := 8

/-- `WIRE_SIZE` from `data.h`. -/
def WIRE_SIZE : Nat := 32

/-- `OPS_COUNT` from `data.h`. -/
def OPS_COUNT : Nat := 32

/-- `MAX_OPS` from `data.h`. -/
def MAX_OPS : Nat := 32

/-- `IN_BUF_SIZE` from `data.h`. -/
def IN_BUF_SIZE : Nat := 1024

/-- Tri-valued wire state, from `data.h` (`UNDEFINED = 0, OFF, ON`). -/
inductive WireState where
  | UNDEFINED
  | OFF
  | ON
deriving DecidableEq, Repr, Inhabited

open WireState

/-- `Module` from `data.h`: one application of a circuit inside another circuit's
definition.  The C struct stores a fixed `int wirings[WIRE_SIZE]` array of which
only the first `n_inputs + n_outputs` (of the target) entries are meaningful; we
keep the meaningful prefix as a list (reads beyond it use `getD _ 0`, matching
the zero-initialised C array). -/
structure Module where
  id_circuit : Nat
  wirings : List Nat
deriving DecidableEq, Repr, Inhabited

/-- `Circuit` from `data.h`.  The counts are C `int`s (they are decremented by
the decoder's arity inference, so we keep them as `Int` to model underflow
faithfully). -/
structure Circuit where
  n_inputs : Int
  n_outputs : Int
  n_modules : Int
  modules : List Module
deriving DecidableEq, Repr

/-- The all-zero circuit: the initial content of every `CIRCUITS` slot. -/
def zeroCircuit : Circuit := ⟨0, 0, 0, []⟩

instance : Inhabited Circuit := ⟨zeroCircuit⟩

/-- The global `CIRCUITS[OPS_COUNT]` table, as a list of circuits indexed by
id. -/
abbrev Table := List Circuit

/-- Read one entry of the circuit table (`CIRCUITS[idx]`). -/
def tget (t : Table) (idx : Nat) : Circuit := t.getD idx zeroCircuit

/-- Write one entry of the circuit table (`CIRCUITS[idx] = c`). -/
def tset (t : Table) (idx : Nat) (c : Circuit) : Table := t.set idx c

/-- The initial, all-zero circuit table. -/
def emptyTable : Table := List.replicate OPS_COUNT zeroCircuit

/-- The numeric code of a wire state: exactly the C `WireState` enum value
(`UNDEFINED = 0, OFF = 1, ON = 2`). -/
def encodeW : WireState → Nat
  | UNDEFINED => 0
  | OFF => 1
  | ON => 2

/-- The wire state denoted by a numeric code. -/
def decodeW (n : Nat) : WireState :=
  if n = 1 then OFF else if n = 2 then ON else UNDEFINED

/-- One wire frame (`WireState[WIRE_SIZE]`), modelled as a natural number
holding one base-4 digit per wire index; the digit values are the C enum
values of `WireState`.  The zero frame is the all-`UNDEFINED` frame. -/
abbrev Frame := Nat

/-- Read wire `i` of a frame: digit `i` in base 4. -/
def fread (f i : Nat) : Nat := f / 4 ^ i % 4

/-- Overwrite wire `i` of a frame with code `v`: replace digit `i` in base
4. -/
def fwrite (f i v : Nat) : Nat := f - f / 4 ^ i % 4 * 4 ^ i + v * 4 ^ i

/-- The global `STACK[STACK_DEPTH][WIRE_SIZE]` of wire frames, one frame per
nesting depth. -/
abbrev Stack := List Frame

/-- `STACK[d][i]` (out-of-range frame reads return the zero frame, whose every
wire is `UNDEFINED`). -/
def stackRead (st : Stack) (d i : Nat) : WireState :=
  decodeW (fread (st.getD d 0) i)

/-- `STACK[d][i] = v` (writes to an out-of-range frame are dropped; all writes
performed by the C code are in range). -/
def stackWrite (st : Stack) (d i : Nat) (v : WireState) : Stack :=
  st.set d (fwrite (st.getD d 0) i (encodeW v))

/-- The zero-initialised stack (`UNDEFINED` is the zero wire state). -/
def initStack : Stack := List.replicate STACK_DEPTH 0

/-- `Ring` from `ring.h`: a circular buffer of modules.  The backing
`Module[MAX_OPS]` array is modelled as a map from array index to module. -/
structure Ring where
  capacity : Nat
  size : Nat
  idx_begin : Nat
  idx_end : Nat
  modules : Nat → Module

/-- Write one cell of a module array. -/
def mupd (f : Nat → Module) (i : Nat) (m : Module) : Nat → Module :=
  fun j => if j = i then m else f j

/-- `assert_valid_circuit` from `instruction.c`, as a boolean check: the
simulator aborts (via `assert`) when it fails. -/
def validCircuitB (c : Circuit) : Bool :=
  0 < c.n_inputs && 0 < c.n_outputs && 0 < c.n_modules && c.n_modules < (MAX_OPS : Int)

/-- `assert_valid_ring` from `instruction.c`, as a boolean check (the index
bounds; sizes are `Nat` so the `>= 0` asserts are automatic). -/
def validRingB (r : Ring) : Bool :=
  0 < r.capacity && r.size ≤ r.capacity && r.idx_begin < r.capacity && r.idx_end < r.capacity

/-- `init_ring` from `instruction.c`: pre-load the ring with the circuit's
modules, in definition order.  `none` models the `assert` aborts. -/
def init_ring (c : Circuit) : Option Ring :=
  if validCircuitB c then
    let r : Ring :=
      { capacity := MAX_OPS
        size := c.n_modules.toNat
        idx_begin := 0
        idx_end := c.n_modules.toNat
        modules := fun i => c.modules.getD i default }
    if validRingB r then some r else none
  else none

/-- `pop_module` from `instruction.c`.  `none` models the `assert` aborts
(invalid ring or popping an empty ring). -/
def pop_module (r : Ring) : Option (Module × Ring) :=
  if validRingB r ∧ 0 < r.size then
    let m := r.modules r.idx_begin
    let r' : Ring := { r with idx_begin := (r.idx_begin + 1) % r.capacity, size := r.size - 1 }
    if validRingB r' then some (m, r') else none
  else none

/-- `push_module` from `instruction.c`.  `none` models the `assert` aborts; in
particular pushing onto a full ring (`size == capacity`) is rejected rather
than overwriting. -/
def push_module (r : Ring) (m : Module) : Option Ring :=
  if validRingB r ∧ r.size < r.capacity then
    let r' : Ring :=
      { r with modules := mupd r.modules r.idx_end m,
               idx_end := (r.idx_end + 1) % r.capacity,
               size := r.size + 1 }
    if validRingB r' then some r' else none
  else none

/-- The abstract content of a ring: its `size` pending modules in FIFO order,
starting at `idx_begin` and wrapping at `capacity`. -/
def ringList (r : Ring) : List Module :=
  (List.range r.size).map fun i => r.modules ((r.idx_begin + i) % r.capacity)

/-- The ring invariant: the `assert_valid_ring` bounds together with the
queue-shape fact `idx_end = (idx_begin + size) % capacity`, which
`init_ring` establishes and `push_module`/`pop_module` preserve. -/
def RingInv (r : Ring) : Prop :=
  validRingB r = true ∧ r.idx_end = (r.idx_begin + r.size) % r.capacity

/-- `simulate_nand` from the simulator source: read the two input wires of
frame `lvl`, write the NAND of them (or `UNDEFINED` if either is unresolved)
to wire 2, and report readiness. -/
def simulate_nand (lvl : Nat) (st : Stack) : Stack × Bool :=
  let first := stackRead st lvl 0
  let second := stackRead st lvl 1
  let nand : WireState :=
    if first ≠ UNDEFINED ∧ second ≠ UNDEFINED then
      if first = ON ∧ second = ON then OFF else ON
    else UNDEFINED
  (stackWrite st lvl 2 nand, nand ≠ UNDEFINED)

/-- The input-copy loop of `simulate_circuit`:
`STACK[depth+1][in] = STACK[depth][wirings[in]]` for `in = 0 .. n_inputs-1`. -/
def copyInputs (wirings : List Nat) (nIn depth : Nat) (st : Stack) : Stack :=
  (List.range nIn).foldl
    (fun s j => stackWrite s (depth + 1) j (stackRead s depth (wirings.getD j 0))) st

/-- The output-copy loop of `simulate_circuit`:
`STACK[depth][wirings[out]] = STACK[depth+1][out]` for
`out = n_inputs .. n_inputs+n_outputs-1`. -/
def copyOutputs (wirings : List Nat) (nIn nOut depth : Nat) (st : Stack) : Stack :=
  (List.range nOut).foldl
    (fun s k => stackWrite s depth (wirings.getD (nIn + k) 0) (stackRead s (depth + 1) (nIn + k))) st

/-- Result of evaluating one module (the body of `simulate_circuit`'s loop):
the updated stack and the module's success flag, or an abort (failed C
`assert`), or recursion-fuel exhaustion (which never occurs; see `C6`). -/
inductive MRes where
  | mok (st : Stack) (success : Bool)
  | mabort
  | mfuelOut

/-- Result of one full pass of the ring scheduler. -/
inductive PassRes where
  | pok (ring : Ring) (st : Stack)
  | pabort
  | pfuelOut

/-- Result of `simulate_circuit`: the final stack, the overall success flag and
the number of full passes executed, or an abort, or fuel exhaustion. -/
inductive SimRes where
  | done (st : Stack) (success : Bool) (passes : Nat)
  | abort
  | fuelOut
deriving Repr

/-- One iteration of `simulate_circuit`'s loop: pop a module, copy its inputs
one frame down, evaluate it (NAND primitive for id 0, recursively otherwise),
push it back on the tail on failure, copy the child frame's output slots back
up (the C code does this unconditionally), and drop back to the parent depth.
`evalSub` is the recursive call `simulate_circuit · (depth+1) ·`. -/
def evalModule (table : Table) (evalSub : Nat → Nat → Stack → SimRes)
    (depth : Nat) (m : Module) (st : Stack) : MRes :=
  let tgt := tget table m.id_circuit
  let nIn := tgt.n_inputs.toNat
  let nOut := tgt.n_outputs.toNat
  let st1 := copyInputs m.wirings nIn depth st
  let sub : SimRes :=
    if m.id_circuit = 0 then
      let (st2, ready) := simulate_nand (depth + 1) st1
      SimRes.done st2 ready 0
    else evalSub m.id_circuit (depth + 1) st1
  match sub with
  | SimRes.done st2 success _ => MRes.mok (copyOutputs m.wirings nIn nOut depth st2) success
  | SimRes.abort => MRes.mabort
  | SimRes.fuelOut => MRes.mfuelOut

/-- One full pass of the scheduler: attempt `k` modules from the head of the
ring (`k` is the `modules_remaining` counter), re-enqueueing failures at the
tail. -/
def runPass (evalM : Module → Stack → MRes) : Nat → Ring → Stack → PassRes
  | 0, ring, st => PassRes.pok ring st
  | k + 1, ring, st =>
    match pop_module ring with
    | none => PassRes.pabort
    | some (m, ring1) =>
      match evalM m st with
      | MRes.mok st' success =>
        if success then runPass evalM k ring1 st'
        else
          match push_module ring1 m with
          | none => PassRes.pabort
          | some ring2 => runPass evalM k ring2 st'
      | MRes.mabort => PassRes.pabort
      | MRes.mfuelOut => PassRes.pfuelOut

/-- The pass loop of `simulate_circuit`: after a full pass of `isize` attempts,
compare the ring's size against `isize` (`initial_ring_size`): equal means a
stall (overall failure), zero means every module resolved (success), and a
strict decrease starts a new pass.  The C `while` loop terminates because
`initial_ring_size` strictly decreases; here `pfuel` is a structural bound on
the number of passes, initialised to `isize` (which always suffices, see `C6`).
The returned `Nat` counts the executed passes. -/
def passLoop (evalM : Module → Stack → MRes) : Nat → Nat → Ring → Stack → SimRes
  | 0, _, _, _ => SimRes.fuelOut
  | pfuel + 1, isize, ring, st =>
    match runPass evalM isize ring st with
    | PassRes.pok ring' st' =>
      if ring'.size = isize then SimRes.done st' false 1
      else if ring'.size = 0 then SimRes.done st' true 1
      else if ring'.size < isize then
        match passLoop evalM pfuel ring'.size ring' st' with
        | SimRes.done st'' b p => SimRes.done st'' b (p + 1)
        | r => r
      else SimRes.abort
    | PassRes.pabort => SimRes.abort
    | PassRes.pfuelOut => SimRes.fuelOut

/-- `simulate_circuit` from the simulator source.  `dgas` bounds the recursion
depth (the C recursion is bounded by the `stack_depth < STACK_DEPTH - 1`
assert, so `dgas = STACK_DEPTH` always suffices; see `C6`).  `SimRes.abort`
models the C `assert` aborts. -/
def simulateC (table : Table) : Nat → Nat → Nat → Stack → SimRes
  | 0, _, _, _ => SimRes.fuelOut
  | dgas + 1, cid, depth, st =>
    if depth < STACK_DEPTH - 1 then
      match init_ring (tget table cid) with
      | some ring =>
        passLoop (evalModule table (simulateC table dgas) depth) ring.size ring.size ring st
      | none => SimRes.abort
    else SimRes.abort

/-! ## The bytecode decoder (`interpreter.c`) -/

/-- The decoder's read-ahead buffer (`struct buffer` in `interpreter.c`).
`data` is the buffered chunk, `source`/`source_length_left` the remaining
external source. -/
structure Buffer where
  data : List Nat
  processed : Nat
  data_length : Nat
  source : List Nat
  source_length_left : Nat
deriving Repr

/-- `read_to_buffer`: refill the buffer with the next chunk (the C `memcpy`
always copies from the head of `source`; `source_length_left` is all that
advances, so after the first full fill later refills copy zero bytes). -/
def read_to_buffer (buf : Buffer) : Buffer :=
  let to_read := min buf.source_length_left IN_BUF_SIZE
  { buf with
    processed := 0
    data := buf.source.take to_read
    data_length := to_read
    source_length_left := buf.source_length_left - to_read }

/-- `manage_buffer`: refill when the buffered chunk is exhausted. -/
def manage_buffer (buf : Buffer) : Buffer :=
  if buf.processed = buf.data_length then read_to_buffer buf else buf

/-- `read_byte`: consume the next byte (`none` models the C `NULL` return at
end of stream).  The returned buffer is the mutated C buffer. -/
def read_byte (buf : Buffer) : Option Nat × Buffer :=
  let b := manage_buffer buf
  if b.data_length = 0 then (none, b)
  else (some (b.data.getD b.processed 0), { b with processed := b.processed + 1 })

/-- `peek_byte`: look at the next byte without consuming it. -/
def peek_byte (buf : Buffer) : Option Nat × Buffer :=
  let b := manage_buffer buf
  if b.data_length = 0 then (none, b)
  else (some (b.data.getD b.processed 0), b)

/-- `OPERATION_MASK` (`0b0011111`) from `interpreter.c`. -/
def OPERATION_MASK : Nat := 31

/-- `is_operation_instr`: bit 7 of the byte. -/
def is_operation_instr (b : Nat) : Bool := ((b >>> 7) &&& 1) == 1

/-- `is_define_limit_instr`: bit 6 of the byte. -/
def is_define_limit_instr (b : Nat) : Bool := ((b >>> 6) &&& 1) == 1

/-- `isOpDefined` from `interpreter.c`: id 0 (NAND) is always defined; any
other id is defined iff its committed arity and module count are all
non-zero. -/
def isOpDefined (t : Table) (idx : Nat) : Bool :=
  !(idx ≠ 0 && ((tget t idx).n_inputs == 0 || (tget t idx).n_outputs == 0 ||
    (tget t idx).n_modules == 0))

/-- `interpreter_state` from `interpreter.c`.  The `in`/`med`/`out` occurrence
counters (C `int[WIRE_SIZE]` arrays) are modelled as total maps. -/
structure InterpState where
  new_op : Circuit
  new_op_Idx : Nat
  applying_op_literalCount : Nat
  applying_op_inCount : Int
  applying_op_OutCount : Int
  applying_op_AppIdx : Nat
  applying_op_defining_args : List Nat
  inA : Nat → Int
  medA : Nat → Int
  outA : Nat → Int

/-- `init_interpreter_state`: zero everything (called once per `interpret`
call, not per definition). -/
def init_interpreter_state : InterpState :=
  { new_op := zeroCircuit
    new_op_Idx := 0
    applying_op_literalCount := 0
    applying_op_inCount := 0
    applying_op_OutCount := 0
    applying_op_AppIdx := 0
    applying_op_defining_args := List.replicate WIRE_SIZE 0
    inA := fun _ => 0
    medA := fun _ => 0
    outA := fun _ => 0 }

/-- Modelled from the spec: `init_operation` lives in `operation.c`, which is
not among the provided sources.  Per the spec's `StartDefine` transition it
initialises "an empty candidate circuit (arity 0/0, no modules)". -/
def init_operation : Circuit := zeroCircuit

/-- `check_in_args`: the inferred input count is in bounds and the wire values
`0 .. nIn-1` were all recorded as inputs ("input not consecutive at beginning"
otherwise). -/
def check_in_args (args : Nat → Int) (nIn : Int) : Bool :=
  if nIn < 0 ∨ (WIRE_SIZE : Int) - 1 ≤ nIn then false
  else (List.range nIn.toNat).all fun i => args i ≠ 0

/-- `check_out_args`: the inferred output count is in bounds and the wire
values `nIn .. nIn+nOut-1` were all recorded as outputs. -/
def check_out_args (args : Nat → Int) (nOut nIn : Int) : Bool :=
  if nOut < 0 ∨ (WIRE_SIZE : Int) - 1 ≤ nOut then false
  else (List.range nOut.toNat).all fun k => args (nIn.toNat + k) ≠ 0

/-- `check_instr_count`: the module count is in bounds (note that a count of
zero passes this check). -/
def check_instr_count (count : Int) : Bool :=
  !(count < 0 ∨ (MAX_OPS : Int) ≤ count)

/-- `add_op` from `interpreter.c`: validate the candidate and commit it into
the circuit table (`none` models returning 0, which `end_def` turns into a
fatal abort). -/
def add_op (s : InterpState) (t : Table) : Option Table :=
  if check_in_args s.inA s.new_op.n_inputs &&
     check_out_args s.outA s.new_op.n_outputs s.new_op.n_inputs &&
     check_instr_count s.new_op.n_modules then
    some (tset t s.new_op_Idx s.new_op)
  else none

/-- `push_instr` from `instruction.c`: append the module, then abort if the
module-count bound is exceeded (the C check runs after the increment). -/
def push_instr (op : Circuit) (m : Module) : Option Circuit :=
  let op' : Circuit := { op with modules := op.modules ++ [m], n_modules := op.n_modules + 1 }
  if (MAX_OPS : Int) ≤ op'.n_modules then none else some op'

/-- `build_and_push_instr` from `instruction.c`. -/
def build_and_push_instr (op : Circuit) (args : List Nat) (nArgs : Nat) (opIdx : Nat) :
    Option Circuit :=
  if WIRE_SIZE ≤ nArgs then none
  else push_instr op { id_circuit := opIdx, wirings := args.take nArgs }

/-- The arity-inference core of `read_args`: classify one literal `b`,
depending on whether it fills an input slot (`isInput`) or an output slot of
the pending application, updating the occurrence counters and the candidate's
inferred arity. -/
def classify_arg (isInput : Bool) (b : Nat) (s : InterpState) : InterpState :=
  if isInput then
    if s.medA b ≠ 0 then s
    else if s.outA b ≠ 0 then
      { s with
        outA := Function.update s.outA b 0
        inA := Function.update s.inA b 0
        medA := Function.update s.medA b 1
        new_op := { s.new_op with n_outputs := s.new_op.n_outputs - 1 } }
    else
      { s with
        inA := Function.update s.inA b (s.inA b + 1)
        new_op :=
          if s.inA b + 1 = 1 then { s.new_op with n_inputs := s.new_op.n_inputs + 1 }
          else s.new_op }
  else
    if s.medA b ≠ 0 then s
    else if s.inA b ≠ 0 then
      { s with
        outA := Function.update s.outA b 0
        inA := Function.update s.inA b 0
        medA := Function.update s.medA b 1
        new_op := { s.new_op with n_inputs := s.new_op.n_inputs - 1 } }
    else
      { s with
        outA := Function.update s.outA b (s.outA b + 1)
        new_op :=
          if s.outA b + 1 = 1 then { s.new_op with n_outputs := s.new_op.n_outputs + 1 }
          else s.new_op }

/-- The states of the decoder: one per `state_fn` of `interpreter.c`. -/
inductive SMTag where
  | tBegin
  | tStartDefine
  | tDefineIter
  | tEndDef
  | tStartApply
  | tReadArgs
  | tAddInstruction
deriving DecidableEq, Repr

open SMTag

/-- `sm_state` from `interpreter.c`: the dispatch tag (the C function
pointer), the last byte read, the buffer, the interpreter state and the
(global, here threaded) circuit table. -/
structure SMState where
  tag : SMTag
  b : Nat
  buf : Buffer
  ist : InterpState
  table : Table

/-- Outcome of one state-machine step: continue, halt normally (`next = NULL`)
with the final table, or abort fatally (`exit(-1)`). -/
inductive StepRes where
  | cont (s : SMState)
  | halt (t : Table)
  | fail

/-- The tail of `read_args` after the classification: store the literal in the
argument array, advance the literal counter, and move to `add_instruction`
once all expected literals are in. -/
def read_args_finish (s : SMState) (buf' : Buffer) (b : Nat) (ist1 : InterpState) : StepRes :=
  let processed := ist1.applying_op_literalCount
  let expected := ist1.applying_op_inCount + ist1.applying_op_OutCount
  let args' := ist1.applying_op_defining_args.set processed b
  let processed' := processed + 1
  if (processed' : Int) = expected then
    let ist2 := { ist1 with applying_op_defining_args := args', applying_op_literalCount := 0 }
    StepRes.cont { s with tag := tAddInstruction, b := b, buf := buf', ist := ist2 }
  else
    let ist2 :=
      { ist1 with applying_op_defining_args := args', applying_op_literalCount := processed' }
    StepRes.cont { s with tag := tReadArgs, b := b, buf := buf', ist := ist2 }

/-- One step of the decoder state machine, mirroring the seven `state_fn`
bodies of `interpreter.c` (`begin`, `start_define`, `define_op_next_iter`,
`end_def`, `start_apply`, `read_args`, `add_instruction`). -/
def smStep (s : SMState) : StepRes :=
  match s.tag with
  | tBegin =>
    match read_byte s.buf with
    | (none, _) => StepRes.halt s.table
    | (some b, buf') =>
      if is_operation_instr b then
        if is_define_limit_instr b then
          StepRes.cont { s with tag := tStartDefine, b := b, buf := buf' }
        else StepRes.fail
      else StepRes.fail
  | tStartDefine =>
    let idx := s.b &&& OPERATION_MASK
    if isOpDefined s.table idx then StepRes.fail
    else
      let ist' := { s.ist with new_op := init_operation, new_op_Idx := idx }
      StepRes.cont { s with tag := tDefineIter, ist := ist' }
  | tDefineIter =>
    match read_byte s.buf with
    | (none, _) => StepRes.fail
    | (some b, buf') =>
      if is_operation_instr b then
        if is_define_limit_instr b then
          StepRes.cont { s with tag := tEndDef, b := b, buf := buf' }
        else
          StepRes.cont { s with tag := tStartApply, b := b, buf := buf' }
      else StepRes.fail
  | tEndDef =>
    match add_op s.ist s.table with
    | some t' => StepRes.cont { s with tag := tBegin, table := t' }
    | none => StepRes.fail
  | tStartApply =>
    let idx := s.b &&& OPERATION_MASK
    if isOpDefined s.table idx then
      let ist' :=
        { s.ist with
          applying_op_AppIdx := idx,
          applying_op_inCount := (tget s.table idx).n_inputs,
          applying_op_OutCount := (tget s.table idx).n_outputs,
          applying_op_literalCount := 0 }
      StepRes.cont { s with tag := tReadArgs, ist := ist' }
    else StepRes.fail
  | tReadArgs =>
    match peek_byte s.buf with
    | (none, _) => StepRes.fail
    | (some b, bufP) =>
      if is_operation_instr b then StepRes.fail
      else
        let buf' := (read_byte bufP).2
        let ist0 := s.ist
        if (ist0.applying_op_literalCount : Int) < ist0.applying_op_inCount then
          read_args_finish s buf' b (classify_arg true b ist0)
        else if (ist0.applying_op_literalCount : Int) <
            ist0.applying_op_inCount + ist0.applying_op_OutCount then
          read_args_finish s buf' b (classify_arg false b ist0)
        else StepRes.fail
  | tAddInstruction =>
    let ist := s.ist
    let expected := (ist.applying_op_inCount + ist.applying_op_OutCount).toNat
    match build_and_push_instr ist.new_op ist.applying_op_defining_args expected
        ist.applying_op_AppIdx with
    | none => StepRes.fail
    | some op' =>
      StepRes.cont { s with tag := tDefineIter, ist := { ist with new_op := op' } }

/-- The `while (sm_state.next != NULL)` driver loop, with a step budget
(`4 * length + 8` always suffices: every two steps consume a byte). `none`
models a fatal abort (or an exhausted budget, which never happens). -/
def runSM : Nat → SMState → Option Table
  | 0, _ => none
  | fuel + 1, s =>
    match smStep s with
    | StepRes.halt t => some t
    | StepRes.fail => none
    | StepRes.cont s' => runSM fuel s'

/-- `interpret` from `interpreter.c`: reject oversized streams before reading
anything, then prime the buffer and run the state machine from `begin`. -/
def interpret (data : List Nat) (t : Table) : Option Table :=
  if IN_BUF_SIZE ≤ data.length then none
  else
    let buf0 : Buffer :=
      { data := [], processed := 0, data_length := 0,
        source := data, source_length_left := data.length }
    let buf1 := read_to_buffer buf0
    runSM (4 * data.length + 8)
      { tag := tBegin, b := 0, buf := buf1, ist := init_interpreter_state, table := t }

/-! ## The concrete program (`main`): the seeded NAND and the byte streams -/

/-- The seeded NAND primitive (`CIRCUITS[0]` in `main`): 2 inputs, 1 output,
one all-zero module entry. -/
def nandCircuit : Circuit :=
  { n_inputs := 2, n_outputs := 1, n_modules := 1,
    modules := [{ id_circuit := 0, wirings := List.replicate WIRE_SIZE 0 }] }

/-- The circuit table after `main` seeds the NAND primitive. -/
def T0 : Table := tset emptyTable 0 nandCircuit

/-- The `not` byte stream from `main` (defines circuit 1). -/
def notBytes : List Nat :=
  [0b11000001, 0b10000000, 0b00000000, 0b00000000, 0b00000001, 0b11000001]

/-- The `and` byte stream from `main` (defines circuit 2). -/
def andBytes : List Nat :=
  [0b11000010, 0b10000000, 0b00000000, 0b00000001, 0b00000011,
   0b10000001, 0b00000011, 0b00000010, 0b11000010]

/-- The `or` byte stream from `main` (defines circuit 3). -/
def orBytes : List Nat :=
  [0b11000011, 0b10000000, 0b00000000, 0b00000000, 0b00000011,
   0b10000000, 0b00000001, 0b00000001, 0b00000100,
   0b10000000, 0b00000011, 0b00000100, 0b00000010, 0b11000011]

/-- The `nor` byte stream from `main` (defines circuit 4). -/
def norBytes : List Nat :=
  [0b11000100, 0b10000011, 0b00000000, 0b00000001, 0b00000011,
   0b10000001, 0b00000011, 0b00000010, 0b11000100]

/-- The `xor` byte stream from `main` (defines circuit 5). -/
def xorBytes : List Nat :=
  [0b11000101, 0b10000000, 0b00000000, 0b00000001, 0b00000011,
   0b10000000, 0b00000000, 0b00000011, 0b00000100,
   0b10000000, 0b00000001, 0b00000011, 0b00000101,
   0b10000000, 0b00000100, 0b00000101, 0b00000010, 0b11000101]

/-- The `halfAdd` byte stream from `main` (defines circuit 6). -/
def halfAddBytes : List Nat :=
  [0b11000110, 0b10000101, 0b00000000, 0b00000001, 0b00000011,
   0b10000010, 0b00000000, 0b00000001, 0b00000010, 0b11000110]

/-- The `fullAdd` byte stream from `main` (defines circuit 7). -/
def fullAddBytes : List Nat :=
  [0b11000111, 0b10000101, 0b00000000, 0b00000001, 0b00000101,
   0b10000101, 0b00000101, 0b00000010, 0b00000100,
   0b10000010, 0b00000101, 0b00000010, 0b00000110,
   0b10000010, 0b00000000, 0b00000001, 0b00000111,
   0b10000011, 0b00000110, 0b00000111, 0b00000011, 0b11000111]

/-- The `fourBitAdd` byte stream from `main` (defines circuit 8). -/
def fourBitAddBytes : List Nat :=
  [0b11001000,
   0b10000111, 0b00000011, 0b00000111, 0b00001000, 0b00001110, 0b00001101,
   0b10000111, 0b00000010, 0b00000110, 0b00001110, 0b00001111, 0b00001100,
   0b10000111, 0b00000001, 0b00000101, 0b00001111, 0b00010000, 0b00001011,
   0b10000111, 0b00000000, 0b00000100, 0b00010000, 0b00001001, 0b00001010,
   0b11001000]

/-- The circuit table after `main` has decoded all eight definition streams
(NAND seeded as id 0; NOT, AND, OR, NOR, XOR, half-adder, full-adder and
four-bit adder as ids 1-8). -/
def decodedTable : Option Table := do
  let t1 ← interpret notBytes T0
  let t2 ← interpret andBytes t1
  let t3 ← interpret orBytes t2
  let t4 ← interpret norBytes t3
  let t5 ← interpret xorBytes t4
  let t6 ← interpret halfAddBytes t5
  let t7 ← interpret fullAddBytes t6
  interpret fourBitAddBytes t7

/-- `intToWire` from the test harness. -/
def intToWire (x : Int) : WireState :=
  if x = 0 then OFF else if x = 1 then ON else UNDEFINED

/-- `wireToInt` from the test harness. -/
def wireToInt (w : WireState) : Int :=
  if w = OFF then 0 else if w = ON then 1 else -1

/-- The stack prepared by `check4bitsAdder` for one test case: frame 0 holds
the bits of `a` (MSB first) in slots 0-3, the bits of `b` in slots 4-7 and the
carry-in in slot 8; everything else is `UNDEFINED` (the `memset`, and the
zero-initialised global stack for the deeper frames). -/
def adderStack (a b c : Nat) : Stack :=
  let bit (x k : Nat) : WireState := intToWire (((x >>> k) &&& 1 : Nat) : Int)
  let vals := [bit a 3, bit a 2, bit a 1, bit a 0, bit b 3, bit b 2, bit b 1, bit b 0, bit c 0]
  (List.range 9).foldl (fun st i => stackWrite st 0 i (vals.getD i UNDEFINED)) initStack

/-- One `check4bitsAdder` test case: decode the whole program, simulate
circuit 8 at depth 0 on `adderStack a b c`, require success, and check
`carry_out*16 + s3*8 + s2*4 + s1*2 + s0 = a + b + c` on frame-0 slots 9-13. -/
def adderCheck (a b c : Nat) : Bool :=
  match decodedTable with
  | none => false
  | some t =>
    match simulateC t STACK_DEPTH 8 0 (adderStack a b c) with
    | SimRes.done st true _ =>
      let rd (i : Nat) : Int := wireToInt (stackRead st 0 i)
      rd 9 * 16 + rd 10 * 8 + rd 11 * 4 + rd 12 * 2 + rd 13 == (a : Int) + b + c
    | _ => false

/-- A single-NAND test circuit wired `(0, 1) → 2`, used to exhibit the
behaviour of a not-ready iteration of the scheduler loop. -/
def c4Table : Table := [nandCircuit, ⟨2, 1, 1, [⟨0, [0, 1, 2]⟩]⟩]

/-- A frame-0 state with wire 0 `UNDEFINED`, wire 1 `ON` and the output wire 2
pre-set to `ON`. -/
def c4Stack : Stack := stackWrite (stackWrite initStack 0 1 ON) 0 2 ON

/-- Probe for the not-ready iteration: simulating the single-NAND circuit on
`c4Stack` stalls after one pass (the NAND is not ready), yet wire 2 of frame 0
— `ON` before the call — has been overwritten with the child frame's
`UNDEFINED` output. -/
def c4Probe : Bool :=
  match simulateC c4Table STACK_DEPTH 1 0 c4Stack with
  | SimRes.done st' false 1 =>
    (stackRead c4Stack 0 2 == ON) && (stackRead st' 0 2 == UNDEFINED)
  | _ => false

/-- The number of wire values (in `0 .. WIRE_SIZE-1`) currently carrying a
non-zero mark in an occurrence-counter array of the decoder. -/
def classCard (g : Nat → Int) : Nat :=
  ((Finset.range WIRE_SIZE).filter fun b => g b ≠ 0).card

/-- The decoder-array invariant over plain components (`ni`/`no` the inferred
counts, `gi`/`gm`/`go` the `in`/`med`/`out` occurrence counters): the counts
equal the number of wire values marked input/output, the counters are
non-negative, each wire value is in at most one class, and no wire value at or
beyond `WIRE_SIZE` is marked (the C arrays have `WIRE_SIZE` cells). -/
def ClassInvA (ni no : Int) (gi gm go : Nat → Int) : Prop :=
  ni = (classCard gi : Int) ∧
  no = (classCard go : Int) ∧
  (∀ b : Nat, 0 ≤ gi b ∧ 0 ≤ gm b ∧ 0 ≤ go b) ∧
  (∀ b : Nat, (gi b ≠ 0 → gm b = 0 ∧ go b = 0) ∧ (go b ≠ 0 → gm b = 0 ∧ gi b = 0)) ∧
  (∀ b : Nat, WIRE_SIZE ≤ b → gi b = 0 ∧ gm b = 0 ∧ go b = 0)

/-- The decoder-state invariant behind the slot-layout property. -/
def ClassInv (s : InterpState) : Prop :=
  ClassInvA s.new_op.n_inputs s.new_op.n_outputs s.inA s.medA s.outA

/-! ## The decoded program and its Boolean semantics -/

/-- `ON`/`OFF` as a Boolean: the wire state carrying the bit `b`. -/
def wb (b : Bool) : WireState := if b then ON else OFF

/-- Boolean sum bit of a full adder. -/
def sumF (x y c : Bool) : Bool := xor (xor x y) c

/-- Boolean carry bit of a full adder. -/
def carryF (x y c : Bool) : Bool := (xor x y && c) || (x && y)

/-- Run a list of modules in order, requiring each to succeed immediately
(the dependency-ordered schedule the decoded circuits follow: every module is
ready when first attempted, so each full pass of the ring resolves everything
it attempts). -/
def evalChain (evalM : Module → Stack → MRes) : List Module → Stack → Option Stack
  | [], st => some st
  | m :: ms, st =>
    match evalM m st with
    | MRes.mok st1 true => evalChain evalM ms st1
    | _ => none

/-- The circuit table that `main`'s decoding produces, as a literal:
NAND (id 0), NOT (1), AND (2), OR (3), NOR (4), XOR (5), half adder (6),
full adder (7) and four-bit adder (8); the remaining 23 slots stay zero
(`decodedTable_eq` proves `decodedTable = some litTable`). -/
def litTable : Table :=
  [⟨2, 1, 1, [⟨0, List.replicate WIRE_SIZE 0⟩]⟩,
   ⟨1, 1, 1, [⟨0, [0, 0, 1]⟩]⟩,
   ⟨2, 1, 2, [⟨0, [0, 1, 3]⟩, ⟨1, [3, 2]⟩]⟩,
   ⟨2, 1, 3, [⟨0, [0, 0, 3]⟩, ⟨0, [1, 1, 4]⟩, ⟨0, [3, 4, 2]⟩]⟩,
   ⟨2, 1, 2, [⟨3, [0, 1, 3]⟩, ⟨1, [3, 2]⟩]⟩,
   ⟨2, 1, 4, [⟨0, [0, 1, 3]⟩, ⟨0, [0, 3, 4]⟩, ⟨0, [1, 3, 5]⟩, ⟨0, [4, 5, 2]⟩]⟩,
   ⟨2, 2, 2, [⟨5, [0, 1, 3]⟩, ⟨2, [0, 1, 2]⟩]⟩,
   ⟨3, 2, 5, [⟨5, [0, 1, 5]⟩, ⟨5, [5, 2, 4]⟩, ⟨2, [5, 2, 6]⟩, ⟨2, [0, 1, 7]⟩,
              ⟨3, [6, 7, 3]⟩]⟩,
   ⟨9, 5, 4, [⟨7, [3, 7, 8, 14, 13]⟩, ⟨7, [2, 6, 14, 15, 12]⟩,
              ⟨7, [1, 5, 15, 16, 11]⟩, ⟨7, [0, 4, 16, 9, 10]⟩]⟩,
   zeroCircuit, zeroCircuit, zeroCircuit, zeroCircuit, zeroCircuit, zeroCircuit,
   zeroCircuit, zeroCircuit, zeroCircuit, zeroCircuit, zeroCircuit, zeroCircuit,
   zeroCircuit, zeroCircuit, zeroCircuit, zeroCircuit, zeroCircuit, zeroCircuit,
   zeroCircuit, zeroCircuit, zeroCircuit, zeroCircuit, zeroCircuit]

/-- Bit `k` of `x`, as the Boolean the test harness feeds into the stack
(`(x >> k) & 1`). -/
def wbit (x k : Nat) : Bool := (x >>> k) &&& 1 == 1

/-- The nine frame-0 wire values `check4bitsAdder` prepares (bits of `a` MSB
first, bits of `b` MSB first, the carry-in). -/
def adderVals (a b c : Nat) : List WireState :=
  [intToWire (((a >>> 3) &&& 1 : Nat) : Int), intToWire (((a >>> 2) &&& 1 : Nat) : Int),
   intToWire (((a >>> 1) &&& 1 : Nat) : Int), intToWire (((a >>> 0) &&& 1 : Nat) : Int),
   intToWire (((b >>> 3) &&& 1 : Nat) : Int), intToWire (((b >>> 2) &&& 1 : Nat) : Int),
   intToWire (((b >>> 1) &&& 1 : Nat) : Int), intToWire (((b >>> 0) &&& 1 : Nat) : Int),
   intToWire (((c >>> 0) &&& 1 : Nat) : Int)]

/-- Run a list of modules in order, requiring each attempt to report
not-ready (the all-`UNDEFINED` stall schedule: every module is popped once,
fails, and is re-enqueued at the tail). -/
def evalChainF (evalM : Module → Stack → MRes) : List Module → Stack → Option Stack
  | [], st => some st
  | m :: ms, st =>
    match evalM m st with
    | MRes.mok st1 false => evalChainF evalM ms st1
    | _ => none

/-! ## Frame and stack access lemmas -/

theorem encodeW_lt (v : WireState) : encodeW v < 4 := by
  cases v <;> simp [encodeW]

theorem decodeW_encodeW (v : WireState) : decodeW (encodeW v) = v := by
  cases v <;> simp [encodeW, decodeW]

theorem fwrite_eq (f i v : Nat) :
    fwrite f i v = (4 * (f / 4 ^ i / 4) + v) * 4 ^ i + f % 4 ^ i := by
  have h : f / 4 ^ i * 4 ^ i + f % 4 ^ i = f := Nat.div_add_mod' f (4 ^ i)
  have hq : f / 4 ^ i / 4 * 4 + f / 4 ^ i % 4 = f / 4 ^ i := Nat.div_add_mod' (f / 4 ^ i) 4
  have hax : (f / 4 ^ i / 4 * 4 + f / 4 ^ i % 4) * 4 ^ i = f / 4 ^ i * 4 ^ i := by rw [hq]
  have hexp : (f / 4 ^ i / 4 * 4 + f / 4 ^ i % 4) * 4 ^ i =
      f / 4 ^ i / 4 * 4 * 4 ^ i + f / 4 ^ i % 4 * 4 ^ i := by ring
  have hrhs : (4 * (f / 4 ^ i / 4) + v) * 4 ^ i =
      f / 4 ^ i / 4 * 4 * 4 ^ i + v * 4 ^ i := by ring
  unfold fwrite
  omega

theorem fread_fwrite_self (f i v : Nat) (hv : v < 4) : fread (fwrite f i v) i = v := by
  have hP : 0 < 4 ^ i := Nat.pos_pow_of_pos i (by norm_num)
  rw [fwrite_eq]
  unfold fread
  rw [show (4 * (f / 4 ^ i / 4) + v) * 4 ^ i + f % 4 ^ i =
    f % 4 ^ i + (4 * (f / 4 ^ i / 4) + v) * 4 ^ i by ring]
  rw [Nat.add_mul_div_right _ _ hP, Nat.div_eq_of_lt (Nat.mod_lt _ hP), Nat.zero_add]
  rw [show 4 * (f / 4 ^ i / 4) + v = v + f / 4 ^ i / 4 * 4 by ring,
    Nat.add_mul_mod_self_right]
  exact Nat.mod_eq_of_lt hv

theorem div_mod_four_absorb (r A c b : Nat) (hb : 0 < b) :
    (r + A * (4 * c) * b) / b % 4 = r / b % 4 := by
  rw [Nat.add_mul_div_right _ _ hb, show A * (4 * c) = A * c * 4 by ring,
    Nat.add_mul_mod_self_right]

theorem fread_fwrite_ne (f i j v : Nat) (hv : v < 4) (hij : j ≠ i) :
    fread (fwrite f i v) j = fread f j := by
  have hP : 0 < 4 ^ i := Nat.pos_pow_of_pos i (by norm_num)
  rw [fwrite_eq]
  rcases Nat.lt_or_ge j i with hj | hj
  · obtain ⟨k, rfl⟩ : ∃ k, i = j + 1 + k := ⟨i - j - 1, by omega⟩
    have hb : 0 < 4 ^ j := Nat.pos_pow_of_pos j (by norm_num)
    have hsplit : (4 : Nat) ^ (j + 1 + k) = 4 ^ j * (4 * 4 ^ k) := by
      rw [show j + 1 + k = j + (1 + k) by omega, pow_add, pow_add, pow_one]
    unfold fread
    rw [show (4 * (f / 4 ^ (j + 1 + k) / 4) + v) * 4 ^ (j + 1 + k) + f % 4 ^ (j + 1 + k) =
        f % 4 ^ (j + 1 + k) +
          (4 * (f / 4 ^ (j + 1 + k) / 4) + v) * (4 * 4 ^ k) * 4 ^ j by
      rw [hsplit]; ring]
    rw [div_mod_four_absorb _ _ _ _ hb]
    conv_rhs =>
      rw [show f = f % 4 ^ (j + 1 + k) + f / 4 ^ (j + 1 + k) * (4 * 4 ^ k) * 4 ^ j by
        have h1 : f / 4 ^ (j + 1 + k) * 4 ^ (j + 1 + k) + f % 4 ^ (j + 1 + k) = f :=
          Nat.div_add_mod' f (4 ^ (j + 1 + k))
        have h2 : f / 4 ^ (j + 1 + k) * 4 ^ (j + 1 + k) =
            f / 4 ^ (j + 1 + k) * (4 * 4 ^ k) * 4 ^ j := by
          rw [hsplit]; ring
        omega]
    rw [div_mod_four_absorb _ _ _ _ hb]
  · obtain ⟨k, rfl⟩ : ∃ k, j = i + 1 + k := ⟨j - i - 1, by omega⟩
    have hsplit : (4 : Nat) ^ (i + 1 + k) = 4 ^ i * (4 * 4 ^ k) := by
      rw [show i + 1 + k = i + (1 + k) by omega, pow_add, pow_add, pow_one]
    unfold fread
    rw [hsplit]
    rw [show ((4 * (f / 4 ^ i / 4) + v) * 4 ^ i + f % 4 ^ i) / (4 ^ i * (4 * 4 ^ k)) =
      ((4 * (f / 4 ^ i / 4) + v) * 4 ^ i + f % 4 ^ i) / 4 ^ i / (4 * 4 ^ k) from
      (Nat.div_div_eq_div_mul _ _ _).symm]
    rw [show f / (4 ^ i * (4 * 4 ^ k)) = f / 4 ^ i / (4 * 4 ^ k) from
      (Nat.div_div_eq_div_mul _ _ _).symm]
    rw [show (4 * (f / 4 ^ i / 4) + v) * 4 ^ i + f % 4 ^ i =
      f % 4 ^ i + (4 * (f / 4 ^ i / 4) + v) * 4 ^ i by ring]
    rw [Nat.add_mul_div_right _ _ hP, Nat.div_eq_of_lt (Nat.mod_lt _ hP), Nat.zero_add]
    rw [show (4 * (f / 4 ^ i / 4) + v) / (4 * 4 ^ k) =
      (4 * (f / 4 ^ i / 4) + v) / 4 / 4 ^ k from (Nat.div_div_eq_div_mul _ _ _).symm]
    rw [show f / 4 ^ i / (4 * 4 ^ k) = f / 4 ^ i / 4 / 4 ^ k from
      (Nat.div_div_eq_div_mul _ _ _).symm]
    rw [show 4 * (f / 4 ^ i / 4) + v = v + f / 4 ^ i / 4 * 4 by ring]
    rw [Nat.add_mul_div_right _ _ (by norm_num : (0:Nat) < 4), Nat.div_eq_of_lt hv,
      Nat.zero_add]

theorem getD_set {α : Type} (l : List α) (i j : Nat) (a d : α) :
    (l.set i a).getD j d = if i = j ∧ i < l.length then a else l.getD j d := by
  induction l generalizing i j with
  | nil => simp
  | cons x xs ih =>
    cases i with
    | zero => cases j <;> simp
    | succ i' =>
      cases j with
      | zero => simp
      | succ j' =>
        simp only [List.set_cons_succ, List.getD_cons_succ, List.length_cons, ih i' j',
          Nat.add_lt_add_iff_right, Nat.add_right_cancel_iff]

theorem length_stackWrite (st : Stack) (d i : Nat) (v : WireState) :
    (stackWrite st d i v).length = st.length := by
  unfold stackWrite
  exact List.length_set st d _

theorem stackRead_stackWrite (st : Stack) (d i e j : Nat) (v : WireState) :
    stackRead (stackWrite st d i v) e j =
      if d = e ∧ i = j ∧ d < st.length then v else stackRead st e j := by
  unfold stackRead stackWrite
  rw [getD_set]
  by_cases hd : d = e
  · subst hd
    by_cases hlen : d < st.length
    · rw [if_pos ⟨rfl, hlen⟩]
      by_cases hi : i = j
      · subst hi
        rw [fread_fwrite_self _ _ _ (encodeW_lt v), decodeW_encodeW,
          if_pos ⟨rfl, rfl, hlen⟩]
      · rw [fread_fwrite_ne _ _ _ _ (encodeW_lt v) (fun hc => hi hc.symm),
          if_neg (fun hc => hi hc.2.1)]
    · rw [if_neg (fun hc => hlen hc.2), if_neg (fun hc => hlen hc.2.2)]
  · rw [if_neg (fun hc => hd hc.1), if_neg (fun hc => hd hc.1)]

/-- C2: the NAND evaluator writes slot 2 of frame `lvl` to `OFF` when both
inputs are `ON`, to `ON` when both inputs are resolved and not both `ON`, and
to `UNDEFINED` when either input is `UNDEFINED`; it reports ready exactly when
both inputs are resolved — an undefined input never yields a guessed
boolean. -/
theorem C2_simulate_nand_spec (lvl : Nat) (st : Stack) (h : lvl < st.length) :
    ((stackRead st lvl 0 = ON ∧ stackRead st lvl 1 = ON) →
      stackRead (simulate_nand lvl st).1 lvl 2 = OFF) ∧
    ((stackRead st lvl 0 ≠ UNDEFINED ∧ stackRead st lvl 1 ≠ UNDEFINED ∧
        ¬(stackRead st lvl 0 = ON ∧ stackRead st lvl 1 = ON)) →
      stackRead (simulate_nand lvl st).1 lvl 2 = ON) ∧
    ((stackRead st lvl 0 = UNDEFINED ∨ stackRead st lvl 1 = UNDEFINED) →
      stackRead (simulate_nand lvl st).1 lvl 2 = UNDEFINED) ∧
    ((simulate_nand lvl st).2 = true ↔
      (stackRead st lvl 0 ≠ UNDEFINED ∧ stackRead st lvl 1 ≠ UNDEFINED)) := by
  cases h0 : stackRead st lvl 0 <;> cases h1 : stackRead st lvl 1 <;>
    simp [simulate_nand, h0, h1, stackRead_stackWrite, h]

/-- Closed witness for `C2_simulate_nand_spec` at `lvl = 0` on a concrete
stack holding `ON` in both input slots. -/
theorem C2_simulate_nand_spec_witness :
    (0 < (stackWrite (stackWrite initStack 0 0 ON) 0 1 ON).length) ∧
    stackRead (simulate_nand 0 (stackWrite (stackWrite initStack 0 0 ON) 0 1 ON)).1 0 2
      = OFF := by
  refine ⟨by decide, ?_⟩
  exact (C2_simulate_nand_spec 0 (stackWrite (stackWrite initStack 0 0 ON) 0 1 ON)
    (by decide)).1 ⟨by decide, by decide⟩

/-! ## Ring buffer lemmas -/

theorem map_range_getD {α : Type} (l : List α) (d : α) :
    (List.range l.length).map (fun i => l.getD i d) = l := by
  induction l with
  | nil => simp
  | cons x xs ih =>
    rw [List.length_cons, List.range_succ_eq_map, List.map_cons, List.map_map]
    simp only [List.getD_cons_zero, List.cons.injEq, true_and]
    calc (List.range xs.length).map ((fun i => (x :: xs).getD i d) ∘ Nat.succ)
        = (List.range xs.length).map (fun i => xs.getD i d) := by
          apply List.map_congr_left
          intro a _
          simp
      _ = xs := ih

theorem validRingB_iff (r : Ring) :
    validRingB r = true ↔
      (0 < r.capacity ∧ r.size ≤ r.capacity ∧ r.idx_begin < r.capacity ∧
        r.idx_end < r.capacity) := by
  unfold validRingB
  simp [Bool.and_eq_true, decide_eq_true_eq, and_assoc]

theorem pop_module_spec (r : Ring) (hInv : RingInv r) (hs : 0 < r.size) :
    ∃ m r', pop_module r = some (m, r') ∧ RingInv r' ∧
      ringList r = m :: ringList r' ∧ r'.size = r.size - 1 ∧
      r'.capacity = r.capacity ∧ r'.modules = r.modules := by
  obtain ⟨hv, he⟩ := hInv
  obtain ⟨hc, hsc, hb, hee⟩ := (validRingB_iff r).mp hv
  have hv' : validRingB (Ring.mk r.capacity (r.size - 1)
      ((r.idx_begin + 1) % r.capacity) r.idx_end r.modules) = true := by
    rw [validRingB_iff]
    dsimp only
    exact ⟨hc, by omega, Nat.mod_lt _ hc, hee⟩
  refine ⟨r.modules r.idx_begin, Ring.mk r.capacity (r.size - 1)
    ((r.idx_begin + 1) % r.capacity) r.idx_end r.modules, ?_, ⟨hv', ?_⟩, ?_, rfl, rfl, rfl⟩
  · simp [pop_module, hv, hs, hv']
  · show r.idx_end = ((r.idx_begin + 1) % r.capacity + (r.size - 1)) % r.capacity
    rw [Nat.mod_add_mod, show r.idx_begin + 1 + (r.size - 1) = r.idx_begin + r.size by
      omega]
    exact he
  · show ringList r = _ :: ringList _
    unfold ringList
    dsimp only
    obtain ⟨s', hs'⟩ : ∃ s', r.size = s' + 1 := ⟨r.size - 1, by omega⟩
    rw [hs']
    rw [List.range_succ_eq_map, List.map_cons, List.map_map]
    simp only [Nat.add_sub_cancel]
    refine congrArg₂ _ (by rw [Nat.add_zero, Nat.mod_eq_of_lt hb]) ?_
    apply List.map_congr_left
    intro a _
    show r.modules ((r.idx_begin + (a + 1)) % r.capacity) =
      r.modules (((r.idx_begin + 1) % r.capacity + a) % r.capacity)
    rw [Nat.mod_add_mod, show r.idx_begin + 1 + a = r.idx_begin + (a + 1) by omega]

theorem push_module_spec (r : Ring) (m : Module) (hInv : RingInv r)
    (hs : r.size < r.capacity) :
    ∃ r', push_module r m = some r' ∧ RingInv r' ∧
      ringList r' = ringList r ++ [m] ∧ r'.size = r.size + 1 ∧
      r'.capacity = r.capacity := by
  obtain ⟨hv, he⟩ := hInv
  obtain ⟨hc, hsc, hb, hee⟩ := (validRingB_iff r).mp hv
  have hv' : validRingB (Ring.mk r.capacity (r.size + 1) r.idx_begin
      ((r.idx_end + 1) % r.capacity) (mupd r.modules r.idx_end m)) = true := by
    rw [validRingB_iff]
    dsimp only
    exact ⟨hc, by omega, hb, Nat.mod_lt _ hc⟩
  refine ⟨Ring.mk r.capacity (r.size + 1) r.idx_begin ((r.idx_end + 1) % r.capacity)
    (mupd r.modules r.idx_end m), ?_, ⟨hv', ?_⟩, ?_, rfl, rfl⟩
  · simp [push_module, hv, hs, hv']
  · show (r.idx_end + 1) % r.capacity = (r.idx_begin + (r.size + 1)) % r.capacity
    rw [he, Nat.mod_add_mod, show r.idx_begin + r.size + 1 = r.idx_begin + (r.size + 1) by
      omega]
  · show ringList _ = ringList r ++ [m]
    unfold ringList
    dsimp only
    rw [List.range_succ, List.map_append, List.map_cons, List.map_nil]
    refine congrArg₂ _ ?_ ?_
    · apply List.map_congr_left
      intro a ha
      have ha' : a < r.size := List.mem_range.mp ha
      show mupd r.modules r.idx_end m ((r.idx_begin + a) % r.capacity) =
        r.modules ((r.idx_begin + a) % r.capacity)
      unfold mupd
      rw [if_neg]
      intro hcontra
      rw [he] at hcontra
      have : a % r.capacity = r.size % r.capacity :=
        Nat.ModEq.add_left_cancel' r.idx_begin hcontra
      rw [Nat.mod_eq_of_lt (by omega), Nat.mod_eq_of_lt hs] at this
      omega
    · show mupd r.modules r.idx_end m ((r.idx_begin + r.size) % r.capacity) :: [] = [m]
      unfold mupd
      rw [← he, if_pos rfl]

theorem init_ring_spec (c : Circuit) (hc : validCircuitB c = true)
    (hlen : c.modules.length = c.n_modules.toNat) :
    ∃ r, init_ring c = some r ∧ RingInv r ∧ ringList r = c.modules ∧
      r.size = c.n_modules.toNat ∧ r.capacity = MAX_OPS := by
  have hmods : (0:Int) < c.n_modules ∧ c.n_modules < (MAX_OPS : Int) := by
    unfold validCircuitB at hc
    simp only [Bool.and_eq_true, decide_eq_true_eq] at hc
    exact ⟨hc.1.2, hc.2⟩
  have hslt : c.n_modules.toNat < MAX_OPS := by omega
  have hv' : validRingB (Ring.mk MAX_OPS c.n_modules.toNat 0 c.n_modules.toNat
      (fun i => c.modules.getD i default)) = true := by
    rw [validRingB_iff]
    dsimp only
    refine ⟨by norm_num [MAX_OPS], by omega, by norm_num [MAX_OPS], hslt⟩
  refine ⟨Ring.mk MAX_OPS c.n_modules.toNat 0 c.n_modules.toNat
    (fun i => c.modules.getD i default), ?_, ⟨hv', ?_⟩, ?_, rfl, rfl⟩
  · simp only [init_ring, hc, if_true]
    rw [if_pos hv']
  · show c.n_modules.toNat = (0 + c.n_modules.toNat) % MAX_OPS
    rw [Nat.zero_add, Nat.mod_eq_of_lt hslt]
  · show (List.range c.n_modules.toNat).map _ = c.modules
    calc (List.range c.n_modules.toNat).map
          (fun i => c.modules.getD ((0 + i) % MAX_OPS) default)
        = (List.range c.n_modules.toNat).map (fun i => c.modules.getD i default) := by
          apply List.map_congr_left
          intro a ha
          have : a < c.n_modules.toNat := List.mem_range.mp ha
          simp only [Nat.zero_add, Nat.mod_eq_of_lt (by omega : a < MAX_OPS)]
      _ = c.modules := by rw [← hlen]; exact map_range_getD c.modules default

theorem push_module_full (r : Ring) (m : Module) (hs : r.capacity ≤ r.size) :
    push_module r m = none := by
  unfold push_module
  rw [if_neg]
  intro hcontra
  omega

/-- C8: the ring is a FIFO queue: `init_ring` loads the circuit's modules in
definition order, `pop_module` removes exactly the head of the abstract queue
`ringList` and `push_module` appends exactly at its tail (so any sequence of
pushes and pops within capacity returns modules in enqueue order, wrapping at
`capacity`); pushing onto a full ring (`size = capacity`) is rejected rather
than overwriting; and every operation preserves the invariants
`size ≤ capacity` and `idx_begin, idx_end < capacity` (all indices being
naturals, the `0 ≤` half is intrinsic). -/
theorem C8_ring_fifo :
    (∀ c : Circuit, validCircuitB c = true → c.modules.length = c.n_modules.toNat →
      ∃ r, init_ring c = some r ∧ RingInv r ∧ ringList r = c.modules) ∧
    (∀ r : Ring, RingInv r → 0 < r.size →
      ∃ m r', pop_module r = some (m, r') ∧ RingInv r' ∧
        ringList r = m :: ringList r') ∧
    (∀ (r : Ring) (m : Module), RingInv r → r.size < r.capacity →
      ∃ r', push_module r m = some r' ∧ RingInv r' ∧ ringList r' = ringList r ++ [m]) ∧
    (∀ (r : Ring) (m : Module), RingInv r → r.size = r.capacity →
      push_module r m = none) := by
  refine ⟨?_, ?_, ?_, ?_⟩
  · intro c hc hlen
    obtain ⟨r, h1, h2, h3, _⟩ := init_ring_spec c hc hlen
    exact ⟨r, h1, h2, h3⟩
  · intro r hInv hs
    obtain ⟨m, r', h1, h2, h3, _⟩ := pop_module_spec r hInv hs
    exact ⟨m, r', h1, h2, h3⟩
  · intro r m hInv hs
    obtain ⟨r', h1, h2, h3, _⟩ := push_module_spec r m hInv hs
    exact ⟨r', h1, h2, h3⟩
  · intro r m _ hs
    exact push_module_full r m (le_of_eq hs.symm)

/-- Closed witness for `C8_ring_fifo`: the NAND primitive circuit loads into a
valid one-module ring. -/
theorem C8_ring_fifo_witness :
    ∃ r, init_ring nandCircuit = some r ∧ RingInv r ∧ ringList r = nandCircuit.modules :=
  C8_ring_fifo.1 nandCircuit (by decide) (by decide)

/-! ## C3: decoder arity inference -/

/-- C3: during decoding, for a wire value `v` currently recorded as an output
of an earlier application (and neither input nor intermediate), reading `v` in
an input slot reclassifies it to intermediate, lowers the inferred
`output_count` by exactly one and leaves the inferred `input_count` unchanged;
afterwards any further sighting of `v`, in an input or output slot, leaves the
whole decoder state — classification and both counts — unchanged, so `v` is
never double-reclassified. -/
theorem C3_arity_inference (s : InterpState) (v : Nat)
    (hout : s.outA v ≠ 0) (hin : s.inA v = 0) (hmed : s.medA v = 0) :
    (classify_arg true v s).medA v = 1 ∧
    (classify_arg true v s).outA v = 0 ∧
    (classify_arg true v s).inA v = 0 ∧
    (classify_arg true v s).new_op.n_outputs = s.new_op.n_outputs - 1 ∧
    (classify_arg true v s).new_op.n_inputs = s.new_op.n_inputs ∧
    (∀ pos : Bool, classify_arg pos v (classify_arg true v s) = classify_arg true v s) := by
  have hstep : classify_arg true v s =
      { s with
        outA := Function.update s.outA v 0
        inA := Function.update s.inA v 0
        medA := Function.update s.medA v 1
        new_op := { s.new_op with n_outputs := s.new_op.n_outputs - 1 } } := by
    unfold classify_arg
    rw [if_pos rfl, if_neg (by simp [hmed]), if_pos hout]
  rw [hstep]
  refine ⟨Function.update_same v 1 s.medA, Function.update_same v 0 s.outA,
    Function.update_same v 0 s.inA, rfl, rfl, ?_⟩
  intro pos
  have hm : Function.update s.medA v 1 v ≠ 0 := by
    rw [Function.update_same]
    norm_num
  cases pos
  · unfold classify_arg
    rw [if_neg (by simp), if_pos hm]
  · unfold classify_arg
    rw [if_pos rfl, if_pos hm]

/-- Closed witness for `C3_arity_inference`: a state where wire 3 was recorded
once as an output. -/
theorem C3_arity_inference_witness :
    ((Function.update init_interpreter_state.outA 3 1) 3 ≠ 0) ∧
    (classify_arg true 3
      { init_interpreter_state with
        outA := Function.update init_interpreter_state.outA 3 1 }).medA 3 = 1 := by
  refine ⟨by decide, ?_⟩
  exact (C3_arity_inference
    { init_interpreter_state with outA := Function.update init_interpreter_state.outA 3 1 }
    3 (by decide) (by decide) (by decide)).1

/-! ## C5: validation at the close of a DEFINE block -/

/-- C5 counterexample: the byte stream `DEFINE(1) DEFINE(1)` — a definition
with zero APPLY modules — is NOT rejected: the decode runs to completion
(committing the all-zero candidate over the already-zero slot 1), because
`check_instr_count 0`, `check_in_args _ 0` and `check_out_args _ 0 0` all
accept zero counts. -/
theorem C5_counterexample :
    interpret [0b11000001, 0b11000001] T0 = some T0 := by decide!

/-- C5 (amended): when a DEFINE block closes, the candidate is committed iff
its inferred counts pass the bound checks — input and output counts in
`[0, WIRE_SIZE-2]` with the corresponding leading wire values marked, and
module count in `[0, MAX_OPS-1]`; strict positivity is not required, and in
particular every freshly initialised empty candidate (zero arity, zero
modules) passes validation and is committed. -/
theorem C5_end_def_validation :
    (∀ (s : InterpState) (t : Table),
      (∃ t', add_op s t = some t') ↔
        (check_in_args s.inA s.new_op.n_inputs = true ∧
         check_out_args s.outA s.new_op.n_outputs s.new_op.n_inputs = true ∧
         check_instr_count s.new_op.n_modules = true)) ∧
    (∀ (s : InterpState) (t : Table), s.new_op = init_operation →
      add_op s t = some (tset t s.new_op_Idx s.new_op)) := by
  constructor
  · intro s t
    constructor
    · intro ⟨t', ht'⟩
      by_cases h : check_in_args s.inA s.new_op.n_inputs &&
          check_out_args s.outA s.new_op.n_outputs s.new_op.n_inputs &&
          check_instr_count s.new_op.n_modules
      · simpa [Bool.and_eq_true, and_assoc] using h
      · rw [add_op, if_neg (by simpa using h)] at ht'
        exact absurd ht' (by simp)
    · intro ⟨h1, h2, h3⟩
      exact ⟨tset t s.new_op_Idx s.new_op, by rw [add_op, if_pos (by simp [h1, h2, h3])]⟩
  · intro s t hinit
    have hcond : (check_in_args s.inA init_operation.n_inputs &&
        check_out_args s.outA init_operation.n_outputs init_operation.n_inputs &&
        check_instr_count init_operation.n_modules) = true := rfl
    rw [add_op, hinit, if_pos hcond]

/-- Closed witness for `C5_end_def_validation`: the freshly initialised state
commits. -/
theorem C5_end_def_validation_witness :
    add_op init_interpreter_state T0 =
      some (tset T0 init_interpreter_state.new_op_Idx init_interpreter_state.new_op) :=
  C5_end_def_validation.2 init_interpreter_state T0 rfl

/-! ## C10: buffer management in `interpret` -/

/-- C10: `interpret` fatally rejects every stream of length at least
`IN_BUF_SIZE` (1024) before decoding any byte; for an accepted stream the
initial refill copies the entire source (leaving `source_length_left = 0`,
so the buffer is filled from the source exactly once); and once the source is
exhausted and the buffered bytes consumed, `read_byte` and `peek_byte` return
null and leave the buffer in the same exhausted condition, so every subsequent
call returns null as well. -/
theorem C10_interpret_buffer :
    (∀ (data : List Nat) (t : Table), IN_BUF_SIZE ≤ data.length →
      interpret data t = none) ∧
    (∀ data : List Nat, data.length < IN_BUF_SIZE →
      (read_to_buffer (Buffer.mk [] 0 0 data data.length)).data = data ∧
      (read_to_buffer (Buffer.mk [] 0 0 data data.length)).data_length = data.length ∧
      (read_to_buffer (Buffer.mk [] 0 0 data data.length)).source_length_left = 0) ∧
    (∀ buf : Buffer, buf.source_length_left = 0 → buf.processed = buf.data_length →
      (read_byte buf).1 = none ∧ (peek_byte buf).1 = none ∧
      (read_byte buf).2.source_length_left = 0 ∧
      (read_byte buf).2.processed = (read_byte buf).2.data_length ∧
      (peek_byte buf).2.source_length_left = 0 ∧
      (peek_byte buf).2.processed = (peek_byte buf).2.data_length) := by
  refine ⟨?_, ?_, ?_⟩
  · intro data t h
    rw [interpret, if_pos h]
  · intro data h
    unfold read_to_buffer
    dsimp only
    rw [Nat.min_eq_left (Nat.le_of_lt h)]
    exact ⟨List.take_length data, rfl, Nat.sub_self data.length⟩
  · intro buf h0 hpd
    have hmb : manage_buffer buf = read_to_buffer buf := by
      rw [manage_buffer, if_pos hpd]
    have hrb : read_to_buffer buf =
        Buffer.mk [] 0 0 buf.source 0 := by
      unfold read_to_buffer
      rw [h0]
      rfl
    rw [read_byte, peek_byte, hmb, hrb]
    exact ⟨rfl, rfl, rfl, rfl, rfl, rfl⟩

/-- Closed witness for `C10_interpret_buffer`: an oversized stream is
rejected. -/
theorem C10_interpret_buffer_witness :
    interpret (List.replicate 1024 0) T0 = none :=
  C10_interpret_buffer.1 (List.replicate 1024 0) T0
    (by rw [List.length_replicate]; exact Nat.le_refl 1024)

/-! ## C4: the not-ready branch of the scheduler loop -/

/-- C4 counterexample: a concrete iteration in which the popped module's
evaluation reports not-ready, the module is re-enqueued, and yet the module's
output wiring slot in the parent frame — which held `ON` before the attempt —
is overwritten with the child frame's `UNDEFINED` output. -/
theorem C4_counterexample : c4Probe = true := by decide!

/-- C4 (amended): in every iteration whose module evaluation reports
not-ready, the module is pushed back onto the tail of the ring, but the
module's output wiring slots in the parent frame are NOT left untouched: the
iteration unconditionally copies the child frame's output slots back into the
parent frame (`copyOutputs`), regardless of the success flag. -/
theorem C4_not_ready_iteration (table : Table) (evalSub : Nat → Nat → Stack → SimRes)
    (depth k : Nat) (ring ring1 : Ring) (m : Module) (st st' : Stack)
    (hpop : pop_module ring = some (m, ring1))
    (heval : evalModule table evalSub depth m st = MRes.mok st' false)
    (hInv : RingInv ring1) (hroom : ring1.size < ring1.capacity) :
    (∃ ring2, push_module ring1 m = some ring2 ∧
      ringList ring2 = ringList ring1 ++ [m] ∧
      runPass (evalModule table evalSub depth) (k + 1) ring st =
        runPass (evalModule table evalSub depth) k ring2 st') ∧
    (∀ st2 b p, evalSub m.id_circuit (depth + 1)
        (copyInputs m.wirings (tget table m.id_circuit).n_inputs.toNat depth st) =
          SimRes.done st2 b p →
      m.id_circuit ≠ 0 →
      evalModule table evalSub depth m st =
        MRes.mok (copyOutputs m.wirings (tget table m.id_circuit).n_inputs.toNat
          (tget table m.id_circuit).n_outputs.toNat depth st2) b) := by
  constructor
  · obtain ⟨ring2, hpush, hInv2, hlist, _, _⟩ := push_module_spec ring1 m hInv hroom
    refine ⟨ring2, hpush, hlist, ?_⟩
    rw [runPass, hpop]
    dsimp only
    rw [heval]
    dsimp only
    rw [if_neg (by simp), hpush]
  · intro st2 b p hsub hid
    rw [evalModule]
    rw [if_neg hid, hsub]

/-- Closed witness for `C4_not_ready_iteration`, at the counterexample's
single-NAND circuit: popping the one pending module from the freshly
initialised ring, whose NAND evaluation on `c4Stack` is not ready. -/
theorem C4_not_ready_iteration_witness :
    ∃ ring2, push_module (Ring.mk MAX_OPS 0 1 1 (mupd (fun _ => default) 0 ⟨0, [0, 1, 2]⟩))
        ⟨0, [0, 1, 2]⟩ = some ring2 ∧
      ringList ring2 =
        ringList (Ring.mk MAX_OPS 0 1 1 (mupd (fun _ => default) 0 ⟨0, [0, 1, 2]⟩)) ++
          [⟨0, [0, 1, 2]⟩] ∧
      runPass (evalModule c4Table (simulateC c4Table 7) 0) 1
          (Ring.mk MAX_OPS 1 0 1 (mupd (fun _ => default) 0 ⟨0, [0, 1, 2]⟩)) c4Stack =
        runPass (evalModule c4Table (simulateC c4Table 7) 0) 0 ring2
          (stackWrite (stackWrite (stackWrite (stackWrite c4Stack 1 0 UNDEFINED) 1 1 ON)
            1 2 UNDEFINED) 0 2 UNDEFINED) := by
  refine (C4_not_ready_iteration c4Table (simulateC c4Table 7) 0 0
    (Ring.mk MAX_OPS 1 0 1 (mupd (fun _ => default) 0 ⟨0, [0, 1, 2]⟩))
    (Ring.mk MAX_OPS 0 1 1 (mupd (fun _ => default) 0 ⟨0, [0, 1, 2]⟩))
    ⟨0, [0, 1, 2]⟩ c4Stack
    (stackWrite (stackWrite (stackWrite (stackWrite c4Stack 1 0 UNDEFINED) 1 1 ON)
      1 2 UNDEFINED) 0 2 UNDEFINED)
    rfl rfl ⟨rfl, rfl⟩ (by decide)).1

/-! ## C9: classification cardinality lemmas -/

theorem classCard_update_new (g : Nat → Int) (b : Nat) (x : Int) (hb : b < WIRE_SIZE)
    (h0 : g b = 0) (hx : x ≠ 0) :
    classCard (Function.update g b x) = classCard g + 1 := by
  unfold classCard
  have hset : (Finset.range WIRE_SIZE).filter (fun a => Function.update g b x a ≠ 0) =
      insert b ((Finset.range WIRE_SIZE).filter fun a => g a ≠ 0) := by
    ext a
    simp only [Finset.mem_filter, Finset.mem_insert, Finset.mem_range]
    by_cases hab : a = b
    · subst hab
      simp [Function.update_same, hb, hx]
    · simp [Function.update_noteq hab, hab]
  rw [hset, Finset.card_insert_of_not_mem]
  simp [Finset.mem_filter, h0]

theorem classCard_update_zero (g : Nat → Int) (b : Nat) (hb : b < WIRE_SIZE)
    (hm : g b ≠ 0) :
    classCard g = classCard (Function.update g b 0) + 1 := by
  unfold classCard
  have hset : (Finset.range WIRE_SIZE).filter (fun a => g a ≠ 0) =
      insert b ((Finset.range WIRE_SIZE).filter fun a => Function.update g b 0 a ≠ 0) := by
    ext a
    simp only [Finset.mem_filter, Finset.mem_insert, Finset.mem_range]
    by_cases hab : a = b
    · subst hab
      simp [Function.update_same, hb, hm]
    · simp [Function.update_noteq hab, hab]
  rw [hset, Finset.card_insert_of_not_mem]
  simp [Finset.mem_filter, Function.update_same]

theorem classCard_update_keep (g : Nat → Int) (b : Nat) (x : Int)
    (h : g b = 0 ↔ x = 0) :
    classCard (Function.update g b x) = classCard g := by
  unfold classCard
  congr 1
  apply Finset.filter_congr
  intro a _
  by_cases hab : a = b
  · subst hab
    simp only [Function.update_same]
    constructor
    · intro hx h0
      exact hx (h.mp h0)
    · intro hg hx
      exact hg (h.mpr hx)
  · simp [Function.update_noteq hab]

theorem ClassInvA_swap (ni no : Int) (gi gm go : Nat → Int)
    (h : ClassInvA ni no gi gm go) : ClassInvA no ni go gm gi := by
  obtain ⟨h1, h2, h3, h4, h5⟩ := h
  exact ⟨h2, h1, fun b => ⟨(h3 b).2.2, (h3 b).2.1, (h3 b).1⟩,
    fun b => ⟨(h4 b).2, (h4 b).1⟩, fun b hb => ⟨(h5 b hb).2.2, (h5 b hb).2.1, (h5 b hb).1⟩⟩

theorem ClassInvA_reclassify (ni no : Int) (gi gm go : Nat → Int) (b : Nat)
    (hb : b < WIRE_SIZE) (h : ClassInvA ni no gi gm go) (hgo : go b ≠ 0) :
    ClassInvA ni (no - 1) (Function.update gi b 0) (Function.update gm b 1)
      (Function.update go b 0) := by
  obtain ⟨h1, h2, h3, h4, h5⟩ := h
  have hgi : gi b = 0 := ((h4 b).2 hgo).2
  have hcard := classCard_update_zero go b hb hgo
  refine ⟨?_, ?_, ?_, ?_, ?_⟩
  · rw [classCard_update_keep gi b 0 (by simp [hgi])]
    exact h1
  · omega
  · intro a
    by_cases hab : a = b
    · subst hab
      simp [Function.update_same]
    · simp only [Function.update_noteq hab]
      exact h3 a
  · intro a
    by_cases hab : a = b
    · subst hab
      simp [Function.update_same]
    · simp only [Function.update_noteq hab]
      exact h4 a
  · intro a ha
    have hab : a ≠ b := by omega
    simp only [Function.update_noteq hab]
    exact h5 a ha

theorem ClassInvA_mark (ni no : Int) (gi gm go : Nat → Int) (b : Nat)
    (hb : b < WIRE_SIZE) (h : ClassInvA ni no gi gm go)
    (hgm : gm b = 0) (hgo : go b = 0) :
    ClassInvA (if gi b + 1 = 1 then ni + 1 else ni) no
      (Function.update gi b (gi b + 1)) gm go := by
  obtain ⟨h1, h2, h3, h4, h5⟩ := h
  have hnn := (h3 b).1
  have hvne : gi b + 1 ≠ 0 := by omega
  refine ⟨?_, h2, ?_, ?_, ?_⟩
  · by_cases h1' : gi b + 1 = 1
    · rw [if_pos h1', classCard_update_new gi b (gi b + 1) hb (by omega) hvne]
      omega
    · rw [if_neg h1',
        classCard_update_keep gi b (gi b + 1) (by constructor <;> intro hc <;> omega)]
      exact h1
  · intro a
    by_cases hab : a = b
    · subst hab
      refine ⟨?_, (h3 a).2.1, (h3 a).2.2⟩
      rw [Function.update_same]
      omega
    · rw [Function.update_noteq hab]
      exact h3 a
  · intro a
    by_cases hab : a = b
    · subst hab
      simp only [Function.update_same]
      exact ⟨fun _ => ⟨hgm, hgo⟩, fun hc => absurd hgo hc⟩
    · simp only [Function.update_noteq hab]
      exact h4 a
  · intro a ha
    have hab : a ≠ b := by omega
    simp only [Function.update_noteq hab]
    exact h5 a ha

theorem classify_arg_ClassInv (s : InterpState) (pos : Bool) (b : Nat)
    (hb : b < WIRE_SIZE) (h : ClassInv s) : ClassInv (classify_arg pos b s) := by
  cases pos
  · by_cases hmed : s.medA b ≠ 0
    · have hstep : classify_arg false b s = s := by
        unfold classify_arg
        rw [if_neg (by simp), if_pos hmed]
      rw [hstep]
      exact h
    · by_cases hin : s.inA b ≠ 0
      · have hstep : classify_arg false b s =
            { s with
              outA := Function.update s.outA b 0
              inA := Function.update s.inA b 0
              medA := Function.update s.medA b 1
              new_op := { s.new_op with n_inputs := s.new_op.n_inputs - 1 } } := by
          unfold classify_arg
          rw [if_neg (by simp), if_neg hmed, if_pos hin]
        rw [hstep]
        show ClassInvA (s.new_op.n_inputs - 1) s.new_op.n_outputs
          (Function.update s.inA b 0) (Function.update s.medA b 1)
          (Function.update s.outA b 0)
        exact ClassInvA_swap _ _ _ _ _
          (ClassInvA_reclassify _ _ _ _ _ b hb (ClassInvA_swap _ _ _ _ _ h) hin)
      · have hmedb : s.medA b = 0 := not_ne_iff.mp hmed
        have hinb : s.inA b = 0 := not_ne_iff.mp hin
        have key := ClassInvA_mark s.new_op.n_outputs s.new_op.n_inputs s.outA s.medA s.inA
          b hb (ClassInvA_swap _ _ _ _ _ h) hmedb hinb
        by_cases h1 : s.outA b + 1 = 1
        · have hstep : classify_arg false b s =
              { s with
                outA := Function.update s.outA b (s.outA b + 1)
                new_op := { s.new_op with n_outputs := s.new_op.n_outputs + 1 } } := by
            unfold classify_arg
            rw [if_neg (by simp), if_neg hmed, if_neg hin, if_pos h1]
          rw [hstep]
          show ClassInvA s.new_op.n_inputs (s.new_op.n_outputs + 1) s.inA s.medA
            (Function.update s.outA b (s.outA b + 1))
          rw [if_pos h1] at key
          exact ClassInvA_swap _ _ _ _ _ key
        · have hstep : classify_arg false b s =
              { s with outA := Function.update s.outA b (s.outA b + 1) } := by
            unfold classify_arg
            rw [if_neg (by simp), if_neg hmed, if_neg hin, if_neg h1]
          rw [hstep]
          show ClassInvA s.new_op.n_inputs s.new_op.n_outputs s.inA s.medA
            (Function.update s.outA b (s.outA b + 1))
          rw [if_neg h1] at key
          exact ClassInvA_swap _ _ _ _ _ key
  · by_cases hmed : s.medA b ≠ 0
    · have hstep : classify_arg true b s = s := by
        unfold classify_arg
        rw [if_pos rfl, if_pos hmed]
      rw [hstep]
      exact h
    · by_cases hout : s.outA b ≠ 0
      · have hstep : classify_arg true b s =
            { s with
              outA := Function.update s.outA b 0
              inA := Function.update s.inA b 0
              medA := Function.update s.medA b 1
              new_op := { s.new_op with n_outputs := s.new_op.n_outputs - 1 } } := by
          unfold classify_arg
          rw [if_pos rfl, if_neg hmed, if_pos hout]
        rw [hstep]
        show ClassInvA s.new_op.n_inputs (s.new_op.n_outputs - 1)
          (Function.update s.inA b 0) (Function.update s.medA b 1)
          (Function.update s.outA b 0)
        exact ClassInvA_reclassify _ _ _ _ _ b hb h hout
      · have hmedb : s.medA b = 0 := not_ne_iff.mp hmed
        have houtb : s.outA b = 0 := not_ne_iff.mp hout
        have key := ClassInvA_mark s.new_op.n_inputs s.new_op.n_outputs s.inA s.medA s.outA
          b hb h hmedb houtb
        by_cases h1 : s.inA b + 1 = 1
        · have hstep : classify_arg true b s =
              { s with
                inA := Function.update s.inA b (s.inA b + 1)
                new_op := { s.new_op with n_inputs := s.new_op.n_inputs + 1 } } := by
            unfold classify_arg
            rw [if_pos rfl, if_neg hmed, if_neg hout, if_pos h1]
          rw [hstep]
          show ClassInvA (s.new_op.n_inputs + 1) s.new_op.n_outputs
            (Function.update s.inA b (s.inA b + 1)) s.medA s.outA
          rw [if_pos h1] at key
          exact key
        · have hstep : classify_arg true b s =
              { s with inA := Function.update s.inA b (s.inA b + 1) } := by
            unfold classify_arg
            rw [if_pos rfl, if_neg hmed, if_neg hout, if_neg h1]
          rw [hstep]
          show ClassInvA s.new_op.n_inputs s.new_op.n_outputs
            (Function.update s.inA b (s.inA b + 1)) s.medA s.outA
          rw [if_neg h1] at key
          exact key

theorem check_in_args_layout (args : Nat → Int) (nIn : Int)
    (hchk : check_in_args args nIn = true) :
    0 ≤ nIn ∧ nIn < (WIRE_SIZE : Int) - 1 ∧ ∀ i < nIn.toNat, args i ≠ 0 := by
  unfold check_in_args at hchk
  by_cases hb : nIn < 0 ∨ (WIRE_SIZE : Int) - 1 ≤ nIn
  · rw [if_pos hb] at hchk
    exact absurd hchk (by simp)
  · rw [if_neg hb] at hchk
    push_neg at hb
    refine ⟨hb.1, hb.2, ?_⟩
    intro i hi
    have := List.all_eq_true.mp hchk i (List.mem_range.mpr hi)
    simpa using this

theorem check_out_args_layout (args : Nat → Int) (nOut nIn : Int)
    (hchk : check_out_args args nOut nIn = true) :
    0 ≤ nOut ∧ nOut < (WIRE_SIZE : Int) - 1 ∧ ∀ k < nOut.toNat, args (nIn.toNat + k) ≠ 0 := by
  unfold check_out_args at hchk
  by_cases hb : nOut < 0 ∨ (WIRE_SIZE : Int) - 1 ≤ nOut
  · rw [if_pos hb] at hchk
    exact absurd hchk (by simp)
  · rw [if_neg hb] at hchk
    push_neg at hb
    refine ⟨hb.1, hb.2, ?_⟩
    intro k hk
    have := List.all_eq_true.mp hchk k (List.mem_range.mpr hk)
    simpa using this

theorem add_op_layout (s : InterpState) (t t' : Table) (h : ClassInv s)
    (hadd : add_op s t = some t') :
    ∀ b : Nat, b < WIRE_SIZE →
      ((s.inA b ≠ 0 ↔ (b : Int) < s.new_op.n_inputs) ∧
       (s.outA b ≠ 0 ↔ (s.new_op.n_inputs ≤ (b : Int) ∧
         (b : Int) < s.new_op.n_inputs + s.new_op.n_outputs))) := by
  obtain ⟨hci, hco, hnn, hex, hoob⟩ := h
  have hchecks : check_in_args s.inA s.new_op.n_inputs = true ∧
      check_out_args s.outA s.new_op.n_outputs s.new_op.n_inputs = true := by
    unfold add_op at hadd
    by_cases hc : check_in_args s.inA s.new_op.n_inputs &&
        check_out_args s.outA s.new_op.n_outputs s.new_op.n_inputs &&
        check_instr_count s.new_op.n_modules
    · have := (Bool.and_eq_true _ _).mp hc
      exact ⟨(Bool.and_eq_true _ _).mp this.1 |>.1, (Bool.and_eq_true _ _).mp this.1 |>.2⟩
    · rw [if_neg (by simpa using hc)] at hadd
      exact absurd hadd (by simp)
  obtain ⟨hin0, hinlt, hinall⟩ := check_in_args_layout _ _ hchecks.1
  obtain ⟨hout0, houtlt, houtall⟩ := check_out_args_layout _ _ _ hchecks.2
  have hScard : ((Finset.range WIRE_SIZE).filter fun a => s.inA a ≠ 0).card =
      s.new_op.n_inputs.toNat := by
    have : (classCard s.inA : Int) = s.new_op.n_inputs := hci.symm
    unfold classCard at this
    omega
  have hSeq : (Finset.range WIRE_SIZE).filter (fun a => s.inA a ≠ 0) =
      Finset.range s.new_op.n_inputs.toNat := by
    symm
    apply Finset.eq_of_subset_of_card_le
    · intro i hi
      have hi' : i < s.new_op.n_inputs.toNat := Finset.mem_range.mp hi
      refine Finset.mem_filter.mpr ⟨Finset.mem_range.mpr (by omega), hinall i hi'⟩
    · rw [hScard, Finset.card_range]
  have hTcard : ((Finset.range WIRE_SIZE).filter fun a => s.outA a ≠ 0).card =
      s.new_op.n_outputs.toNat := by
    have : (classCard s.outA : Int) = s.new_op.n_outputs := hco.symm
    unfold classCard at this
    omega
  have hTeq : (Finset.range WIRE_SIZE).filter (fun a => s.outA a ≠ 0) =
      Finset.Ico s.new_op.n_inputs.toNat
        (s.new_op.n_inputs.toNat + s.new_op.n_outputs.toNat) := by
    symm
    apply Finset.eq_of_subset_of_card_le
    · intro i hi
      have hi' := Finset.mem_Ico.mp hi
      obtain ⟨k, hk, rfl⟩ : ∃ k, k < s.new_op.n_outputs.toNat ∧
          s.new_op.n_inputs.toNat + k = i :=
        ⟨i - s.new_op.n_inputs.toNat, by omega, by omega⟩
      have hne := houtall k hk
      have hlt : s.new_op.n_inputs.toNat + k < WIRE_SIZE := by
        by_contra hge
        exact hne ((hoob _ (by omega)).2.2)
      exact Finset.mem_filter.mpr ⟨Finset.mem_range.mpr hlt, hne⟩
    · rw [hTcard, Nat.card_Ico]
      omega
  intro b hblt
  constructor
  · constructor
    · intro hmark
      have hmem : b ∈ Finset.range s.new_op.n_inputs.toNat := by
        rw [← hSeq]
        exact Finset.mem_filter.mpr ⟨Finset.mem_range.mpr hblt, hmark⟩
      have := Finset.mem_range.mp hmem
      omega
    · intro hblt'
      have hmem : b ∈ (Finset.range WIRE_SIZE).filter (fun a => s.inA a ≠ 0) := by
        rw [hSeq]
        exact Finset.mem_range.mpr (by omega)
      exact (Finset.mem_filter.mp hmem).2
  · constructor
    · intro hmark
      have hmem : b ∈ Finset.Ico s.new_op.n_inputs.toNat
          (s.new_op.n_inputs.toNat + s.new_op.n_outputs.toNat) := by
        rw [← hTeq]
        exact Finset.mem_filter.mpr ⟨Finset.mem_range.mpr hblt, hmark⟩
      have := Finset.mem_Ico.mp hmem
      omega
    · intro hbr
      have hmem : b ∈ (Finset.range WIRE_SIZE).filter (fun a => s.outA a ≠ 0) := by
        rw [hTeq]
        exact Finset.mem_Ico.mpr (by omega)
      exact (Finset.mem_filter.mp hmem).2

/-! ## Copy-loop lemmas for `simulate_circuit` -/

theorem copyInputs_succ (w : List Nat) (n d : Nat) (st : Stack) :
    copyInputs w (n + 1) d st =
      stackWrite (copyInputs w n d st) (d + 1) n
        (stackRead (copyInputs w n d st) d (w.getD n 0)) := by
  unfold copyInputs
  rw [List.range_succ, List.foldl_append, List.foldl_cons, List.foldl_nil]

theorem copyInputs_preserve (w : List Nat) (n d : Nat) (st : Stack) (e i : Nat)
    (h : e ≠ d + 1 ∨ n ≤ i) :
    stackRead (copyInputs w n d st) e i = stackRead st e i := by
  induction n with
  | zero => rfl
  | succ n ih =>
    rw [copyInputs_succ, stackRead_stackWrite, if_neg]
    · refine ih ?_
      rcases h with h | h
      · exact Or.inl h
      · exact Or.inr (by omega)
    · rintro ⟨rfl, rfl, -⟩
      rcases h with h | h
      · exact h rfl
      · omega

theorem copyInputs_length (w : List Nat) (n d : Nat) (st : Stack) :
    (copyInputs w n d st).length = st.length := by
  induction n with
  | zero => rfl
  | succ n ih => rw [copyInputs_succ, length_stackWrite, ih]

theorem copyInputs_read (w : List Nat) (n d : Nat) (st : Stack) (j : Nat)
    (hj : j < n) (hd : d + 1 < st.length) :
    stackRead (copyInputs w n d st) (d + 1) j = stackRead st d (w.getD j 0) := by
  induction n with
  | zero => omega
  | succ n ih =>
    rw [copyInputs_succ, stackRead_stackWrite]
    by_cases hjn : j = n
    · rw [if_pos ⟨rfl, hjn.symm, by rw [copyInputs_length]; exact hd⟩, hjn]
      exact copyInputs_preserve w n d st d _ (Or.inl (by omega))
    · rw [if_neg (by rintro ⟨-, rfl, -⟩; exact hjn rfl)]
      exact ih (by omega)

theorem copyOutputs_succ (w : List Nat) (nIn n d : Nat) (st : Stack) :
    copyOutputs w nIn (n + 1) d st =
      stackWrite (copyOutputs w nIn n d st) d (w.getD (nIn + n) 0)
        (stackRead (copyOutputs w nIn n d st) (d + 1) (nIn + n)) := by
  unfold copyOutputs
  rw [List.range_succ, List.foldl_append, List.foldl_cons, List.foldl_nil]

theorem copyOutputs_preserve (w : List Nat) (nIn nOut d : Nat) (st : Stack) (e i : Nat)
    (h : e ≠ d ∨ ∀ k, k < nOut → w.getD (nIn + k) 0 ≠ i) :
    stackRead (copyOutputs w nIn nOut d st) e i = stackRead st e i := by
  induction nOut with
  | zero => rfl
  | succ n ih =>
    rw [copyOutputs_succ, stackRead_stackWrite, if_neg]
    · refine ih ?_
      rcases h with h | h
      · exact Or.inl h
      · exact Or.inr fun k hk => h k (by omega)
    · rintro ⟨rfl, rfl, -⟩
      rcases h with h | h
      · exact h rfl
      · exact h n (by omega) rfl

theorem copyOutputs_length (w : List Nat) (nIn nOut d : Nat) (st : Stack) :
    (copyOutputs w nIn nOut d st).length = st.length := by
  induction nOut with
  | zero => rfl
  | succ n ih => rw [copyOutputs_succ, length_stackWrite, ih]

/-- C9: the implicit slot-layout invariant.  The decoder's occurrence arrays
start in the invariant state (`ClassInv`), every classification step of
`read_args` preserves it, and under it a candidate accepted by `add_op` has
its inferred inputs exactly at frame slots `0 .. n_inputs-1` and its inferred
outputs exactly at slots `n_inputs .. n_inputs+n_outputs-1`; `add_op` fatally
rejects (returns 0, which `end_def` turns into an abort) any candidate whose
leading slots are not so marked.  On the simulation side, `simulate_circuit`
relies on this layout: its input copy writes exactly the child-frame slots
`0 .. n_inputs-1` (with the wired parent values) and its output copy-back
writes only the parent slots wired to child slots
`n_inputs .. n_inputs+n_outputs-1`. -/
theorem C9_slot_layout :
    ClassInv init_interpreter_state ∧
    (∀ (s : InterpState) (pos : Bool) (b : Nat), b < WIRE_SIZE → ClassInv s →
      ClassInv (classify_arg pos b s)) ∧
    (∀ (s : InterpState) (t t' : Table), ClassInv s → add_op s t = some t' →
      ∀ b : Nat, b < WIRE_SIZE →
        ((s.inA b ≠ 0 ↔ (b : Int) < s.new_op.n_inputs) ∧
         (s.outA b ≠ 0 ↔ (s.new_op.n_inputs ≤ (b : Int) ∧
           (b : Int) < s.new_op.n_inputs + s.new_op.n_outputs)))) ∧
    (∀ (w : List Nat) (n d : Nat) (st : Stack) (e i : Nat), (e ≠ d + 1 ∨ n ≤ i) →
      stackRead (copyInputs w n d st) e i = stackRead st e i) ∧
    (∀ (w : List Nat) (n d : Nat) (st : Stack) (j : Nat), j < n → d + 1 < st.length →
      stackRead (copyInputs w n d st) (d + 1) j = stackRead st d (w.getD j 0)) ∧
    (∀ (w : List Nat) (nIn nOut d : Nat) (st : Stack) (e i : Nat),
      (e ≠ d ∨ ∀ k, k < nOut → w.getD (nIn + k) 0 ≠ i) →
      stackRead (copyOutputs w nIn nOut d st) e i = stackRead st e i) := by
  refine ⟨?_, classify_arg_ClassInv, add_op_layout, copyInputs_preserve, copyInputs_read,
    copyOutputs_preserve⟩
  have hzero : classCard (fun _ => (0 : Int)) = 0 := by
    unfold classCard
    simp
  refine ⟨?_, ?_, ?_, ?_, ?_⟩
  · show zeroCircuit.n_inputs = (classCard (fun _ => (0 : Int)) : Int)
    rw [hzero]
    rfl
  · show zeroCircuit.n_outputs = (classCard (fun _ => (0 : Int)) : Int)
    rw [hzero]
    rfl
  · intro b
    exact ⟨le_refl 0, le_refl 0, le_refl 0⟩
  · intro b
    exact ⟨fun hc => absurd rfl hc, fun hc => absurd rfl hc⟩
  · intro b _
    exact ⟨rfl, rfl, rfl⟩

/-- Closed witness for `C9_slot_layout`: the invariant survives a concrete
classification step from the initial state. -/
theorem C9_slot_layout_witness :
    ClassInv (classify_arg true 3 init_interpreter_state) :=
  C9_slot_layout.2.1 init_interpreter_state true 3 (by decide) C9_slot_layout.1

/-! ## C6: termination of the scheduler -/

theorem init_ring_ok (c : Circuit) (r : Ring) (h : init_ring c = some r) :
    RingInv r ∧ r.size = c.n_modules.toNat ∧ r.capacity = MAX_OPS ∧
      validCircuitB c = true ∧ 1 ≤ r.size := by
  have hM : MAX_OPS = 32 := rfl
  have hMI : (MAX_OPS : Int) = 32 := rfl
  unfold init_ring at h
  by_cases hc : validCircuitB c
  · rw [if_pos hc] at h
    have hmods : (0:Int) < c.n_modules ∧ c.n_modules < (MAX_OPS : Int) := by
      unfold validCircuitB at hc
      simp only [Bool.and_eq_true, decide_eq_true_eq] at hc
      exact ⟨hc.1.2, hc.2⟩
    by_cases hv : validRingB (Ring.mk MAX_OPS c.n_modules.toNat 0 c.n_modules.toNat
        (fun i => c.modules.getD i default))
    · rw [if_pos hv] at h
      obtain rfl : _ = r := Option.some.inj h
      refine ⟨⟨hv, ?_⟩, rfl, rfl, hc, show 1 ≤ c.n_modules.toNat by omega⟩
      show c.n_modules.toNat = (0 + c.n_modules.toNat) % MAX_OPS
      rw [Nat.zero_add, Nat.mod_eq_of_lt (by omega)]
    · rw [if_neg hv] at h
      exact absurd h (by simp)
  · rw [if_neg hc] at h
    exact absurd h (by simp)

theorem runPass_no_fuelOut (evalM : Module → Stack → MRes)
    (hm : ∀ m stx, evalM m stx ≠ MRes.mfuelOut) :
    ∀ (k : Nat) (ring : Ring) (st : Stack),
      runPass evalM k ring st ≠ PassRes.pfuelOut := by
  intro k
  induction k with
  | zero =>
    intro ring st h
    exact PassRes.noConfusion h
  | succ k ih =>
    intro ring st
    match hpop : pop_module ring with
    | none =>
      intro h
      rw [runPass, hpop] at h
      exact PassRes.noConfusion h
    | some (m, ring1) =>
      match hev : evalM m st with
      | MRes.mok st2 success =>
        cases success
        · match hpush : push_module ring1 m with
          | none =>
            intro h
            rw [runPass, hpop] at h
            dsimp only at h
            rw [hev] at h
            dsimp only at h
            rw [if_neg (by simp), hpush] at h
            exact PassRes.noConfusion h
          | some ring2 =>
            intro h
            rw [runPass, hpop] at h
            dsimp only at h
            rw [hev] at h
            dsimp only at h
            rw [if_neg (by simp), hpush] at h
            exact ih ring2 st2 h
        · intro h
          rw [runPass, hpop] at h
          dsimp only at h
          rw [hev] at h
          dsimp only at h
          rw [if_pos rfl] at h
          exact ih ring1 st2 h
      | MRes.mabort =>
        intro h
        rw [runPass, hpop] at h
        dsimp only at h
        rw [hev] at h
        exact PassRes.noConfusion h
      | MRes.mfuelOut => exact absurd hev (hm m st)

theorem runPass_size (evalM : Module → Stack → MRes) :
    ∀ (k : Nat) (ring : Ring) (st : Stack), RingInv ring → k ≤ ring.size →
      ∀ ring' st', runPass evalM k ring st = PassRes.pok ring' st' →
        RingInv ring' ∧ ring.size - k ≤ ring'.size ∧ ring'.size ≤ ring.size ∧
          ring'.capacity = ring.capacity := by
  intro k
  induction k with
  | zero =>
    intro ring st hInv _ ring' st' h
    rw [runPass] at h
    cases h
    exact ⟨hInv, by omega, le_refl _, rfl⟩
  | succ k ih =>
    intro ring st hInv hk ring' st' h
    obtain ⟨m, ring1, hpop, hInv1, _, hsz1, hcap1, _⟩ := pop_module_spec ring hInv (by omega)
    rw [runPass, hpop] at h
    dsimp only at h
    match hev : evalM m st with
    | MRes.mok st2 success =>
      rw [hev] at h
      dsimp only at h
      cases success
      · rw [if_neg (by simp)] at h
        have hroom : ring1.size < ring1.capacity := by
          have hval := hInv.1
          rw [validRingB_iff] at hval
          omega
        obtain ⟨ring2, hpush, hInv2, _, hsz2, hcap2⟩ := push_module_spec ring1 m hInv1 hroom
        rw [hpush] at h
        obtain ⟨hI, h1, h2, h3⟩ := ih ring2 st2 hInv2 (by omega) ring' st' h
        exact ⟨hI, by omega, by omega, by rw [h3, hcap2, hcap1]⟩
      · rw [if_pos rfl] at h
        obtain ⟨hI, h1, h2, h3⟩ := ih ring1 st2 hInv1 (by omega) ring' st' h
        exact ⟨hI, by omega, by omega, by rw [h3, hcap1]⟩
    | MRes.mabort =>
      rw [hev] at h
      exact absurd h (by simp)
    | MRes.mfuelOut =>
      rw [hev] at h
      exact absurd h (by simp)

theorem passLoop_spec (evalM : Module → Stack → MRes)
    (hm : ∀ m stx, evalM m stx ≠ MRes.mfuelOut) :
    ∀ (pfuel isize : Nat) (ring : Ring) (st : Stack), RingInv ring →
      ring.size = isize → 1 ≤ isize → isize ≤ pfuel →
      passLoop evalM pfuel isize ring st ≠ SimRes.fuelOut ∧
      (∀ st' b p, passLoop evalM pfuel isize ring st = SimRes.done st' b p →
        1 ≤ p ∧ p ≤ isize) := by
  intro pfuel
  induction pfuel with
  | zero =>
    intro isize ring st _ _ h1 h2
    omega
  | succ pfuel ih =>
    intro isize ring st hInv hsz h1 h2
    match hrp : runPass evalM isize ring st with
    | PassRes.pabort =>
      constructor
      · intro h
        rw [passLoop, hrp] at h
        exact SimRes.noConfusion h
      · intro st' b p h
        rw [passLoop, hrp] at h
        exact SimRes.noConfusion h
    | PassRes.pfuelOut =>
      exact absurd hrp (runPass_no_fuelOut evalM hm isize ring st)
    | PassRes.pok ring' st' =>
      obtain ⟨hInv', hlow, hhigh, hcap⟩ :=
        runPass_size evalM isize ring st hInv (by omega) ring' st' hrp
      by_cases hstall : ring'.size = isize
      · constructor
        · intro h
          rw [passLoop, hrp] at h
          dsimp only at h
          rw [if_pos hstall] at h
          exact SimRes.noConfusion h
        · intro st2 b p h
          rw [passLoop, hrp] at h
          dsimp only at h
          rw [if_pos hstall] at h
          cases h
          omega
      · by_cases hdone : ring'.size = 0
        · constructor
          · intro h
            rw [passLoop, hrp] at h
            dsimp only at h
            rw [if_neg hstall, if_pos hdone] at h
            exact SimRes.noConfusion h
          · intro st2 b p h
            rw [passLoop, hrp] at h
            dsimp only at h
            rw [if_neg hstall, if_pos hdone] at h
            cases h
            omega
        · have hlt : ring'.size < isize := by omega
          obtain ⟨hnf, hbound⟩ := ih ring'.size ring' st' hInv' rfl (by omega) (by omega)
          constructor
          · intro h
            rw [passLoop, hrp] at h
            dsimp only at h
            rw [if_neg hstall, if_neg hdone, if_pos hlt] at h
            match hsub : passLoop evalM pfuel ring'.size ring' st' with
            | SimRes.done st3 c q =>
              rw [hsub] at h
              exact SimRes.noConfusion h
            | SimRes.abort =>
              rw [hsub] at h
              exact SimRes.noConfusion h
            | SimRes.fuelOut => exact absurd hsub hnf
          · intro st2 b p h
            rw [passLoop, hrp] at h
            dsimp only at h
            rw [if_neg hstall, if_neg hdone, if_pos hlt] at h
            match hsub : passLoop evalM pfuel ring'.size ring' st' with
            | SimRes.done st3 c q =>
              rw [hsub] at h
              obtain ⟨hp1, hp2⟩ := hbound st3 c q hsub
              cases h
              omega
            | SimRes.abort =>
              rw [hsub] at h
              exact absurd h (by simp)
            | SimRes.fuelOut => exact absurd hsub hnf

theorem simulateC_no_fuelOut (table : Table) :
    ∀ (dgas depth : Nat), STACK_DEPTH ≤ dgas + depth → 1 ≤ dgas →
      ∀ (cid : Nat) (st : Stack),
        simulateC table dgas cid depth st ≠ SimRes.fuelOut ∧
        (∀ st' b p, simulateC table dgas cid depth st = SimRes.done st' b p →
          1 ≤ p ∧ p ≤ (tget table cid).n_modules.toNat) := by
  intro dgas
  induction dgas with
  | zero => intro depth h1 h2; omega
  | succ dgas ih =>
    intro depth hdg _ cid st
    rw [simulateC]
    by_cases hd : depth < STACK_DEPTH - 1
    · rw [if_pos hd]
      match hinit : init_ring (tget table cid) with
      | none =>
        exact ⟨fun h => SimRes.noConfusion h, fun st' b p h => SimRes.noConfusion h⟩
      | some ring =>
        obtain ⟨hInv, hsz, _, _, hpos⟩ := init_ring_ok _ _ hinit
        have hm : ∀ m stx, evalModule table (simulateC table dgas) depth m stx ≠
            MRes.mfuelOut := by
          intro m stx
          unfold evalModule
          dsimp only
          by_cases hid : m.id_circuit = 0
          · rw [if_pos hid]
            exact fun h => MRes.noConfusion h
          · rw [if_neg hid]
            have hsub := ih (depth + 1)
              (by have hS : STACK_DEPTH = 8 := rfl; omega)
              (by have hS : STACK_DEPTH = 8 := rfl; omega) m.id_circuit
              (copyInputs m.wirings (tget table m.id_circuit).n_inputs.toNat depth stx)
            match hs : simulateC table dgas m.id_circuit (depth + 1)
                (copyInputs m.wirings (tget table m.id_circuit).n_inputs.toNat depth stx) with
            | SimRes.done st2 b p => exact fun h => MRes.noConfusion h
            | SimRes.abort => exact fun h => MRes.noConfusion h
            | SimRes.fuelOut => exact absurd hs hsub.1
        obtain ⟨hnf, hbound⟩ := passLoop_spec _ hm ring.size ring.size ring st hInv rfl
          (by omega) (le_refl _)
        refine ⟨hnf, ?_⟩
        intro st' b p h
        obtain ⟨h1, h2⟩ := hbound st' b p h
        omega
    · rw [if_neg hd]
      exact ⟨fun h => SimRes.noConfusion h, fun st' b p h => SimRes.noConfusion h⟩

/-- C6: the scheduler terminates.  With recursion gas `STACK_DEPTH` (which the
`stack_depth < STACK_DEPTH - 1` assert makes sufficient for every reachable
recursion), `simulate_circuit` never exhausts its gas: it always returns a
result or aborts on a failed assert.  Moreover, since a pass may only continue
when the ring's pending size strictly decreased (`ring.size < initial_size`),
the number of executed passes of any completed call is at least 1 and at most
the circuit's module count. -/
theorem C6_termination (table : Table) (cid depth : Nat) (st : Stack)
    (hdepth : depth < STACK_DEPTH - 1) :
    simulateC table STACK_DEPTH cid depth st ≠ SimRes.fuelOut ∧
    (∀ st' b p, simulateC table STACK_DEPTH cid depth st = SimRes.done st' b p →
      1 ≤ p ∧ (p : Int) ≤ (tget table cid).n_modules) := by
  obtain ⟨hnf, hbound⟩ := simulateC_no_fuelOut table STACK_DEPTH depth (by omega)
    (by norm_num [STACK_DEPTH]) cid st
  refine ⟨hnf, ?_⟩
  intro st' b p h
  obtain ⟨h1, h2⟩ := hbound st' b p h
  refine ⟨h1, ?_⟩
  omega

/-- Closed witness for `C6_termination`: the single-NAND test circuit at
depth 0. -/
theorem C6_termination_witness :
    simulateC c4Table STACK_DEPTH 1 0 c4Stack ≠ SimRes.fuelOut :=
  (C6_termination c4Table 1 0 c4Stack (by decide)).1

/-! ## C1: the four-bit adder end-to-end -/

theorem decodedTable_eq : decodedTable = some litTable := by decide!

theorem simulate_nand_resolved (lvl : Nat) (st : Stack) (x y : Bool)
    (hx : stackRead st lvl 0 = wb x) (hy : stackRead st lvl 1 = wb y) :
    simulate_nand lvl st = (stackWrite st lvl 2 (wb (!(x && y))), true) := by
  unfold simulate_nand
  rw [hx, hy]
  cases x <;> cases y <;> rfl

theorem evalNand (ev : Nat → Nat → Stack → SimRes) (d : Nat) (w : List Nat)
    (st : Stack) (x y : Bool)
    (hlen : st.length = STACK_DEPTH) (hd : d + 1 < STACK_DEPTH)
    (hx : stackRead st d (w.getD 0 0) = wb x)
    (hy : stackRead st d (w.getD 1 0) = wb y) :
    ∃ st', evalModule litTable ev d ⟨0, w⟩ st = MRes.mok st' true ∧
      st'.length = STACK_DEPTH ∧
      ∀ e i, e ≤ d → stackRead st' e i =
        if e = d ∧ i = w.getD 2 0 then wb (!(x && y)) else stackRead st e i := by
  have hd1 : d + 1 < st.length := by omega
  have hx1 : stackRead (copyInputs w 2 d st) (d + 1) 0 = wb x := by
    rw [copyInputs_read w 2 d st 0 (by omega) hd1]; exact hx
  have hy1 : stackRead (copyInputs w 2 d st) (d + 1) 1 = wb y := by
    rw [copyInputs_read w 2 d st 1 (by omega) hd1]; exact hy
  have hsn := simulate_nand_resolved (d + 1) (copyInputs w 2 d st) x y hx1 hy1
  refine ⟨copyOutputs w 2 1 d
      (stackWrite (copyInputs w 2 d st) (d + 1) 2 (wb (!(x && y)))), ?_, ?_, ?_⟩
  · unfold evalModule
    dsimp only
    rw [if_pos rfl, show (tget litTable 0).n_inputs.toNat = 2 from rfl,
      show (tget litTable 0).n_outputs.toNat = 1 from rfl, hsn]
  · rw [copyOutputs_length, length_stackWrite, copyInputs_length, hlen]
  · intro e i hei
    have hco : copyOutputs w 2 1 d
        (stackWrite (copyInputs w 2 d st) (d + 1) 2 (wb (!(x && y)))) =
        stackWrite (stackWrite (copyInputs w 2 d st) (d + 1) 2 (wb (!(x && y))))
          d (w.getD 2 0)
          (stackRead (stackWrite (copyInputs w 2 d st) (d + 1) 2 (wb (!(x && y))))
            (d + 1) 2) := rfl
    have hR : stackRead (stackWrite (copyInputs w 2 d st) (d + 1) 2 (wb (!(x && y))))
        (d + 1) 2 = wb (!(x && y)) := by
      rw [stackRead_stackWrite, if_pos ⟨rfl, rfl, by rw [copyInputs_length]; omega⟩]
    rw [hco, hR, stackRead_stackWrite]
    by_cases hc : e = d ∧ i = w.getD 2 0
    · rw [if_pos ⟨hc.1.symm, hc.2.symm, by
        rw [length_stackWrite, copyInputs_length]; omega⟩, if_pos hc]
    · rw [if_neg (by rintro ⟨h1, h2, -⟩; exact hc ⟨h1.symm, h2.symm⟩),
        stackRead_stackWrite, if_neg (by rintro ⟨h1, -, -⟩; omega), if_neg hc]
      exact copyInputs_preserve w 2 d st e i (Or.inl (by omega))

theorem runPass_chain (evalM : Module → Stack → MRes) :
    ∀ (k : Nat) (ring : Ring) (st st' : Stack), RingInv ring → k = ring.size →
      evalChain evalM (ringList ring) st = some st' →
      ∃ ring', runPass evalM k ring st = PassRes.pok ring' st' ∧ ring'.size = 0 := by
  intro k
  induction k with
  | zero =>
    intro ring st st' hInv hk hchain
    have hnil : ringList ring = [] := by
      unfold ringList
      rw [← hk]
      rfl
    rw [hnil] at hchain
    simp only [evalChain, Option.some.injEq] at hchain
    subst hchain
    exact ⟨ring, by rw [runPass], by omega⟩
  | succ k ih =>
    intro ring st st' hInv hk hchain
    obtain ⟨m, ring1, hpop, hInv1, hlist, hsz1, hcap1, _⟩ :=
      pop_module_spec ring hInv (by omega)
    rw [hlist] at hchain
    simp only [evalChain] at hchain
    match hev : evalM m st with
    | MRes.mok st1 success =>
      rw [hev] at hchain
      cases success
      · exact absurd hchain (by simp)
      · dsimp only at hchain
        obtain ⟨ring', hrp, hs0⟩ := ih ring1 st1 st' hInv1 (by omega) hchain
        refine ⟨ring', ?_, hs0⟩
        rw [runPass, hpop]
        dsimp only
        rw [hev]
        dsimp only
        rw [if_pos rfl]
        exact hrp
    | MRes.mabort =>
      rw [hev] at hchain
      exact absurd hchain (by simp)
    | MRes.mfuelOut =>
      rw [hev] at hchain
      exact absurd hchain (by simp)

theorem simulateC_resolves (dgas cid d : Nat) (st st' : Stack)
    (hd : d < STACK_DEPTH - 1)
    (hval : validCircuitB (tget litTable cid) = true)
    (hmlen : (tget litTable cid).modules.length = (tget litTable cid).n_modules.toNat)
    (hchain : evalChain (evalModule litTable (simulateC litTable dgas) d)
        (tget litTable cid).modules st = some st') :
    simulateC litTable (dgas + 1) cid d st = SimRes.done st' true 1 := by
  obtain ⟨ring, hinit, hInv, hrl, hsz, hcap⟩ := init_ring_spec _ hval hmlen
  have hpos : 1 ≤ ring.size := (init_ring_ok _ _ hinit).2.2.2.2
  rw [simulateC, if_pos hd, hinit]
  dsimp only
  obtain ⟨ring', hrp, hsz'⟩ := runPass_chain _ ring.size ring st st' hInv rfl
    (by rw [hrl]; exact hchain)
  obtain ⟨s0, hs0⟩ : ∃ s0, ring.size = s0 + 1 := ⟨ring.size - 1, by omega⟩
  rw [hs0] at hrp ⊢
  rw [passLoop, hrp]
  dsimp only
  rw [hsz', if_neg (by omega), if_pos rfl]

theorem evalComp (dgas d : Nat) (c : Nat) (w : List Nat) (st st2 : Stack)
    (hc : c ≠ 0)
    (hsub : simulateC litTable dgas c (d + 1)
        (copyInputs w (tget litTable c).n_inputs.toNat d st) = SimRes.done st2 true 1) :
    evalModule litTable (simulateC litTable dgas) d ⟨c, w⟩ st =
      MRes.mok (copyOutputs w (tget litTable c).n_inputs.toNat
        (tget litTable c).n_outputs.toNat d st2) true := by
  unfold evalModule
  dsimp only
  rw [if_neg hc, hsub]

theorem simC_not (dgas d : Nat) (st : Stack) (x : Bool)
    (hlen : st.length = STACK_DEPTH) (hd : d + 1 < STACK_DEPTH)
    (h0 : stackRead st d 0 = wb x) :
    ∃ st', simulateC litTable (dgas + 1) 1 d st = SimRes.done st' true 1 ∧
      st'.length = STACK_DEPTH ∧
      (∀ e i, e < d → stackRead st' e i = stackRead st e i) ∧
      stackRead st' d 1 = wb (!x) := by
  have hS : STACK_DEPTH = 8 := rfl
  obtain ⟨st1, he1, hlen1, hr1⟩ :=
    evalNand (simulateC litTable dgas) d [0, 0, 1] st x x hlen hd h0 h0
  refine ⟨st1, simulateC_resolves dgas 1 d st st1 (by omega) rfl rfl ?_, hlen1, ?_, ?_⟩
  · show evalChain _ [⟨0, [0, 0, 1]⟩] st = some st1
    simp only [evalChain, he1]
  · intro e i hei
    rw [hr1 e i (by omega), if_neg (by rintro ⟨h1, -⟩; omega)]
  · rw [hr1 d 1 (le_refl d), if_pos ⟨rfl, rfl⟩]
    cases x <;> rfl

theorem evalOut1 (dgas d c nIn : Nat) (w : List Nat) (st stc : Stack) (v : Bool)
    (hc : c ≠ 0)
    (hIn : (tget litTable c).n_inputs.toNat = nIn)
    (hOut : (tget litTable c).n_outputs.toNat = 1)
    (hlen : st.length = STACK_DEPTH) (hd : d + 1 < STACK_DEPTH)
    (hsub : simulateC litTable dgas c (d + 1) (copyInputs w nIn d st) =
      SimRes.done stc true 1)
    (hlenc : stc.length = STACK_DEPTH)
    (hpresc : ∀ e i, e < d + 1 →
      stackRead stc e i = stackRead (copyInputs w nIn d st) e i)
    (houtc : stackRead stc (d + 1) nIn = wb v) :
    ∃ st', evalModule litTable (simulateC litTable dgas) d ⟨c, w⟩ st =
        MRes.mok st' true ∧
      st'.length = STACK_DEPTH ∧
      ∀ e i, e ≤ d → stackRead st' e i =
        if e = d ∧ i = w.getD nIn 0 then wb v else stackRead st e i := by
  have he := evalComp dgas d c w st stc hc (by rw [hIn]; exact hsub)
  rw [hIn, hOut] at he
  refine ⟨copyOutputs w nIn 1 d stc, he, ?_, ?_⟩
  · rw [copyOutputs_length]; exact hlenc
  · intro e i hei
    have hco : copyOutputs w nIn 1 d stc =
        stackWrite stc d (w.getD nIn 0) (stackRead stc (d + 1) nIn) := rfl
    rw [hco, houtc, stackRead_stackWrite]
    by_cases hc2 : e = d ∧ i = w.getD nIn 0
    · rw [if_pos ⟨hc2.1.symm, hc2.2.symm, by rw [hlenc]; omega⟩, if_pos hc2]
    · rw [if_neg (by rintro ⟨h1, h2, -⟩; exact hc2 ⟨h1.symm, h2.symm⟩),
        hpresc e i (by omega),
        copyInputs_preserve w nIn d st e i (Or.inl (by omega)), if_neg hc2]

theorem evalOut2 (dgas d : Nat) (w : List Nat) (st stc : Stack) (v1 v2 : Bool)
    (hlen : st.length = STACK_DEPTH) (hd : d + 1 < STACK_DEPTH)
    (hsub : simulateC litTable dgas 7 (d + 1) (copyInputs w 3 d st) =
      SimRes.done stc true 1)
    (hlenc : stc.length = STACK_DEPTH)
    (hpresc : ∀ e i, e < d + 1 →
      stackRead stc e i = stackRead (copyInputs w 3 d st) e i)
    (hout1 : stackRead stc (d + 1) 3 = wb v1)
    (hout2 : stackRead stc (d + 1) 4 = wb v2) :
    ∃ st', evalModule litTable (simulateC litTable dgas) d ⟨7, w⟩ st =
        MRes.mok st' true ∧
      st'.length = STACK_DEPTH ∧
      ∀ e i, e ≤ d → stackRead st' e i =
        if e = d ∧ i = w.getD 4 0 then wb v2
        else if e = d ∧ i = w.getD 3 0 then wb v1
        else stackRead st e i := by
  have he := evalComp dgas d 7 w st stc (by decide) hsub
  have hIn : (tget litTable 7).n_inputs.toNat = 3 := rfl
  have hOut : (tget litTable 7).n_outputs.toNat = 2 := rfl
  rw [hIn, hOut] at he
  refine ⟨copyOutputs w 3 2 d stc, he, ?_, ?_⟩
  · rw [copyOutputs_length]; exact hlenc
  · intro e i hei
    have hco : copyOutputs w 3 2 d stc =
        stackWrite (stackWrite stc d (w.getD 3 0) (stackRead stc (d + 1) 3))
          d (w.getD 4 0)
          (stackRead (stackWrite stc d (w.getD 3 0) (stackRead stc (d + 1) 3))
            (d + 1) 4) := rfl
    have hR : stackRead (stackWrite stc d (w.getD 3 0) (stackRead stc (d + 1) 3))
        (d + 1) 4 = wb v2 := by
      rw [stackRead_stackWrite, if_neg (by rintro ⟨h1, -, -⟩; omega)]
      exact hout2
    rw [hco, hR, hout1, stackRead_stackWrite]
    by_cases hc2 : e = d ∧ i = w.getD 4 0
    · rw [if_pos ⟨hc2.1.symm, hc2.2.symm, by
        rw [length_stackWrite, hlenc]; omega⟩, if_pos hc2]
    · rw [if_neg (by rintro ⟨h1, h2, -⟩; exact hc2 ⟨h1.symm, h2.symm⟩),
        stackRead_stackWrite, if_neg hc2]
      by_cases hc3 : e = d ∧ i = w.getD 3 0
      · rw [if_pos ⟨hc3.1.symm, hc3.2.symm, by rw [hlenc]; omega⟩, if_pos hc3]
      · rw [if_neg (by rintro ⟨h1, h2, -⟩; exact hc3 ⟨h1.symm, h2.symm⟩),
          hpresc e i (by omega),
          copyInputs_preserve w 3 d st e i (Or.inl (by omega)), if_neg hc3]

theorem simC_or (dgas d : Nat) (st : Stack) (x y : Bool)
    (hlen : st.length = STACK_DEPTH) (hd : d + 1 < STACK_DEPTH)
    (h0 : stackRead st d 0 = wb x) (h1 : stackRead st d 1 = wb y) :
    ∃ st', simulateC litTable (dgas + 1) 3 d st = SimRes.done st' true 1 ∧
      st'.length = STACK_DEPTH ∧
      (∀ e i, e < d → stackRead st' e i = stackRead st e i) ∧
      stackRead st' d 2 = wb (x || y) := by
  obtain ⟨st1, he1, hlen1, hr1⟩ :=
    evalNand (simulateC litTable dgas) d [0, 0, 3] st x x hlen hd h0 h0
  obtain ⟨st2, he2, hlen2, hr2⟩ :=
    evalNand (simulateC litTable dgas) d [1, 1, 4] st1 y y hlen1 hd
      (by show stackRead st1 d 1 = wb y
          rw [hr1 d 1 (le_refl d), if_neg (by rintro ⟨-, h⟩; exact absurd h (by decide))]
          exact h1)
      (by show stackRead st1 d 1 = wb y
          rw [hr1 d 1 (le_refl d), if_neg (by rintro ⟨-, h⟩; exact absurd h (by decide))]
          exact h1)
  obtain ⟨st3, he3, hlen3, hr3⟩ :=
    evalNand (simulateC litTable dgas) d [3, 4, 2] st2 (!(x && x)) (!(y && y)) hlen2 hd
      (by show stackRead st2 d 3 = wb (!(x && x))
          rw [hr2 d 3 (le_refl d), if_neg (by rintro ⟨-, h⟩; exact absurd h (by decide)),
            hr1 d 3 (le_refl d), if_pos ⟨rfl, rfl⟩])
      (by show stackRead st2 d 4 = wb (!(y && y))
          rw [hr2 d 4 (le_refl d), if_pos ⟨rfl, rfl⟩])
  refine ⟨st3, simulateC_resolves dgas 3 d st st3 (by omega) rfl rfl ?_, hlen3, ?_, ?_⟩
  · show evalChain _ [⟨0, [0, 0, 3]⟩, ⟨0, [1, 1, 4]⟩, ⟨0, [3, 4, 2]⟩] st = some st3
    simp only [evalChain, he1, he2, he3]
  · intro e i hei
    rw [hr3 e i (by omega), if_neg (by rintro ⟨h, -⟩; omega),
      hr2 e i (by omega), if_neg (by rintro ⟨h, -⟩; omega),
      hr1 e i (by omega), if_neg (by rintro ⟨h, -⟩; omega)]
  · rw [hr3 d 2 (le_refl d), if_pos ⟨rfl, rfl⟩]
    cases x <;> cases y <;> rfl

theorem simC_xor (dgas d : Nat) (st : Stack) (x y : Bool)
    (hlen : st.length = STACK_DEPTH) (hd : d + 1 < STACK_DEPTH)
    (h0 : stackRead st d 0 = wb x) (h1 : stackRead st d 1 = wb y) :
    ∃ st', simulateC litTable (dgas + 1) 5 d st = SimRes.done st' true 1 ∧
      st'.length = STACK_DEPTH ∧
      (∀ e i, e < d → stackRead st' e i = stackRead st e i) ∧
      stackRead st' d 2 = wb (xor x y) := by
  obtain ⟨st1, he1, hlen1, hr1⟩ :=
    evalNand (simulateC litTable dgas) d [0, 1, 3] st x y hlen hd h0 h1
  obtain ⟨st2, he2, hlen2, hr2⟩ :=
    evalNand (simulateC litTable dgas) d [0, 3, 4] st1 x (!(x && y)) hlen1 hd
      (by show stackRead st1 d 0 = wb x
          rw [hr1 d 0 (le_refl d), if_neg (by rintro ⟨-, h⟩; exact absurd h (by decide))]
          exact h0)
      (by show stackRead st1 d 3 = wb (!(x && y))
          rw [hr1 d 3 (le_refl d), if_pos ⟨rfl, rfl⟩])
  obtain ⟨st3, he3, hlen3, hr3⟩ :=
    evalNand (simulateC litTable dgas) d [1, 3, 5] st2 y (!(x && y)) hlen2 hd
      (by show stackRead st2 d 1 = wb y
          rw [hr2 d 1 (le_refl d), if_neg (by rintro ⟨-, h⟩; exact absurd h (by decide)),
            hr1 d 1 (le_refl d), if_neg (by rintro ⟨-, h⟩; exact absurd h (by decide))]
          exact h1)
      (by show stackRead st2 d 3 = wb (!(x && y))
          rw [hr2 d 3 (le_refl d), if_neg (by rintro ⟨-, h⟩; exact absurd h (by decide)),
            hr1 d 3 (le_refl d), if_pos ⟨rfl, rfl⟩])
  obtain ⟨st4, he4, hlen4, hr4⟩ :=
    evalNand (simulateC litTable dgas) d [4, 5, 2] st3
      (!(x && !(x && y))) (!(y && !(x && y))) hlen3 hd
      (by show stackRead st3 d 4 = wb (!(x && !(x && y)))
          rw [hr3 d 4 (le_refl d), if_neg (by rintro ⟨-, h⟩; exact absurd h (by decide)),
            hr2 d 4 (le_refl d), if_pos ⟨rfl, rfl⟩])
      (by show stackRead st3 d 5 = wb (!(y && !(x && y)))
          rw [hr3 d 5 (le_refl d), if_pos ⟨rfl, rfl⟩])
  refine ⟨st4, simulateC_resolves dgas 5 d st st4 (by omega) rfl rfl ?_, hlen4, ?_, ?_⟩
  · show evalChain _
      [⟨0, [0, 1, 3]⟩, ⟨0, [0, 3, 4]⟩, ⟨0, [1, 3, 5]⟩, ⟨0, [4, 5, 2]⟩] st = some st4
    simp only [evalChain, he1, he2, he3, he4]
  · intro e i hei
    rw [hr4 e i (by omega), if_neg (by rintro ⟨h, -⟩; omega),
      hr3 e i (by omega), if_neg (by rintro ⟨h, -⟩; omega),
      hr2 e i (by omega), if_neg (by rintro ⟨h, -⟩; omega),
      hr1 e i (by omega), if_neg (by rintro ⟨h, -⟩; omega)]
  · rw [hr4 d 2 (le_refl d), if_pos ⟨rfl, rfl⟩]
    cases x <;> cases y <;> rfl

theorem simC_and (dgas d : Nat) (st : Stack) (x y : Bool)
    (hlen : st.length = STACK_DEPTH) (hd : d + 2 < STACK_DEPTH)
    (h0 : stackRead st d 0 = wb x) (h1 : stackRead st d 1 = wb y) :
    ∃ st', simulateC litTable (dgas + 2) 2 d st = SimRes.done st' true 1 ∧
      st'.length = STACK_DEPTH ∧
      (∀ e i, e < d → stackRead st' e i = stackRead st e i) ∧
      stackRead st' d 2 = wb (x && y) := by
  obtain ⟨st1, he1, hlen1, hr1⟩ :=
    evalNand (simulateC litTable (dgas + 1)) d [0, 1, 3] st x y hlen (by omega) h0 h1
  have h3' : stackRead st1 d 3 = wb (!(x && y)) := by
    rw [hr1 d 3 (le_refl d), if_pos ⟨rfl, rfl⟩]
  obtain ⟨stc, hec, hlenc, hpresc, houtc⟩ :=
    simC_not dgas (d + 1) (copyInputs [3, 2] 1 d st1) (!(x && y))
      (by rw [copyInputs_length]; exact hlen1) (by omega)
      (by rw [copyInputs_read [3, 2] 1 d st1 0 (by omega) (by omega)]; exact h3')
  obtain ⟨st2, he2, hlen2, hr2⟩ :=
    evalOut1 (dgas + 1) d 1 1 [3, 2] st1 stc (!(!(x && y))) (by decide) rfl rfl
      hlen1 (by omega) hec hlenc hpresc houtc
  refine ⟨st2, simulateC_resolves (dgas + 1) 2 d st st2 (by omega) rfl rfl ?_,
    hlen2, ?_, ?_⟩
  · show evalChain _ [⟨0, [0, 1, 3]⟩, ⟨1, [3, 2]⟩] st = some st2
    simp only [evalChain, he1, he2]
  · intro e i hei
    rw [hr2 e i (by omega), if_neg (by rintro ⟨h, -⟩; omega),
      hr1 e i (by omega), if_neg (by rintro ⟨h, -⟩; omega)]
  · rw [hr2 d 2 (le_refl d), if_pos ⟨rfl, rfl⟩]
    cases x <;> cases y <;> rfl

theorem simC_fullAdd (dgas d : Nat) (st : Stack) (x y cin : Bool)
    (hlen : st.length = STACK_DEPTH) (hd : d + 3 < STACK_DEPTH)
    (h0 : stackRead st d 0 = wb x) (h1 : stackRead st d 1 = wb y)
    (h2 : stackRead st d 2 = wb cin) :
    ∃ st', simulateC litTable (dgas + 3) 7 d st = SimRes.done st' true 1 ∧
      st'.length = STACK_DEPTH ∧
      (∀ e i, e < d → stackRead st' e i = stackRead st e i) ∧
      stackRead st' d 3 = wb (carryF x y cin) ∧
      stackRead st' d 4 = wb (sumF x y cin) := by
  have hS : STACK_DEPTH = 8 := rfl
  obtain ⟨stc1, hec1, hlenc1, hpresc1, houtc1⟩ :=
    simC_xor (dgas + 1) (d + 1) (copyInputs [0, 1, 5] 2 d st) x y
      (by rw [copyInputs_length]; exact hlen) (by omega)
      (by show stackRead (copyInputs [0, 1, 5] 2 d st) (d + 1) 0 = wb x
          rw [copyInputs_read [0, 1, 5] 2 d st 0 (by omega) (by omega)]
          exact h0)
      (by show stackRead (copyInputs [0, 1, 5] 2 d st) (d + 1) 1 = wb y
          rw [copyInputs_read [0, 1, 5] 2 d st 1 (by omega) (by omega)]
          exact h1)
  obtain ⟨st1, he1, hlen1, hr1⟩ :=
    evalOut1 (dgas + 2) d 5 2 [0, 1, 5] st stc1 (xor x y) (by decide) rfl rfl
      hlen (by omega) hec1 hlenc1 hpresc1 houtc1
  obtain ⟨stc2, hec2, hlenc2, hpresc2, houtc2⟩ :=
    simC_xor (dgas + 1) (d + 1) (copyInputs [5, 2, 4] 2 d st1) (xor x y) cin
      (by rw [copyInputs_length]; exact hlen1) (by omega)
      (by show stackRead (copyInputs [5, 2, 4] 2 d st1) (d + 1) 0 = wb (xor x y)
          rw [copyInputs_read [5, 2, 4] 2 d st1 0 (by omega) (by omega)]
          show stackRead st1 d 5 = wb (xor x y)
          rw [hr1 d 5 (le_refl d), if_pos ⟨rfl, rfl⟩])
      (by show stackRead (copyInputs [5, 2, 4] 2 d st1) (d + 1) 1 = wb cin
          rw [copyInputs_read [5, 2, 4] 2 d st1 1 (by omega) (by omega)]
          show stackRead st1 d 2 = wb cin
          rw [hr1 d 2 (le_refl d),
            if_neg (by rintro ⟨-, h⟩; exact absurd h (by decide))]
          exact h2)
  obtain ⟨st2, he2, hlen2, hr2⟩ :=
    evalOut1 (dgas + 2) d 5 2 [5, 2, 4] st1 stc2 (xor (xor x y) cin) (by decide)
      rfl rfl hlen1 (by omega) hec2 hlenc2 hpresc2 houtc2
  obtain ⟨stc3, hec3, hlenc3, hpresc3, houtc3⟩ :=
    simC_and dgas (d + 1) (copyInputs [5, 2, 6] 2 d st2) (xor x y) cin
      (by rw [copyInputs_length]; exact hlen2) (by omega)
      (by show stackRead (copyInputs [5, 2, 6] 2 d st2) (d + 1) 0 = wb (xor x y)
          rw [copyInputs_read [5, 2, 6] 2 d st2 0 (by omega) (by omega)]
          show stackRead st2 d 5 = wb (xor x y)
          rw [hr2 d 5 (le_refl d),
            if_neg (by rintro ⟨-, h⟩; exact absurd h (by decide))]
          show stackRead st1 d 5 = wb (xor x y)
          rw [hr1 d 5 (le_refl d), if_pos ⟨rfl, rfl⟩])
      (by show stackRead (copyInputs [5, 2, 6] 2 d st2) (d + 1) 1 = wb cin
          rw [copyInputs_read [5, 2, 6] 2 d st2 1 (by omega) (by omega)]
          show stackRead st2 d 2 = wb cin
          rw [hr2 d 2 (le_refl d),
            if_neg (by rintro ⟨-, h⟩; exact absurd h (by decide))]
          show stackRead st1 d 2 = wb cin
          rw [hr1 d 2 (le_refl d),
            if_neg (by rintro ⟨-, h⟩; exact absurd h (by decide))]
          exact h2)
  obtain ⟨st3, he3, hlen3, hr3⟩ :=
    evalOut1 (dgas + 2) d 2 2 [5, 2, 6] st2 stc3 (xor x y && cin) (by decide)
      rfl rfl hlen2 (by omega) hec3 hlenc3 hpresc3 houtc3
  obtain ⟨stc4, hec4, hlenc4, hpresc4, houtc4⟩ :=
    simC_and dgas (d + 1) (copyInputs [0, 1, 7] 2 d st3) x y
      (by rw [copyInputs_length]; exact hlen3) (by omega)
      (by show stackRead (copyInputs [0, 1, 7] 2 d st3) (d + 1) 0 = wb x
          rw [copyInputs_read [0, 1, 7] 2 d st3 0 (by omega) (by omega)]
          show stackRead st3 d 0 = wb x
          rw [hr3 d 0 (le_refl d),
            if_neg (by rintro ⟨-, h⟩; exact absurd h (by decide)),
            hr2 d 0 (le_refl d),
            if_neg (by rintro ⟨-, h⟩; exact absurd h (by decide)),
            hr1 d 0 (le_refl d),
            if_neg (by rintro ⟨-, h⟩; exact absurd h (by decide))]
          exact h0)
      (by show stackRead (copyInputs [0, 1, 7] 2 d st3) (d + 1) 1 = wb y
          rw [copyInputs_read [0, 1, 7] 2 d st3 1 (by omega) (by omega)]
          show stackRead st3 d 1 = wb y
          rw [hr3 d 1 (le_refl d),
            if_neg (by rintro ⟨-, h⟩; exact absurd h (by decide)),
            hr2 d 1 (le_refl d),
            if_neg (by rintro ⟨-, h⟩; exact absurd h (by decide)),
            hr1 d 1 (le_refl d),
            if_neg (by rintro ⟨-, h⟩; exact absurd h (by decide))]
          exact h1)
  obtain ⟨st4, he4, hlen4, hr4⟩ :=
    evalOut1 (dgas + 2) d 2 2 [0, 1, 7] st3 stc4 (x && y) (by decide)
      rfl rfl hlen3 (by omega) hec4 hlenc4 hpresc4 houtc4
  obtain ⟨stc5, hec5, hlenc5, hpresc5, houtc5⟩ :=
    simC_or (dgas + 1) (d + 1) (copyInputs [6, 7, 3] 2 d st4) (xor x y && cin) (x && y)
      (by rw [copyInputs_length]; exact hlen4) (by omega)
      (by show stackRead (copyInputs [6, 7, 3] 2 d st4) (d + 1) 0 = wb (xor x y && cin)
          rw [copyInputs_read [6, 7, 3] 2 d st4 0 (by omega) (by omega)]
          show stackRead st4 d 6 = wb (xor x y && cin)
          rw [hr4 d 6 (le_refl d),
            if_neg (by rintro ⟨-, h⟩; exact absurd h (by decide))]
          show stackRead st3 d 6 = wb (xor x y && cin)
          rw [hr3 d 6 (le_refl d), if_pos ⟨rfl, rfl⟩])
      (by show stackRead (copyInputs [6, 7, 3] 2 d st4) (d + 1) 1 = wb (x && y)
          rw [copyInputs_read [6, 7, 3] 2 d st4 1 (by omega) (by omega)]
          show stackRead st4 d 7 = wb (x && y)
          rw [hr4 d 7 (le_refl d), if_pos ⟨rfl, rfl⟩])
  obtain ⟨st5, he5, hlen5, hr5⟩ :=
    evalOut1 (dgas + 2) d 3 2 [6, 7, 3] st4 stc5 ((xor x y && cin) || (x && y))
      (by decide) rfl rfl hlen4 (by omega) hec5 hlenc5 hpresc5 houtc5
  refine ⟨st5, simulateC_resolves (dgas + 2) 7 d st st5 (by omega) rfl rfl ?_,
    hlen5, ?_, ?_, ?_⟩
  · show evalChain _
      [⟨5, [0, 1, 5]⟩, ⟨5, [5, 2, 4]⟩, ⟨2, [5, 2, 6]⟩, ⟨2, [0, 1, 7]⟩, ⟨3, [6, 7, 3]⟩]
      st = some st5
    simp only [evalChain, he1, he2, he3, he4, he5]
  · intro e i hei
    rw [hr5 e i (by omega), if_neg (by rintro ⟨h, -⟩; omega),
      hr4 e i (by omega), if_neg (by rintro ⟨h, -⟩; omega),
      hr3 e i (by omega), if_neg (by rintro ⟨h, -⟩; omega),
      hr2 e i (by omega), if_neg (by rintro ⟨h, -⟩; omega),
      hr1 e i (by omega), if_neg (by rintro ⟨h, -⟩; omega)]
  · rw [hr5 d 3 (le_refl d), if_pos ⟨rfl, rfl⟩]
    rfl
  · rw [hr5 d 4 (le_refl d),
      if_neg (by rintro ⟨-, h⟩; exact absurd h (by decide)),
      hr4 d 4 (le_refl d),
      if_neg (by rintro ⟨-, h⟩; exact absurd h (by decide)),
      hr3 d 4 (le_refl d),
      if_neg (by rintro ⟨-, h⟩; exact absurd h (by decide)),
      hr2 d 4 (le_refl d), if_pos ⟨rfl, rfl⟩]
    rfl

theorem simC_fourBit (dgas d : Nat) (st : Stack) (x3 x2 x1 x0 y3 y2 y1 y0 c0 : Bool)
    (hlen : st.length = STACK_DEPTH) (hd : d + 4 < STACK_DEPTH)
    (h0 : stackRead st d 0 = wb x3) (h1 : stackRead st d 1 = wb x2)
    (h2 : stackRead st d 2 = wb x1) (h3 : stackRead st d 3 = wb x0)
    (h4 : stackRead st d 4 = wb y3) (h5 : stackRead st d 5 = wb y2)
    (h6 : stackRead st d 6 = wb y1) (h7 : stackRead st d 7 = wb y0)
    (h8 : stackRead st d 8 = wb c0) :
    ∃ st', simulateC litTable (dgas + 4) 8 d st = SimRes.done st' true 1 ∧
      st'.length = STACK_DEPTH ∧
      (∀ e i, e < d → stackRead st' e i = stackRead st e i) ∧
      stackRead st' d 9 =
        wb (carryF x3 y3 (carryF x2 y2 (carryF x1 y1 (carryF x0 y0 c0)))) ∧
      stackRead st' d 10 =
        wb (sumF x3 y3 (carryF x2 y2 (carryF x1 y1 (carryF x0 y0 c0)))) ∧
      stackRead st' d 11 = wb (sumF x2 y2 (carryF x1 y1 (carryF x0 y0 c0))) ∧
      stackRead st' d 12 = wb (sumF x1 y1 (carryF x0 y0 c0)) ∧
      stackRead st' d 13 = wb (sumF x0 y0 c0) := by
  have hS : STACK_DEPTH = 8 := rfl
  obtain ⟨stc1, hec1, hlenc1, hpresc1, hcar1, hsum1⟩ :=
    simC_fullAdd dgas (d + 1) (copyInputs [3, 7, 8, 14, 13] 3 d st) x0 y0 c0
      (by rw [copyInputs_length]; exact hlen) (by omega)
      (by show stackRead (copyInputs [3, 7, 8, 14, 13] 3 d st) (d + 1) 0 = wb x0
          rw [copyInputs_read [3, 7, 8, 14, 13] 3 d st 0 (by omega) (by omega)]
          exact h3)
      (by show stackRead (copyInputs [3, 7, 8, 14, 13] 3 d st) (d + 1) 1 = wb y0
          rw [copyInputs_read [3, 7, 8, 14, 13] 3 d st 1 (by omega) (by omega)]
          exact h7)
      (by show stackRead (copyInputs [3, 7, 8, 14, 13] 3 d st) (d + 1) 2 = wb c0
          rw [copyInputs_read [3, 7, 8, 14, 13] 3 d st 2 (by omega) (by omega)]
          exact h8)
  obtain ⟨st1, he1, hlen1, hr1⟩ :=
    evalOut2 (dgas + 3) d [3, 7, 8, 14, 13] st stc1 (carryF x0 y0 c0) (sumF x0 y0 c0)
      hlen (by omega) hec1 hlenc1 hpresc1 hcar1 hsum1
  obtain ⟨stc2, hec2, hlenc2, hpresc2, hcar2, hsum2⟩ :=
    simC_fullAdd dgas (d + 1) (copyInputs [2, 6, 14, 15, 12] 3 d st1) x1 y1
      (carryF x0 y0 c0)
      (by rw [copyInputs_length]; exact hlen1) (by omega)
      (by show stackRead (copyInputs [2, 6, 14, 15, 12] 3 d st1) (d + 1) 0 = wb x1
          rw [copyInputs_read [2, 6, 14, 15, 12] 3 d st1 0 (by omega) (by omega)]
          show stackRead st1 d 2 = wb x1
          rw [hr1 d 2 (le_refl d),
            if_neg (by rintro ⟨-, h⟩; exact absurd h (by decide)),
            if_neg (by rintro ⟨-, h⟩; exact absurd h (by decide))]
          exact h2)
      (by show stackRead (copyInputs [2, 6, 14, 15, 12] 3 d st1) (d + 1) 1 = wb y1
          rw [copyInputs_read [2, 6, 14, 15, 12] 3 d st1 1 (by omega) (by omega)]
          show stackRead st1 d 6 = wb y1
          rw [hr1 d 6 (le_refl d),
            if_neg (by rintro ⟨-, h⟩; exact absurd h (by decide)),
            if_neg (by rintro ⟨-, h⟩; exact absurd h (by decide))]
          exact h6)
      (by show stackRead (copyInputs [2, 6, 14, 15, 12] 3 d st1) (d + 1) 2 =
            wb (carryF x0 y0 c0)
          rw [copyInputs_read [2, 6, 14, 15, 12] 3 d st1 2 (by omega) (by omega)]
          show stackRead st1 d 14 = wb (carryF x0 y0 c0)
          rw [hr1 d 14 (le_refl d),
            if_neg (by rintro ⟨-, h⟩; exact absurd h (by decide)),
            if_pos ⟨rfl, rfl⟩])
  obtain ⟨st2, he2, hlen2, hr2⟩ :=
    evalOut2 (dgas + 3) d [2, 6, 14, 15, 12] st1 stc2
      (carryF x1 y1 (carryF x0 y0 c0)) (sumF x1 y1 (carryF x0 y0 c0))
      hlen1 (by omega) hec2 hlenc2 hpresc2 hcar2 hsum2
  obtain ⟨stc3, hec3, hlenc3, hpresc3, hcar3, hsum3⟩ :=
    simC_fullAdd dgas (d + 1) (copyInputs [1, 5, 15, 16, 11] 3 d st2) x2 y2
      (carryF x1 y1 (carryF x0 y0 c0))
      (by rw [copyInputs_length]; exact hlen2) (by omega)
      (by show stackRead (copyInputs [1, 5, 15, 16, 11] 3 d st2) (d + 1) 0 = wb x2
          rw [copyInputs_read [1, 5, 15, 16, 11] 3 d st2 0 (by omega) (by omega)]
          show stackRead st2 d 1 = wb x2
          rw [hr2 d 1 (le_refl d),
            if_neg (by rintro ⟨-, h⟩; exact absurd h (by decide)),
            if_neg (by rintro ⟨-, h⟩; exact absurd h (by decide)),
            hr1 d 1 (le_refl d),
            if_neg (by rintro ⟨-, h⟩; exact absurd h (by decide)),
            if_neg (by rintro ⟨-, h⟩; exact absurd h (by decide))]
          exact h1)
      (by show stackRead (copyInputs [1, 5, 15, 16, 11] 3 d st2) (d + 1) 1 = wb y2
          rw [copyInputs_read [1, 5, 15, 16, 11] 3 d st2 1 (by omega) (by omega)]
          show stackRead st2 d 5 = wb y2
          rw [hr2 d 5 (le_refl d),
            if_neg (by rintro ⟨-, h⟩; exact absurd h (by decide)),
            if_neg (by rintro ⟨-, h⟩; exact absurd h (by decide)),
            hr1 d 5 (le_refl d),
            if_neg (by rintro ⟨-, h⟩; exact absurd h (by decide)),
            if_neg (by rintro ⟨-, h⟩; exact absurd h (by decide))]
          exact h5)
      (by show stackRead (copyInputs [1, 5, 15, 16, 11] 3 d st2) (d + 1) 2 =
            wb (carryF x1 y1 (carryF x0 y0 c0))
          rw [copyInputs_read [1, 5, 15, 16, 11] 3 d st2 2 (by omega) (by omega)]
          show stackRead st2 d 15 = wb (carryF x1 y1 (carryF x0 y0 c0))
          rw [hr2 d 15 (le_refl d),
            if_neg (by rintro ⟨-, h⟩; exact absurd h (by decide)),
            if_pos ⟨rfl, rfl⟩])
  obtain ⟨st3, he3, hlen3, hr3⟩ :=
    evalOut2 (dgas + 3) d [1, 5, 15, 16, 11] st2 stc3
      (carryF x2 y2 (carryF x1 y1 (carryF x0 y0 c0)))
      (sumF x2 y2 (carryF x1 y1 (carryF x0 y0 c0)))
      hlen2 (by omega) hec3 hlenc3 hpresc3 hcar3 hsum3
  obtain ⟨stc4, hec4, hlenc4, hpresc4, hcar4, hsum4⟩ :=
    simC_fullAdd dgas (d + 1) (copyInputs [0, 4, 16, 9, 10] 3 d st3) x3 y3
      (carryF x2 y2 (carryF x1 y1 (carryF x0 y0 c0)))
      (by rw [copyInputs_length]; exact hlen3) (by omega)
      (by show stackRead (copyInputs [0, 4, 16, 9, 10] 3 d st3) (d + 1) 0 = wb x3
          rw [copyInputs_read [0, 4, 16, 9, 10] 3 d st3 0 (by omega) (by omega)]
          show stackRead st3 d 0 = wb x3
          rw [hr3 d 0 (le_refl d),
            if_neg (by rintro ⟨-, h⟩; exact absurd h (by decide)),
            if_neg (by rintro ⟨-, h⟩; exact absurd h (by decide)),
            hr2 d 0 (le_refl d),
            if_neg (by rintro ⟨-, h⟩; exact absurd h (by decide)),
            if_neg (by rintro ⟨-, h⟩; exact absurd h (by decide)),
            hr1 d 0 (le_refl d),
            if_neg (by rintro ⟨-, h⟩; exact absurd h (by decide)),
            if_neg (by rintro ⟨-, h⟩; exact absurd h (by decide))]
          exact h0)
      (by show stackRead (copyInputs [0, 4, 16, 9, 10] 3 d st3) (d + 1) 1 = wb y3
          rw [copyInputs_read [0, 4, 16, 9, 10] 3 d st3 1 (by omega) (by omega)]
          show stackRead st3 d 4 = wb y3
          rw [hr3 d 4 (le_refl d),
            if_neg (by rintro ⟨-, h⟩; exact absurd h (by decide)),
            if_neg (by rintro ⟨-, h⟩; exact absurd h (by decide)),
            hr2 d 4 (le_refl d),
            if_neg (by rintro ⟨-, h⟩; exact absurd h (by decide)),
            if_neg (by rintro ⟨-, h⟩; exact absurd h (by decide)),
            hr1 d 4 (le_refl d),
            if_neg (by rintro ⟨-, h⟩; exact absurd h (by decide)),
            if_neg (by rintro ⟨-, h⟩; exact absurd h (by decide))]
          exact h4)
      (by show stackRead (copyInputs [0, 4, 16, 9, 10] 3 d st3) (d + 1) 2 =
            wb (carryF x2 y2 (carryF x1 y1 (carryF x0 y0 c0)))
          rw [copyInputs_read [0, 4, 16, 9, 10] 3 d st3 2 (by omega) (by omega)]
          show stackRead st3 d 16 = wb (carryF x2 y2 (carryF x1 y1 (carryF x0 y0 c0)))
          rw [hr3 d 16 (le_refl d),
            if_neg (by rintro ⟨-, h⟩; exact absurd h (by decide)),
            if_pos ⟨rfl, rfl⟩])
  obtain ⟨st4, he4, hlen4, hr4⟩ :=
    evalOut2 (dgas + 3) d [0, 4, 16, 9, 10] st3 stc4
      (carryF x3 y3 (carryF x2 y2 (carryF x1 y1 (carryF x0 y0 c0))))
      (sumF x3 y3 (carryF x2 y2 (carryF x1 y1 (carryF x0 y0 c0))))
      hlen3 (by omega) hec4 hlenc4 hpresc4 hcar4 hsum4
  refine ⟨st4, simulateC_resolves (dgas + 3) 8 d st st4 (by omega) rfl rfl ?_,
    hlen4, ?_, ?_, ?_, ?_, ?_, ?_⟩
  · show evalChain _
      [⟨7, [3, 7, 8, 14, 13]⟩, ⟨7, [2, 6, 14, 15, 12]⟩,
       ⟨7, [1, 5, 15, 16, 11]⟩, ⟨7, [0, 4, 16, 9, 10]⟩] st = some st4
    simp only [evalChain, he1, he2, he3, he4]
  · intro e i hei
    rw [hr4 e i (by omega), if_neg (by rintro ⟨h, -⟩; omega),
      if_neg (by rintro ⟨h, -⟩; omega),
      hr3 e i (by omega), if_neg (by rintro ⟨h, -⟩; omega),
      if_neg (by rintro ⟨h, -⟩; omega),
      hr2 e i (by omega), if_neg (by rintro ⟨h, -⟩; omega),
      if_neg (by rintro ⟨h, -⟩; omega),
      hr1 e i (by omega), if_neg (by rintro ⟨h, -⟩; omega),
      if_neg (by rintro ⟨h, -⟩; omega)]
  · rw [hr4 d 9 (le_refl d),
      if_neg (by rintro ⟨-, h⟩; exact absurd h (by decide)), if_pos ⟨rfl, rfl⟩]
  · rw [hr4 d 10 (le_refl d), if_pos ⟨rfl, rfl⟩]
  · rw [hr4 d 11 (le_refl d),
      if_neg (by rintro ⟨-, h⟩; exact absurd h (by decide)),
      if_neg (by rintro ⟨-, h⟩; exact absurd h (by decide)),
      hr3 d 11 (le_refl d), if_pos ⟨rfl, rfl⟩]
  · rw [hr4 d 12 (le_refl d),
      if_neg (by rintro ⟨-, h⟩; exact absurd h (by decide)),
      if_neg (by rintro ⟨-, h⟩; exact absurd h (by decide)),
      hr3 d 12 (le_refl d),
      if_neg (by rintro ⟨-, h⟩; exact absurd h (by decide)),
      if_neg (by rintro ⟨-, h⟩; exact absurd h (by decide)),
      hr2 d 12 (le_refl d), if_pos ⟨rfl, rfl⟩]
  · rw [hr4 d 13 (le_refl d),
      if_neg (by rintro ⟨-, h⟩; exact absurd h (by decide)),
      if_neg (by rintro ⟨-, h⟩; exact absurd h (by decide)),
      hr3 d 13 (le_refl d),
      if_neg (by rintro ⟨-, h⟩; exact absurd h (by decide)),
      if_neg (by rintro ⟨-, h⟩; exact absurd h (by decide)),
      hr2 d 13 (le_refl d),
      if_neg (by rintro ⟨-, h⟩; exact absurd h (by decide)),
      if_neg (by rintro ⟨-, h⟩; exact absurd h (by decide)),
      hr1 d 13 (le_refl d), if_pos ⟨rfl, rfl⟩]

theorem initWrites_length (vals : List WireState) (n : Nat) (st : Stack) :
    ((List.range n).foldl
      (fun s i => stackWrite s 0 i (vals.getD i UNDEFINED)) st).length = st.length := by
  induction n with
  | zero => rfl
  | succ n ih =>
    rw [List.range_succ, List.foldl_append, List.foldl_cons, List.foldl_nil,
      length_stackWrite, ih]

theorem initWrites_read (vals : List WireState) (n : Nat) (st : Stack) (j : Nat)
    (hj : j < n) (hlen : 0 < st.length) :
    stackRead ((List.range n).foldl
      (fun s i => stackWrite s 0 i (vals.getD i UNDEFINED)) st) 0 j =
      vals.getD j UNDEFINED := by
  induction n with
  | zero => omega
  | succ n ih =>
    rw [List.range_succ, List.foldl_append, List.foldl_cons, List.foldl_nil,
      stackRead_stackWrite]
    by_cases hjn : j = n
    · rw [if_pos ⟨rfl, hjn.symm, by rw [initWrites_length]; exact hlen⟩, hjn]
    · rw [if_neg (by rintro ⟨-, h, -⟩; exact hjn h.symm)]
      exact ih (by omega)

theorem intToWire_bit (x k : Nat) :
    intToWire (((x >>> k) &&& 1 : Nat) : Int) = wb (wbit x k) := by
  have hm : (x >>> k) &&& 1 = (x >>> k) % 2 := Nat.and_one_is_mod _
  have h : (x >>> k) &&& 1 = 0 ∨ (x >>> k) &&& 1 = 1 := by omega
  unfold wbit
  rcases h with h | h <;> rw [h] <;> rfl

theorem adder_arith : ∀ a, a < 16 → ∀ b, b < 16 → ∀ c, c < 2 →
    (wireToInt (wb (carryF (wbit a 3) (wbit b 3) (carryF (wbit a 2) (wbit b 2)
        (carryF (wbit a 1) (wbit b 1) (carryF (wbit a 0) (wbit b 0) (wbit c 0)))))) * 16 +
      wireToInt (wb (sumF (wbit a 3) (wbit b 3) (carryF (wbit a 2) (wbit b 2)
        (carryF (wbit a 1) (wbit b 1) (carryF (wbit a 0) (wbit b 0) (wbit c 0)))))) * 8 +
      wireToInt (wb (sumF (wbit a 2) (wbit b 2) (carryF (wbit a 1) (wbit b 1)
        (carryF (wbit a 0) (wbit b 0) (wbit c 0))))) * 4 +
      wireToInt (wb (sumF (wbit a 1) (wbit b 1)
        (carryF (wbit a 0) (wbit b 0) (wbit c 0)))) * 2 +
      wireToInt (wb (sumF (wbit a 0) (wbit b 0) (wbit c 0)))
        == (a : Int) + b + c) = true := by decide!

/-- C1: the decoded four-bit adder adds.  For every `a, b < 16` and carry-in
`c < 2`, decoding `main`'s byte streams succeeds, simulating circuit 8 at depth
0 on the prepared frame (bits of `a` in slots 0-3 MSB first, bits of `b` in
slots 4-7, carry-in in slot 8) succeeds, and the output wires
`carry_out = slot 9`, `s3..s0 = slots 10-13` satisfy
`carry_out*16 + s3*8 + s2*4 + s1*2 + s0 = a + b + c`. -/
theorem C1_four_bit_adder (a b c : Nat) (ha : a < 16) (hb : b < 16) (hc : c < 2) :
    adderCheck a b c = true := by
  have hlen0 : (0 : Nat) < initStack.length := by
    rw [show initStack.length = 8 from rfl]; omega
  have hlenA : (adderStack a b c).length = STACK_DEPTH := by
    have h := initWrites_length (adderVals a b c) 9 initStack
    exact h
  have hrd : ∀ j, j < 9 → stackRead (adderStack a b c) 0 j =
      (adderVals a b c).getD j UNDEFINED :=
    fun j hj => initWrites_read (adderVals a b c) 9 initStack j hj hlen0
  have h0 : stackRead (adderStack a b c) 0 0 = wb (wbit a 3) := by
    rw [hrd 0 (by omega), show (adderVals a b c).getD 0 UNDEFINED =
      intToWire (((a >>> 3) &&& 1 : Nat) : Int) from rfl, intToWire_bit]
  have h1 : stackRead (adderStack a b c) 0 1 = wb (wbit a 2) := by
    rw [hrd 1 (by omega), show (adderVals a b c).getD 1 UNDEFINED =
      intToWire (((a >>> 2) &&& 1 : Nat) : Int) from rfl, intToWire_bit]
  have h2 : stackRead (adderStack a b c) 0 2 = wb (wbit a 1) := by
    rw [hrd 2 (by omega), show (adderVals a b c).getD 2 UNDEFINED =
      intToWire (((a >>> 1) &&& 1 : Nat) : Int) from rfl, intToWire_bit]
  have h3 : stackRead (adderStack a b c) 0 3 = wb (wbit a 0) := by
    rw [hrd 3 (by omega), show (adderVals a b c).getD 3 UNDEFINED =
      intToWire (((a >>> 0) &&& 1 : Nat) : Int) from rfl, intToWire_bit]
  have h4 : stackRead (adderStack a b c) 0 4 = wb (wbit b 3) := by
    rw [hrd 4 (by omega), show (adderVals a b c).getD 4 UNDEFINED =
      intToWire (((b >>> 3) &&& 1 : Nat) : Int) from rfl, intToWire_bit]
  have h5 : stackRead (adderStack a b c) 0 5 = wb (wbit b 2) := by
    rw [hrd 5 (by omega), show (adderVals a b c).getD 5 UNDEFINED =
      intToWire (((b >>> 2) &&& 1 : Nat) : Int) from rfl, intToWire_bit]
  have h6 : stackRead (adderStack a b c) 0 6 = wb (wbit b 1) := by
    rw [hrd 6 (by omega), show (adderVals a b c).getD 6 UNDEFINED =
      intToWire (((b >>> 1) &&& 1 : Nat) : Int) from rfl, intToWire_bit]
  have h7 : stackRead (adderStack a b c) 0 7 = wb (wbit b 0) := by
    rw [hrd 7 (by omega), show (adderVals a b c).getD 7 UNDEFINED =
      intToWire (((b >>> 0) &&& 1 : Nat) : Int) from rfl, intToWire_bit]
  have h8 : stackRead (adderStack a b c) 0 8 = wb (wbit c 0) := by
    rw [hrd 8 (by omega), show (adderVals a b c).getD 8 UNDEFINED =
      intToWire (((c >>> 0) &&& 1 : Nat) : Int) from rfl, intToWire_bit]
  obtain ⟨st', hsim, hlen', hpres, ho9, ho10, ho11, ho12, ho13⟩ :=
    simC_fourBit 4 0 (adderStack a b c) (wbit a 3) (wbit a 2) (wbit a 1) (wbit a 0)
      (wbit b 3) (wbit b 2) (wbit b 1) (wbit b 0) (wbit c 0) hlenA (by decide)
      h0 h1 h2 h3 h4 h5 h6 h7 h8
  have hsim' : simulateC litTable STACK_DEPTH 8 0 (adderStack a b c) =
      SimRes.done st' true 1 := hsim
  unfold adderCheck
  rw [decodedTable_eq]
  dsimp only
  rw [hsim']
  dsimp only
  rw [ho9, ho10, ho11, ho12, ho13]
  exact adder_arith a ha b hb c hc

/-- Closed witness for `C1_four_bit_adder`: the test case `11 + 6 + 1`. -/
theorem C1_four_bit_adder_witness : adderCheck 11 6 1 = true :=
  C1_four_bit_adder 11 6 1 (by decide) (by decide) (by decide)

/-! ## C7: the all-UNDEFINED stall -/

theorem simulate_nand_undef (lvl : Nat) (st : Stack)
    (hx : stackRead st lvl 0 = UNDEFINED) :
    simulate_nand lvl st = (stackWrite st lvl 2 UNDEFINED, false) := by
  unfold simulate_nand
  dsimp only
  rw [hx, if_neg (by rintro ⟨h, -⟩; exact h rfl)]
  rfl

theorem evalNandU (ev : Nat → Nat → Stack → SimRes) (d : Nat) (w : List Nat)
    (st : Stack)
    (hlen : st.length = STACK_DEPTH) (hd : d + 1 < STACK_DEPTH)
    (hx : stackRead st d (w.getD 0 0) = UNDEFINED) :
    ∃ st', evalModule litTable ev d ⟨0, w⟩ st = MRes.mok st' false ∧
      st'.length = STACK_DEPTH ∧
      ∀ e i, e ≤ d → stackRead st' e i =
        if e = d ∧ i = w.getD 2 0 then UNDEFINED else stackRead st e i := by
  have hd1 : d + 1 < st.length := by omega
  have hx1 : stackRead (copyInputs w 2 d st) (d + 1) 0 = UNDEFINED := by
    rw [copyInputs_read w 2 d st 0 (by omega) hd1]; exact hx
  have hsn := simulate_nand_undef (d + 1) (copyInputs w 2 d st) hx1
  refine ⟨copyOutputs w 2 1 d
      (stackWrite (copyInputs w 2 d st) (d + 1) 2 UNDEFINED), ?_, ?_, ?_⟩
  · unfold evalModule
    dsimp only
    rw [if_pos rfl, show (tget litTable 0).n_inputs.toNat = 2 from rfl,
      show (tget litTable 0).n_outputs.toNat = 1 from rfl, hsn]
  · rw [copyOutputs_length, length_stackWrite, copyInputs_length, hlen]
  · intro e i hei
    have hco : copyOutputs w 2 1 d
        (stackWrite (copyInputs w 2 d st) (d + 1) 2 UNDEFINED) =
        stackWrite (stackWrite (copyInputs w 2 d st) (d + 1) 2 UNDEFINED)
          d (w.getD 2 0)
          (stackRead (stackWrite (copyInputs w 2 d st) (d + 1) 2 UNDEFINED)
            (d + 1) 2) := rfl
    have hR : stackRead (stackWrite (copyInputs w 2 d st) (d + 1) 2 UNDEFINED)
        (d + 1) 2 = UNDEFINED := by
      rw [stackRead_stackWrite, if_pos ⟨rfl, rfl, by rw [copyInputs_length]; omega⟩]
    rw [hco, hR, stackRead_stackWrite]
    by_cases hc : e = d ∧ i = w.getD 2 0
    · rw [if_pos ⟨hc.1.symm, hc.2.symm, by
        rw [length_stackWrite, copyInputs_length]; omega⟩, if_pos hc]
    · rw [if_neg (by rintro ⟨h1, h2, -⟩; exact hc ⟨h1.symm, h2.symm⟩),
        stackRead_stackWrite, if_neg (by rintro ⟨h1, -, -⟩; omega), if_neg hc]
      exact copyInputs_preserve w 2 d st e i (Or.inl (by omega))

theorem evalCompG (dgas d : Nat) (c : Nat) (w : List Nat) (st st2 : Stack)
    (b : Bool) (p : Nat) (hc : c ≠ 0)
    (hsub : simulateC litTable dgas c (d + 1)
        (copyInputs w (tget litTable c).n_inputs.toNat d st) = SimRes.done st2 b p) :
    evalModule litTable (simulateC litTable dgas) d ⟨c, w⟩ st =
      MRes.mok (copyOutputs w (tget litTable c).n_inputs.toNat
        (tget litTable c).n_outputs.toNat d st2) b := by
  unfold evalModule
  dsimp only
  rw [if_neg hc, hsub]

theorem evalOut1U (dgas d c nIn : Nat) (w : List Nat) (st stc : Stack)
    (hc : c ≠ 0)
    (hIn : (tget litTable c).n_inputs.toNat = nIn)
    (hOut : (tget litTable c).n_outputs.toNat = 1)
    (hlen : st.length = STACK_DEPTH) (hd : d + 1 < STACK_DEPTH)
    (hsub : simulateC litTable dgas c (d + 1) (copyInputs w nIn d st) =
      SimRes.done stc false 1)
    (hlenc : stc.length = STACK_DEPTH)
    (hpresc : ∀ e i, e < d + 1 →
      stackRead stc e i = stackRead (copyInputs w nIn d st) e i)
    (houtc : stackRead stc (d + 1) nIn = UNDEFINED) :
    ∃ st', evalModule litTable (simulateC litTable dgas) d ⟨c, w⟩ st =
        MRes.mok st' false ∧
      st'.length = STACK_DEPTH ∧
      ∀ e i, e ≤ d → stackRead st' e i =
        if e = d ∧ i = w.getD nIn 0 then UNDEFINED else stackRead st e i := by
  have he := evalCompG dgas d c w st stc false 1 hc (by rw [hIn]; exact hsub)
  rw [hIn, hOut] at he
  refine ⟨copyOutputs w nIn 1 d stc, he, ?_, ?_⟩
  · rw [copyOutputs_length]; exact hlenc
  · intro e i hei
    have hco : copyOutputs w nIn 1 d stc =
        stackWrite stc d (w.getD nIn 0) (stackRead stc (d + 1) nIn) := rfl
    rw [hco, houtc, stackRead_stackWrite]
    by_cases hc2 : e = d ∧ i = w.getD nIn 0
    · rw [if_pos ⟨hc2.1.symm, hc2.2.symm, by rw [hlenc]; omega⟩, if_pos hc2]
    · rw [if_neg (by rintro ⟨h1, h2, -⟩; exact hc2 ⟨h1.symm, h2.symm⟩),
        hpresc e i (by omega),
        copyInputs_preserve w nIn d st e i (Or.inl (by omega)), if_neg hc2]

theorem evalOut2U (dgas d : Nat) (w : List Nat) (st stc : Stack)
    (hlen : st.length = STACK_DEPTH) (hd : d + 1 < STACK_DEPTH)
    (hsub : simulateC litTable dgas 7 (d + 1) (copyInputs w 3 d st) =
      SimRes.done stc false 1)
    (hlenc : stc.length = STACK_DEPTH)
    (hpresc : ∀ e i, e < d + 1 →
      stackRead stc e i = stackRead (copyInputs w 3 d st) e i)
    (hout1 : stackRead stc (d + 1) 3 = UNDEFINED)
    (hout2 : stackRead stc (d + 1) 4 = UNDEFINED) :
    ∃ st', evalModule litTable (simulateC litTable dgas) d ⟨7, w⟩ st =
        MRes.mok st' false ∧
      st'.length = STACK_DEPTH ∧
      ∀ e i, e ≤ d → stackRead st' e i =
        if e = d ∧ i = w.getD 4 0 then UNDEFINED
        else if e = d ∧ i = w.getD 3 0 then UNDEFINED
        else stackRead st e i := by
  have he := evalCompG dgas d 7 w st stc false 1 (by decide) hsub
  have hIn : (tget litTable 7).n_inputs.toNat = 3 := rfl
  have hOut : (tget litTable 7).n_outputs.toNat = 2 := rfl
  rw [hIn, hOut] at he
  refine ⟨copyOutputs w 3 2 d stc, he, ?_, ?_⟩
  · rw [copyOutputs_length]; exact hlenc
  · intro e i hei
    have hco : copyOutputs w 3 2 d stc =
        stackWrite (stackWrite stc d (w.getD 3 0) (stackRead stc (d + 1) 3))
          d (w.getD 4 0)
          (stackRead (stackWrite stc d (w.getD 3 0) (stackRead stc (d + 1) 3))
            (d + 1) 4) := rfl
    have hR : stackRead (stackWrite stc d (w.getD 3 0) (stackRead stc (d + 1) 3))
        (d + 1) 4 = UNDEFINED := by
      rw [stackRead_stackWrite, if_neg (by rintro ⟨h1, -, -⟩; omega)]
      exact hout2
    rw [hco, hR, hout1, stackRead_stackWrite]
    by_cases hc2 : e = d ∧ i = w.getD 4 0
    · rw [if_pos ⟨hc2.1.symm, hc2.2.symm, by
        rw [length_stackWrite, hlenc]; omega⟩, if_pos hc2]
    · rw [if_neg (by rintro ⟨h1, h2, -⟩; exact hc2 ⟨h1.symm, h2.symm⟩),
        stackRead_stackWrite, if_neg hc2]
      by_cases hc3 : e = d ∧ i = w.getD 3 0
      · rw [if_pos ⟨hc3.1.symm, hc3.2.symm, by rw [hlenc]; omega⟩, if_pos hc3]
      · rw [if_neg (by rintro ⟨h1, h2, -⟩; exact hc3 ⟨h1.symm, h2.symm⟩),
          hpresc e i (by omega),
          copyInputs_preserve w 3 d st e i (Or.inl (by omega)), if_neg hc3]

theorem length_ringList (r : Ring) : (ringList r).length = r.size := by
  unfold ringList
  rw [List.length_map, List.length_range]

theorem runPass_chainF (evalM : Module → Stack → MRes) :
    ∀ (k : Nat) (ring : Ring) (st st' : Stack), RingInv ring → k ≤ ring.size →
      evalChainF evalM ((ringList ring).take k) st = some st' →
      ∃ ring', runPass evalM k ring st = PassRes.pok ring' st' ∧
        ring'.size = ring.size := by
  intro k
  induction k with
  | zero =>
    intro ring st st' hInv hk hchain
    simp only [List.take_zero, evalChainF, Option.some.injEq] at hchain
    subst hchain
    exact ⟨ring, by rw [runPass], rfl⟩
  | succ k ih =>
    intro ring st st' hInv hk hchain
    obtain ⟨m, ring1, hpop, hInv1, hlist, hsz1, hcap1, _⟩ :=
      pop_module_spec ring hInv (by omega)
    rw [hlist, List.take_succ_cons] at hchain
    simp only [evalChainF] at hchain
    match hev : evalM m st with
    | MRes.mok st1 success =>
      rw [hev] at hchain
      cases success
      · dsimp only at hchain
        have hroom : ring1.size < ring1.capacity := by
          have hv0 := hInv.1
          rw [validRingB_iff] at hv0
          omega
        obtain ⟨ring2, hpush, hInv2, hlist2, hsz2, hcap2⟩ :=
          push_module_spec ring1 m hInv1 hroom
        have hchain2 : evalChainF evalM ((ringList ring2).take k) st1 = some st' := by
          rw [hlist2, List.take_append_of_le_length (by rw [length_ringList]; omega)]
          exact hchain
        obtain ⟨ring', hrp, hs⟩ := ih ring2 st1 st' hInv2 (by omega) hchain2
        refine ⟨ring', ?_, by omega⟩
        rw [runPass, hpop]
        dsimp only
        rw [hev]
        dsimp only
        rw [if_neg (by simp), hpush]
        exact hrp
      · exact absurd hchain (by simp)
    | MRes.mabort =>
      rw [hev] at hchain
      exact absurd hchain (by simp)
    | MRes.mfuelOut =>
      rw [hev] at hchain
      exact absurd hchain (by simp)

theorem simulateC_stalls (dgas cid d : Nat) (st st' : Stack)
    (hd : d < STACK_DEPTH - 1)
    (hval : validCircuitB (tget litTable cid) = true)
    (hmlen : (tget litTable cid).modules.length = (tget litTable cid).n_modules.toNat)
    (hchain : evalChainF (evalModule litTable (simulateC litTable dgas) d)
        (tget litTable cid).modules st = some st') :
    simulateC litTable (dgas + 1) cid d st = SimRes.done st' false 1 := by
  obtain ⟨ring, hinit, hInv, hrl, hsz, hcap⟩ := init_ring_spec _ hval hmlen
  have hpos : 1 ≤ ring.size := (init_ring_ok _ _ hinit).2.2.2.2
  rw [simulateC, if_pos hd, hinit]
  dsimp only
  obtain ⟨ring', hrp, hsz'⟩ := runPass_chainF _ ring.size ring st st' hInv (le_refl _)
    (by rw [show (ringList ring).take ring.size = ringList ring from by
          rw [← length_ringList ring]; exact List.take_length _, hrl]
        exact hchain)
  obtain ⟨s0, hs0⟩ : ∃ s0, ring.size = s0 + 1 := ⟨ring.size - 1, by omega⟩
  rw [hs0] at hrp hsz' ⊢
  rw [passLoop, hrp]
  dsimp only
  rw [hsz', if_pos rfl]

theorem simC_nandU (dgas d : Nat) (st : Stack)
    (hlen : st.length = STACK_DEPTH) (hd : d + 1 < STACK_DEPTH)
    (h0 : stackRead st d 0 = UNDEFINED) :
    ∃ st', simulateC litTable (dgas + 1) 0 d st = SimRes.done st' false 1 := by
  obtain ⟨st1, he1, hlen1, hr1⟩ :=
    evalNandU (simulateC litTable dgas) d (List.replicate WIRE_SIZE 0) st hlen hd h0
  refine ⟨st1, simulateC_stalls dgas 0 d st st1 (by omega) rfl rfl ?_⟩
  show evalChainF _ [⟨0, List.replicate WIRE_SIZE 0⟩] st = some st1
  simp only [evalChainF, he1]

theorem simC_notU (dgas d : Nat) (st : Stack)
    (hlen : st.length = STACK_DEPTH) (hd : d + 1 < STACK_DEPTH)
    (h0 : stackRead st d 0 = UNDEFINED) :
    ∃ st', simulateC litTable (dgas + 1) 1 d st = SimRes.done st' false 1 ∧
      st'.length = STACK_DEPTH ∧
      (∀ e i, e < d → stackRead st' e i = stackRead st e i) ∧
      stackRead st' d 1 = UNDEFINED := by
  obtain ⟨st1, he1, hlen1, hr1⟩ :=
    evalNandU (simulateC litTable dgas) d [0, 0, 1] st hlen hd h0
  refine ⟨st1, simulateC_stalls dgas 1 d st st1 (by omega) rfl rfl ?_, hlen1, ?_, ?_⟩
  · show evalChainF _ [⟨0, [0, 0, 1]⟩] st = some st1
    simp only [evalChainF, he1]
  · intro e i hei
    rw [hr1 e i (by omega), if_neg (by rintro ⟨h, -⟩; omega)]
  · rw [hr1 d 1 (le_refl d), if_pos ⟨rfl, rfl⟩]

theorem simC_orU (dgas d : Nat) (st : Stack)
    (hlen : st.length = STACK_DEPTH) (hd : d + 1 < STACK_DEPTH)
    (h0 : stackRead st d 0 = UNDEFINED) (h1 : stackRead st d 1 = UNDEFINED) :
    ∃ st', simulateC litTable (dgas + 1) 3 d st = SimRes.done st' false 1 ∧
      st'.length = STACK_DEPTH ∧
      (∀ e i, e < d → stackRead st' e i = stackRead st e i) ∧
      stackRead st' d 2 = UNDEFINED := by
  obtain ⟨st1, he1, hlen1, hr1⟩ :=
    evalNandU (simulateC litTable dgas) d [0, 0, 3] st hlen hd h0
  obtain ⟨st2, he2, hlen2, hr2⟩ :=
    evalNandU (simulateC litTable dgas) d [1, 1, 4] st1 hlen1 hd
      (by show stackRead st1 d 1 = UNDEFINED
          rw [hr1 d 1 (le_refl d), if_neg (by rintro ⟨-, h⟩; exact absurd h (by decide))]
          exact h1)
  obtain ⟨st3, he3, hlen3, hr3⟩ :=
    evalNandU (simulateC litTable dgas) d [3, 4, 2] st2 hlen2 hd
      (by show stackRead st2 d 3 = UNDEFINED
          rw [hr2 d 3 (le_refl d), if_neg (by rintro ⟨-, h⟩; exact absurd h (by decide)),
            hr1 d 3 (le_refl d), if_pos ⟨rfl, rfl⟩])
  refine ⟨st3, simulateC_stalls dgas 3 d st st3 (by omega) rfl rfl ?_, hlen3, ?_, ?_⟩
  · show evalChainF _ [⟨0, [0, 0, 3]⟩, ⟨0, [1, 1, 4]⟩, ⟨0, [3, 4, 2]⟩] st = some st3
    simp only [evalChainF, he1, he2, he3]
  · intro e i hei
    rw [hr3 e i (by omega), if_neg (by rintro ⟨h, -⟩; omega),
      hr2 e i (by omega), if_neg (by rintro ⟨h, -⟩; omega),
      hr1 e i (by omega), if_neg (by rintro ⟨h, -⟩; omega)]
  · rw [hr3 d 2 (le_refl d), if_pos ⟨rfl, rfl⟩]

theorem simC_xorU (dgas d : Nat) (st : Stack)
    (hlen : st.length = STACK_DEPTH) (hd : d + 1 < STACK_DEPTH)
    (h0 : stackRead st d 0 = UNDEFINED) (h1 : stackRead st d 1 = UNDEFINED) :
    ∃ st', simulateC litTable (dgas + 1) 5 d st = SimRes.done st' false 1 ∧
      st'.length = STACK_DEPTH ∧
      (∀ e i, e < d → stackRead st' e i = stackRead st e i) ∧
      stackRead st' d 2 = UNDEFINED := by
  obtain ⟨st1, he1, hlen1, hr1⟩ :=
    evalNandU (simulateC litTable dgas) d [0, 1, 3] st hlen hd h0
  obtain ⟨st2, he2, hlen2, hr2⟩ :=
    evalNandU (simulateC litTable dgas) d [0, 3, 4] st1 hlen1 hd
      (by show stackRead st1 d 0 = UNDEFINED
          rw [hr1 d 0 (le_refl d), if_neg (by rintro ⟨-, h⟩; exact absurd h (by decide))]
          exact h0)
  obtain ⟨st3, he3, hlen3, hr3⟩ :=
    evalNandU (simulateC litTable dgas) d [1, 3, 5] st2 hlen2 hd
      (by show stackRead st2 d 1 = UNDEFINED
          rw [hr2 d 1 (le_refl d), if_neg (by rintro ⟨-, h⟩; exact absurd h (by decide)),
            hr1 d 1 (le_refl d), if_neg (by rintro ⟨-, h⟩; exact absurd h (by decide))]
          exact h1)
  obtain ⟨st4, he4, hlen4, hr4⟩ :=
    evalNandU (simulateC litTable dgas) d [4, 5, 2] st3 hlen3 hd
      (by show stackRead st3 d 4 = UNDEFINED
          rw [hr3 d 4 (le_refl d), if_neg (by rintro ⟨-, h⟩; exact absurd h (by decide)),
            hr2 d 4 (le_refl d), if_pos ⟨rfl, rfl⟩])
  refine ⟨st4, simulateC_stalls dgas 5 d st st4 (by omega) rfl rfl ?_, hlen4, ?_, ?_⟩
  · show evalChainF _
      [⟨0, [0, 1, 3]⟩, ⟨0, [0, 3, 4]⟩, ⟨0, [1, 3, 5]⟩, ⟨0, [4, 5, 2]⟩] st = some st4
    simp only [evalChainF, he1, he2, he3, he4]
  · intro e i hei
    rw [hr4 e i (by omega), if_neg (by rintro ⟨h, -⟩; omega),
      hr3 e i (by omega), if_neg (by rintro ⟨h, -⟩; omega),
      hr2 e i (by omega), if_neg (by rintro ⟨h, -⟩; omega),
      hr1 e i (by omega), if_neg (by rintro ⟨h, -⟩; omega)]
  · rw [hr4 d 2 (le_refl d), if_pos ⟨rfl, rfl⟩]

theorem simC_andU (dgas d : Nat) (st : Stack)
    (hlen : st.length = STACK_DEPTH) (hd : d + 2 < STACK_DEPTH)
    (h0 : stackRead st d 0 = UNDEFINED) :
    ∃ st', simulateC litTable (dgas + 2) 2 d st = SimRes.done st' false 1 ∧
      st'.length = STACK_DEPTH ∧
      (∀ e i, e < d → stackRead st' e i = stackRead st e i) ∧
      stackRead st' d 2 = UNDEFINED := by
  have hS : STACK_DEPTH = 8 := rfl
  obtain ⟨st1, he1, hlen1, hr1⟩ :=
    evalNandU (simulateC litTable (dgas + 1)) d [0, 1, 3] st hlen (by omega) h0
  have h3' : stackRead st1 d 3 = UNDEFINED := by
    rw [hr1 d 3 (le_refl d), if_pos ⟨rfl, rfl⟩]
  obtain ⟨stc, hec, hlenc, hpresc, houtc⟩ :=
    simC_notU dgas (d + 1) (copyInputs [3, 2] 1 d st1)
      (by rw [copyInputs_length]; exact hlen1) (by omega)
      (by rw [copyInputs_read [3, 2] 1 d st1 0 (by omega) (by omega)]; exact h3')
  obtain ⟨st2, he2, hlen2, hr2⟩ :=
    evalOut1U (dgas + 1) d 1 1 [3, 2] st1 stc (by decide) rfl rfl
      hlen1 (by omega) hec hlenc hpresc houtc
  refine ⟨st2, simulateC_stalls (dgas + 1) 2 d st st2 (by omega) rfl rfl ?_,
    hlen2, ?_, ?_⟩
  · show evalChainF _ [⟨0, [0, 1, 3]⟩, ⟨1, [3, 2]⟩] st = some st2
    simp only [evalChainF, he1, he2]
  · intro e i hei
    rw [hr2 e i (by omega), if_neg (by rintro ⟨h, -⟩; omega),
      hr1 e i (by omega), if_neg (by rintro ⟨h, -⟩; omega)]
  · rw [hr2 d 2 (le_refl d), if_pos ⟨rfl, rfl⟩]

theorem simC_norU (dgas d : Nat) (st : Stack)
    (hlen : st.length = STACK_DEPTH) (hd : d + 2 < STACK_DEPTH)
    (h0 : stackRead st d 0 = UNDEFINED) (h1 : stackRead st d 1 = UNDEFINED) :
    ∃ st', simulateC litTable (dgas + 2) 4 d st = SimRes.done st' false 1 ∧
      st'.length = STACK_DEPTH ∧
      (∀ e i, e < d → stackRead st' e i = stackRead st e i) ∧
      stackRead st' d 2 = UNDEFINED := by
  have hS : STACK_DEPTH = 8 := rfl
  obtain ⟨stc1, hec1, hlenc1, hpresc1, houtc1⟩ :=
    simC_orU dgas (d + 1) (copyInputs [0, 1, 3] 2 d st)
      (by rw [copyInputs_length]; exact hlen) (by omega)
      (by show stackRead (copyInputs [0, 1, 3] 2 d st) (d + 1) 0 = UNDEFINED
          rw [copyInputs_read [0, 1, 3] 2 d st 0 (by omega) (by omega)]
          exact h0)
      (by show stackRead (copyInputs [0, 1, 3] 2 d st) (d + 1) 1 = UNDEFINED
          rw [copyInputs_read [0, 1, 3] 2 d st 1 (by omega) (by omega)]
          exact h1)
  obtain ⟨st1, he1, hlen1, hr1⟩ :=
    evalOut1U (dgas + 1) d 3 2 [0, 1, 3] st stc1 (by decide) rfl rfl
      hlen (by omega) hec1 hlenc1 hpresc1 houtc1
  have h3' : stackRead st1 d 3 = UNDEFINED := by
    rw [hr1 d 3 (le_refl d), if_pos ⟨rfl, rfl⟩]
  obtain ⟨stc2, hec2, hlenc2, hpresc2, houtc2⟩ :=
    simC_notU dgas (d + 1) (copyInputs [3, 2] 1 d st1)
      (by rw [copyInputs_length]; exact hlen1) (by omega)
      (by rw [copyInputs_read [3, 2] 1 d st1 0 (by omega) (by omega)]; exact h3')
  obtain ⟨st2, he2, hlen2, hr2⟩ :=
    evalOut1U (dgas + 1) d 1 1 [3, 2] st1 stc2 (by decide) rfl rfl
      hlen1 (by omega) hec2 hlenc2 hpresc2 houtc2
  refine ⟨st2, simulateC_stalls (dgas + 1) 4 d st st2 (by omega) rfl rfl ?_,
    hlen2, ?_, ?_⟩
  · show evalChainF _ [⟨3, [0, 1, 3]⟩, ⟨1, [3, 2]⟩] st = some st2
    simp only [evalChainF, he1, he2]
  · intro e i hei
    rw [hr2 e i (by omega), if_neg (by rintro ⟨h, -⟩; omega),
      hr1 e i (by omega), if_neg (by rintro ⟨h, -⟩; omega)]
  · rw [hr2 d 2 (le_refl d), if_pos ⟨rfl, rfl⟩]

theorem simC_halfAddU (dgas d : Nat) (st : Stack)
    (hlen : st.length = STACK_DEPTH) (hd : d + 3 < STACK_DEPTH)
    (h0 : stackRead st d 0 = UNDEFINED) (h1 : stackRead st d 1 = UNDEFINED) :
    ∃ st', simulateC litTable (dgas + 3) 6 d st = SimRes.done st' false 1 ∧
      st'.length = STACK_DEPTH ∧
      (∀ e i, e < d → stackRead st' e i = stackRead st e i) := by
  have hS : STACK_DEPTH = 8 := rfl
  obtain ⟨stc1, hec1, hlenc1, hpresc1, houtc1⟩ :=
    simC_xorU (dgas + 1) (d + 1) (copyInputs [0, 1, 3] 2 d st)
      (by rw [copyInputs_length]; exact hlen) (by omega)
      (by show stackRead (copyInputs [0, 1, 3] 2 d st) (d + 1) 0 = UNDEFINED
          rw [copyInputs_read [0, 1, 3] 2 d st 0 (by omega) (by omega)]
          exact h0)
      (by show stackRead (copyInputs [0, 1, 3] 2 d st) (d + 1) 1 = UNDEFINED
          rw [copyInputs_read [0, 1, 3] 2 d st 1 (by omega) (by omega)]
          exact h1)
  obtain ⟨st1, he1, hlen1, hr1⟩ :=
    evalOut1U (dgas + 2) d 5 2 [0, 1, 3] st stc1 (by decide) rfl rfl
      hlen (by omega) hec1 hlenc1 hpresc1 houtc1
  obtain ⟨stc2, hec2, hlenc2, hpresc2, houtc2⟩ :=
    simC_andU dgas (d + 1) (copyInputs [0, 1, 2] 2 d st1)
      (by rw [copyInputs_length]; exact hlen1) (by omega)
      (by show stackRead (copyInputs [0, 1, 2] 2 d st1) (d + 1) 0 = UNDEFINED
          rw [copyInputs_read [0, 1, 2] 2 d st1 0 (by omega) (by omega)]
          show stackRead st1 d 0 = UNDEFINED
          rw [hr1 d 0 (le_refl d),
            if_neg (by rintro ⟨-, h⟩; exact absurd h (by decide))]
          exact h0)
  obtain ⟨st2, he2, hlen2, hr2⟩ :=
    evalOut1U (dgas + 2) d 2 2 [0, 1, 2] st1 stc2 (by decide) rfl rfl
      hlen1 (by omega) hec2 hlenc2 hpresc2 houtc2
  refine ⟨st2, simulateC_stalls (dgas + 2) 6 d st st2 (by omega) rfl rfl ?_,
    hlen2, ?_⟩
  · show evalChainF _ [⟨5, [0, 1, 3]⟩, ⟨2, [0, 1, 2]⟩] st = some st2
    simp only [evalChainF, he1, he2]
  · intro e i hei
    rw [hr2 e i (by omega), if_neg (by rintro ⟨h, -⟩; omega),
      hr1 e i (by omega), if_neg (by rintro ⟨h, -⟩; omega)]

theorem simC_fullAddU (dgas d : Nat) (st : Stack)
    (hlen : st.length = STACK_DEPTH) (hd : d + 3 < STACK_DEPTH)
    (h0 : stackRead st d 0 = UNDEFINED) (h1 : stackRead st d 1 = UNDEFINED)
    (h2 : stackRead st d 2 = UNDEFINED) :
    ∃ st', simulateC litTable (dgas + 3) 7 d st = SimRes.done st' false 1 ∧
      st'.length = STACK_DEPTH ∧
      (∀ e i, e < d → stackRead st' e i = stackRead st e i) ∧
      stackRead st' d 3 = UNDEFINED ∧
      stackRead st' d 4 = UNDEFINED := by
  have hS : STACK_DEPTH = 8 := rfl
  obtain ⟨stc1, hec1, hlenc1, hpresc1, houtc1⟩ :=
    simC_xorU (dgas + 1) (d + 1) (copyInputs [0, 1, 5] 2 d st)
      (by rw [copyInputs_length]; exact hlen) (by omega)
      (by show stackRead (copyInputs [0, 1, 5] 2 d st) (d + 1) 0 = UNDEFINED
          rw [copyInputs_read [0, 1, 5] 2 d st 0 (by omega) (by omega)]
          exact h0)
      (by show stackRead (copyInputs [0, 1, 5] 2 d st) (d + 1) 1 = UNDEFINED
          rw [copyInputs_read [0, 1, 5] 2 d st 1 (by omega) (by omega)]
          exact h1)
  obtain ⟨st1, he1, hlen1, hr1⟩ :=
    evalOut1U (dgas + 2) d 5 2 [0, 1, 5] st stc1 (by decide) rfl rfl
      hlen (by omega) hec1 hlenc1 hpresc1 houtc1
  obtain ⟨stc2, hec2, hlenc2, hpresc2, houtc2⟩ :=
    simC_xorU (dgas + 1) (d + 1) (copyInputs [5, 2, 4] 2 d st1)
      (by rw [copyInputs_length]; exact hlen1) (by omega)
      (by show stackRead (copyInputs [5, 2, 4] 2 d st1) (d + 1) 0 = UNDEFINED
          rw [copyInputs_read [5, 2, 4] 2 d st1 0 (by omega) (by omega)]
          show stackRead st1 d 5 = UNDEFINED
          rw [hr1 d 5 (le_refl d), if_pos ⟨rfl, rfl⟩])
      (by show stackRead (copyInputs [5, 2, 4] 2 d st1) (d + 1) 1 = UNDEFINED
          rw [copyInputs_read [5, 2, 4] 2 d st1 1 (by omega) (by omega)]
          show stackRead st1 d 2 = UNDEFINED
          rw [hr1 d 2 (le_refl d),
            if_neg (by rintro ⟨-, h⟩; exact absurd h (by decide))]
          exact h2)
  obtain ⟨st2, he2, hlen2, hr2⟩ :=
    evalOut1U (dgas + 2) d 5 2 [5, 2, 4] st1 stc2 (by decide) rfl rfl
      hlen1 (by omega) hec2 hlenc2 hpresc2 houtc2
  obtain ⟨stc3, hec3, hlenc3, hpresc3, houtc3⟩ :=
    simC_andU dgas (d + 1) (copyInputs [5, 2, 6] 2 d st2)
      (by rw [copyInputs_length]; exact hlen2) (by omega)
      (by show stackRead (copyInputs [5, 2, 6] 2 d st2) (d + 1) 0 = UNDEFINED
          rw [copyInputs_read [5, 2, 6] 2 d st2 0 (by omega) (by omega)]
          show stackRead st2 d 5 = UNDEFINED
          rw [hr2 d 5 (le_refl d),
            if_neg (by rintro ⟨-, h⟩; exact absurd h (by decide))]
          show stackRead st1 d 5 = UNDEFINED
          rw [hr1 d 5 (le_refl d), if_pos ⟨rfl, rfl⟩])
  obtain ⟨st3, he3, hlen3, hr3⟩ :=
    evalOut1U (dgas + 2) d 2 2 [5, 2, 6] st2 stc3 (by decide) rfl rfl
      hlen2 (by omega) hec3 hlenc3 hpresc3 houtc3
  obtain ⟨stc4, hec4, hlenc4, hpresc4, houtc4⟩ :=
    simC_andU dgas (d + 1) (copyInputs [0, 1, 7] 2 d st3)
      (by rw [copyInputs_length]; exact hlen3) (by omega)
      (by show stackRead (copyInputs [0, 1, 7] 2 d st3) (d + 1) 0 = UNDEFINED
          rw [copyInputs_read [0, 1, 7] 2 d st3 0 (by omega) (by omega)]
          show stackRead st3 d 0 = UNDEFINED
          rw [hr3 d 0 (le_refl d),
            if_neg (by rintro ⟨-, h⟩; exact absurd h (by decide)),
            hr2 d 0 (le_refl d),
            if_neg (by rintro ⟨-, h⟩; exact absurd h (by decide)),
            hr1 d 0 (le_refl d),
            if_neg (by rintro ⟨-, h⟩; exact absurd h (by decide))]
          exact h0)
  obtain ⟨st4, he4, hlen4, hr4⟩ :=
    evalOut1U (dgas + 2) d 2 2 [0, 1, 7] st3 stc4 (by decide) rfl rfl
      hlen3 (by omega) hec4 hlenc4 hpresc4 houtc4
  obtain ⟨stc5, hec5, hlenc5, hpresc5, houtc5⟩ :=
    simC_orU (dgas + 1) (d + 1) (copyInputs [6, 7, 3] 2 d st4)
      (by rw [copyInputs_length]; exact hlen4) (by omega)
      (by show stackRead (copyInputs [6, 7, 3] 2 d st4) (d + 1) 0 = UNDEFINED
          rw [copyInputs_read [6, 7, 3] 2 d st4 0 (by omega) (by omega)]
          show stackRead st4 d 6 = UNDEFINED
          rw [hr4 d 6 (le_refl d),
            if_neg (by rintro ⟨-, h⟩; exact absurd h (by decide))]
          show stackRead st3 d 6 = UNDEFINED
          rw [hr3 d 6 (le_refl d), if_pos ⟨rfl, rfl⟩])
      (by show stackRead (copyInputs [6, 7, 3] 2 d st4) (d + 1) 1 = UNDEFINED
          rw [copyInputs_read [6, 7, 3] 2 d st4 1 (by omega) (by omega)]
          show stackRead st4 d 7 = UNDEFINED
          rw [hr4 d 7 (le_refl d), if_pos ⟨rfl, rfl⟩])
  obtain ⟨st5, he5, hlen5, hr5⟩ :=
    evalOut1U (dgas + 2) d 3 2 [6, 7, 3] st4 stc5 (by decide) rfl rfl
      hlen4 (by omega) hec5 hlenc5 hpresc5 houtc5
  refine ⟨st5, simulateC_stalls (dgas + 2) 7 d st st5 (by omega) rfl rfl ?_,
    hlen5, ?_, ?_, ?_⟩
  · show evalChainF _
      [⟨5, [0, 1, 5]⟩, ⟨5, [5, 2, 4]⟩, ⟨2, [5, 2, 6]⟩, ⟨2, [0, 1, 7]⟩, ⟨3, [6, 7, 3]⟩]
      st = some st5
    simp only [evalChainF, he1, he2, he3, he4, he5]
  · intro e i hei
    rw [hr5 e i (by omega), if_neg (by rintro ⟨h, -⟩; omega),
      hr4 e i (by omega), if_neg (by rintro ⟨h, -⟩; omega),
      hr3 e i (by omega), if_neg (by rintro ⟨h, -⟩; omega),
      hr2 e i (by omega), if_neg (by rintro ⟨h, -⟩; omega),
      hr1 e i (by omega), if_neg (by rintro ⟨h, -⟩; omega)]
  · rw [hr5 d 3 (le_refl d), if_pos ⟨rfl, rfl⟩]
  · rw [hr5 d 4 (le_refl d),
      if_neg (by rintro ⟨-, h⟩; exact absurd h (by decide)),
      hr4 d 4 (le_refl d),
      if_neg (by rintro ⟨-, h⟩; exact absurd h (by decide)),
      hr3 d 4 (le_refl d),
      if_neg (by rintro ⟨-, h⟩; exact absurd h (by decide)),
      hr2 d 4 (le_refl d), if_pos ⟨rfl, rfl⟩]

theorem simC_fourBitU (dgas d : Nat) (st : Stack)
    (hlen : st.length = STACK_DEPTH) (hd : d + 4 < STACK_DEPTH)
    (h3 : stackRead st d 3 = UNDEFINED) (h7 : stackRead st d 7 = UNDEFINED)
    (h8 : stackRead st d 8 = UNDEFINED) (h2 : stackRead st d 2 = UNDEFINED)
    (h6 : stackRead st d 6 = UNDEFINED) (h1 : stackRead st d 1 = UNDEFINED)
    (h5 : stackRead st d 5 = UNDEFINED) (h0 : stackRead st d 0 = UNDEFINED)
    (h4 : stackRead st d 4 = UNDEFINED) :
    ∃ st', simulateC litTable (dgas + 4) 8 d st = SimRes.done st' false 1 := by
  have hS : STACK_DEPTH = 8 := rfl
  obtain ⟨stc1, hec1, hlenc1, hpresc1, hcar1, hsum1⟩ :=
    simC_fullAddU dgas (d + 1) (copyInputs [3, 7, 8, 14, 13] 3 d st)
      (by rw [copyInputs_length]; exact hlen) (by omega)
      (by show stackRead (copyInputs [3, 7, 8, 14, 13] 3 d st) (d + 1) 0 = UNDEFINED
          rw [copyInputs_read [3, 7, 8, 14, 13] 3 d st 0 (by omega) (by omega)]
          exact h3)
      (by show stackRead (copyInputs [3, 7, 8, 14, 13] 3 d st) (d + 1) 1 = UNDEFINED
          rw [copyInputs_read [3, 7, 8, 14, 13] 3 d st 1 (by omega) (by omega)]
          exact h7)
      (by show stackRead (copyInputs [3, 7, 8, 14, 13] 3 d st) (d + 1) 2 = UNDEFINED
          rw [copyInputs_read [3, 7, 8, 14, 13] 3 d st 2 (by omega) (by omega)]
          exact h8)
  obtain ⟨st1, he1, hlen1, hr1⟩ :=
    evalOut2U (dgas + 3) d [3, 7, 8, 14, 13] st stc1
      hlen (by omega) hec1 hlenc1 hpresc1 hcar1 hsum1
  obtain ⟨stc2, hec2, hlenc2, hpresc2, hcar2, hsum2⟩ :=
    simC_fullAddU dgas (d + 1) (copyInputs [2, 6, 14, 15, 12] 3 d st1)
      (by rw [copyInputs_length]; exact hlen1) (by omega)
      (by show stackRead (copyInputs [2, 6, 14, 15, 12] 3 d st1) (d + 1) 0 = UNDEFINED
          rw [copyInputs_read [2, 6, 14, 15, 12] 3 d st1 0 (by omega) (by omega)]
          show stackRead st1 d 2 = UNDEFINED
          rw [hr1 d 2 (le_refl d),
            if_neg (by rintro ⟨-, h⟩; exact absurd h (by decide)),
            if_neg (by rintro ⟨-, h⟩; exact absurd h (by decide))]
          exact h2)
      (by show stackRead (copyInputs [2, 6, 14, 15, 12] 3 d st1) (d + 1) 1 = UNDEFINED
          rw [copyInputs_read [2, 6, 14, 15, 12] 3 d st1 1 (by omega) (by omega)]
          show stackRead st1 d 6 = UNDEFINED
          rw [hr1 d 6 (le_refl d),
            if_neg (by rintro ⟨-, h⟩; exact absurd h (by decide)),
            if_neg (by rintro ⟨-, h⟩; exact absurd h (by decide))]
          exact h6)
      (by show stackRead (copyInputs [2, 6, 14, 15, 12] 3 d st1) (d + 1) 2 = UNDEFINED
          rw [copyInputs_read [2, 6, 14, 15, 12] 3 d st1 2 (by omega) (by omega)]
          show stackRead st1 d 14 = UNDEFINED
          rw [hr1 d 14 (le_refl d),
            if_neg (by rintro ⟨-, h⟩; exact absurd h (by decide)),
            if_pos ⟨rfl, rfl⟩])
  obtain ⟨st2, he2, hlen2, hr2⟩ :=
    evalOut2U (dgas + 3) d [2, 6, 14, 15, 12] st1 stc2
      hlen1 (by omega) hec2 hlenc2 hpresc2 hcar2 hsum2
  obtain ⟨stc3, hec3, hlenc3, hpresc3, hcar3, hsum3⟩ :=
    simC_fullAddU dgas (d + 1) (copyInputs [1, 5, 15, 16, 11] 3 d st2)
      (by rw [copyInputs_length]; exact hlen2) (by omega)
      (by show stackRead (copyInputs [1, 5, 15, 16, 11] 3 d st2) (d + 1) 0 = UNDEFINED
          rw [copyInputs_read [1, 5, 15, 16, 11] 3 d st2 0 (by omega) (by omega)]
          show stackRead st2 d 1 = UNDEFINED
          rw [hr2 d 1 (le_refl d),
            if_neg (by rintro ⟨-, h⟩; exact absurd h (by decide)),
            if_neg (by rintro ⟨-, h⟩; exact absurd h (by decide)),
            hr1 d 1 (le_refl d),
            if_neg (by rintro ⟨-, h⟩; exact absurd h (by decide)),
            if_neg (by rintro ⟨-, h⟩; exact absurd h (by decide))]
          exact h1)
      (by show stackRead (copyInputs [1, 5, 15, 16, 11] 3 d st2) (d + 1) 1 = UNDEFINED
          rw [copyInputs_read [1, 5, 15, 16, 11] 3 d st2 1 (by omega) (by omega)]
          show stackRead st2 d 5 = UNDEFINED
          rw [hr2 d 5 (le_refl d),
            if_neg (by rintro ⟨-, h⟩; exact absurd h (by decide)),
            if_neg (by rintro ⟨-, h⟩; exact absurd h (by decide)),
            hr1 d 5 (le_refl d),
            if_neg (by rintro ⟨-, h⟩; exact absurd h (by decide)),
            if_neg (by rintro ⟨-, h⟩; exact absurd h (by decide))]
          exact h5)
      (by show stackRead (copyInputs [1, 5, 15, 16, 11] 3 d st2) (d + 1) 2 = UNDEFINED
          rw [copyInputs_read [1, 5, 15, 16, 11] 3 d st2 2 (by omega) (by omega)]
          show stackRead st2 d 15 = UNDEFINED
          rw [hr2 d 15 (le_refl d),
            if_neg (by rintro ⟨-, h⟩; exact absurd h (by decide)),
            if_pos ⟨rfl, rfl⟩])
  obtain ⟨st3, he3, hlen3, hr3⟩ :=
    evalOut2U (dgas + 3) d [1, 5, 15, 16, 11] st2 stc3
      hlen2 (by omega) hec3 hlenc3 hpresc3 hcar3 hsum3
  obtain ⟨stc4, hec4, hlenc4, hpresc4, hcar4, hsum4⟩ :=
    simC_fullAddU dgas (d + 1) (copyInputs [0, 4, 16, 9, 10] 3 d st3)
      (by rw [copyInputs_length]; exact hlen3) (by omega)
      (by show stackRead (copyInputs [0, 4, 16, 9, 10] 3 d st3) (d + 1) 0 = UNDEFINED
          rw [copyInputs_read [0, 4, 16, 9, 10] 3 d st3 0 (by omega) (by omega)]
          show stackRead st3 d 0 = UNDEFINED
          rw [hr3 d 0 (le_refl d),
            if_neg (by rintro ⟨-, h⟩; exact absurd h (by decide)),
            if_neg (by rintro ⟨-, h⟩; exact absurd h (by decide)),
            hr2 d 0 (le_refl d),
            if_neg (by rintro ⟨-, h⟩; exact absurd h (by decide)),
            if_neg (by rintro ⟨-, h⟩; exact absurd h (by decide)),
            hr1 d 0 (le_refl d),
            if_neg (by rintro ⟨-, h⟩; exact absurd h (by decide)),
            if_neg (by rintro ⟨-, h⟩; exact absurd h (by decide))]
          exact h0)
      (by show stackRead (copyInputs [0, 4, 16, 9, 10] 3 d st3) (d + 1) 1 = UNDEFINED
          rw [copyInputs_read [0, 4, 16, 9, 10] 3 d st3 1 (by omega) (by omega)]
          show stackRead st3 d 4 = UNDEFINED
          rw [hr3 d 4 (le_refl d),
            if_neg (by rintro ⟨-, h⟩; exact absurd h (by decide)),
            if_neg (by rintro ⟨-, h⟩; exact absurd h (by decide)),
            hr2 d 4 (le_refl d),
            if_neg (by rintro ⟨-, h⟩; exact absurd h (by decide)),
            if_neg (by rintro ⟨-, h⟩; exact absurd h (by decide)),
            hr1 d 4 (le_refl d),
            if_neg (by rintro ⟨-, h⟩; exact absurd h (by decide)),
            if_neg (by rintro ⟨-, h⟩; exact absurd h (by decide))]
          exact h4)
      (by show stackRead (copyInputs [0, 4, 16, 9, 10] 3 d st3) (d + 1) 2 = UNDEFINED
          rw [copyInputs_read [0, 4, 16, 9, 10] 3 d st3 2 (by omega) (by omega)]
          show stackRead st3 d 16 = UNDEFINED
          rw [hr3 d 16 (le_refl d),
            if_neg (by rintro ⟨-, h⟩; exact absurd h (by decide)),
            if_pos ⟨rfl, rfl⟩])
  obtain ⟨st4, he4, hlen4, hr4⟩ :=
    evalOut2U (dgas + 3) d [0, 4, 16, 9, 10] st3 stc4
      hlen3 (by omega) hec4 hlenc4 hpresc4 hcar4 hsum4
  refine ⟨st4, simulateC_stalls (dgas + 3) 8 d st st4 (by omega) rfl rfl ?_⟩
  show evalChainF _
    [⟨7, [3, 7, 8, 14, 13]⟩, ⟨7, [2, 6, 14, 15, 12]⟩,
     ⟨7, [1, 5, 15, 16, 11]⟩, ⟨7, [0, 4, 16, 9, 10]⟩] st = some st4
  simp only [evalChainF, he1, he2, he3, he4]

theorem stackRead_initStack (d i : Nat) : stackRead initStack d i = UNDEFINED := by
  have h : (List.replicate STACK_DEPTH (0 : Frame)).getD d 0 = 0 := by
    rcases Nat.lt_or_ge d STACK_DEPTH with h | h
    · rw [List.getD_eq_getElem _ _ (by rw [List.length_replicate]; exact h),
        List.getElem_replicate]
    · exact List.getD_eq_default _ _ (by rw [List.length_replicate]; exact h)
  show decodeW (fread ((List.replicate STACK_DEPTH (0 : Frame)).getD d 0) i) = UNDEFINED
  rw [h]
  show decodeW (0 / 4 ^ i % 4) = UNDEFINED
  rw [Nat.zero_div, Nat.zero_mod]
  rfl

/-- C7: all-`UNDEFINED` inputs stall the scheduler.  For every circuit the
program defines (the seeded NAND and the eight decoded definitions, ids 0-8 of
`litTable`), if every wire of the frame at the entry depth is `UNDEFINED`
(deeper frames may hold arbitrary stale values), then no module resolves
during the first pass over the ring, and `simulate_circuit` returns overall
failure (`success = false`) after exactly one pass — it does not loop. -/
theorem C7_all_undefined_one_pass (cid d : Nat) (st : Stack)
    (hcid : cid ≤ 8) (hlen : st.length = STACK_DEPTH) (hd : d + 4 < STACK_DEPTH)
    (hu : ∀ i, stackRead st d i = UNDEFINED) :
    ∃ st', simulateC litTable STACK_DEPTH cid d st = SimRes.done st' false 1 := by
  have hc9 : cid = 0 ∨ cid = 1 ∨ cid = 2 ∨ cid = 3 ∨ cid = 4 ∨ cid = 5 ∨
      cid = 6 ∨ cid = 7 ∨ cid = 8 := by omega
  rcases hc9 with rfl | rfl | rfl | rfl | rfl | rfl | rfl | rfl | rfl
  · obtain ⟨st', h⟩ := simC_nandU 7 d st hlen (by omega) (hu 0)
    exact ⟨st', h⟩
  · obtain ⟨st', h, -⟩ := simC_notU 7 d st hlen (by omega) (hu 0)
    exact ⟨st', h⟩
  · obtain ⟨st', h, -⟩ := simC_andU 6 d st hlen (by omega) (hu 0)
    exact ⟨st', h⟩
  · obtain ⟨st', h, -⟩ := simC_orU 7 d st hlen (by omega) (hu 0) (hu 1)
    exact ⟨st', h⟩
  · obtain ⟨st', h, -⟩ := simC_norU 6 d st hlen (by omega) (hu 0) (hu 1)
    exact ⟨st', h⟩
  · obtain ⟨st', h, -⟩ := simC_xorU 7 d st hlen (by omega) (hu 0) (hu 1)
    exact ⟨st', h⟩
  · obtain ⟨st', h, -⟩ := simC_halfAddU 5 d st hlen (by omega) (hu 0) (hu 1)
    exact ⟨st', h⟩
  · obtain ⟨st', h, -⟩ := simC_fullAddU 5 d st hlen (by omega) (hu 0) (hu 1) (hu 2)
    exact ⟨st', h⟩
  · obtain ⟨st', h⟩ := simC_fourBitU 4 d st hlen (by omega) (hu 3) (hu 7) (hu 8)
      (hu 2) (hu 6) (hu 1) (hu 5) (hu 0) (hu 4)
    exact ⟨st', h⟩

/-- Closed witness for `C7_all_undefined_one_pass`: the four-bit adder on the
all-`UNDEFINED` initial stack. -/
theorem C7_all_undefined_one_pass_witness :
    ∃ st', simulateC litTable STACK_DEPTH 8 0 initStack = SimRes.done st' false 1 :=
  C7_all_undefined_one_pass 8 0 initStack (by decide) rfl (by decide)
    (fun i => stackRead_initStack 0 i)

end SheNand
